import Mathlib

/-!
Shallow embedding of the sudoku-solver repository (Go):
* `SolveSudoku` / `findNextCell` / `solve` from the solver file (package `sudokux`),
* `ParseInput` / `validateInitialGrid` / `isEmptyGrid` / `isValid` from `Parser.go`.

Representation notes.
* The Go grid is a `map[string]rune` whose keys are the 81 two-character
  strings "A1".."I9" (row letter `'A'+r`, column character `'1'+c`).  The
  solver-side embedding indexes cells by the pair `(r, c)` of natural numbers
  (`r, c < 9`), a `Grid` being a total function `Nat → Nat → Char`; out-of-range
  indices are never read or written by any translated function.
* The parser-side embedding keeps the map literal: an association list
  `List (String × Char)` with Go map lookup/update semantics (missing keys read
  as the zero rune), so that statements about the key set of the parsed map can
  be made.  Go iterates maps in unspecified order; the embedding iterates the
  entries in insertion (row-major) order, which is the only iteration-order
  dependent part (`validateInitialGrid`); the chosen concrete inputs make the
  refuted/established facts independent of that order.
* The recursive closure `solve` and its digit loop are modelled as a fuel-based
  interpreter `runCall` over a call stack descriptor `Call`; `SolveSudoku` runs
  it with fuel 1000, which is shown to exceed the maximal call depth.
-/

set_option maxRecDepth 40000

set_option linter.constructorNameAsVariable false
set_option linter.unnecessarySeqFocus false

namespace SudokuX

instance {ε α : Type} [DecidableEq ε] [DecidableEq α] : DecidableEq (Except ε α)
  | .error e, .error e' => decidable_of_iff (e = e') (by simp)
  | .error _, .ok _ => isFalse (by simp)
  | .ok _, .error _ => isFalse (by simp)
  | .ok a, .ok a' => decidable_of_iff (a = a') (by simp)

/-- The digit characters `'1'..'9'`, in the ascending order of every
Go loop `for num := '1'; num <= '9'; num++`. -/
def digitChars : List Char := ['1', '2', '3', '4', '5', '6', '7', '8', '9']

/-- All 81 cell coordinates in row-major order, mirroring the nested Go loops
over rows `'A'..'I'` and columns `'1'..'9'`. -/
def cellsList : List (Nat × Nat) :=
  (List.range 9).flatMap (fun r => (List.range 9).map (fun c => (r, c)))

/-- A 9×9 grid: the Go `map[string]rune` restricted to its 81 keys, indexed by
`(row, column)` with `row, column < 9`; `'.'` is a blank cell. -/
def Grid : Type := Nat → Nat → Char

/-- Write value `v` at cell `(r, c)` (the Go assignment `grid[pos] = v`). -/
def setCell (g : Grid) (r c : Nat) (v : Char) : Grid :=
  fun r' c' => if r' = r ∧ c' = c then v else g r' c'

/-- Update a used-digit tracking map at one key (the Go assignment
`used[k][num] = b`). -/
def setFlag (f : Nat → Char → Bool) (k : Nat) (num : Char) (b : Bool) :
    Nat → Char → Bool :=
  fun k' num' => if k' = k ∧ num' = num then b else f k' num'

/-- Update the subgrid tracking map; Go keys it by the two-character string of
the box's top-left cell, embedded here as the coordinate pair
`(r / 3 * 3, c / 3 * 3)`. -/
def setFlag2 (f : Nat → Nat → Char → Bool) (k1 k2 : Nat) (num : Char)
    (b : Bool) : Nat → Nat → Char → Bool :=
  fun a1 a2 num' => if a1 = k1 ∧ a2 = k2 ∧ num' = num then b else f a1 a2 num'

/-- The mutable state of one `SolveSudoku` invocation: the live grid, the three
tracking maps, the solution counter and the captured solution. -/
@[ext]
structure SolverState where
  grid : Grid
  usedRows : Nat → Char → Bool
  usedCols : Nat → Char → Bool
  usedSubgrids : Nat → Nat → Char → Bool
  solutionCount : Nat
  solvedGrid : Grid

/-- The legality test used by both `findNextCell` and the digit loop of
`solve`: `!usedRows[row][num] && !usedCols[col][num] && !usedSubgrids[subgrid][num]`. -/
def canPlace (s : SolverState) (r c : Nat) (num : Char) : Bool :=
  !s.usedRows r num && !s.usedCols c num &&
    !s.usedSubgrids (r / 3 * 3) (c / 3 * 3) num

/-- The option count computed for a blank cell inside `findNextCell`:
the number of digits `'1'..'9'` passing the legality test. -/
def countOptions (s : SolverState) (r c : Nat) : Nat :=
  (digitChars.filter (fun num => canPlace s r c num)).length

/-- `findNextCell` from the solver: scan all cells in row-major order, keep the
first blank cell whose option count is strictly below the running minimum
(initially 10), and return it with its option count; `none` plays the role of
the empty-string sentinel `bestCell == ""`. -/
def findNextCell (s : SolverState) : Option (Nat × Nat) × Nat :=
  cellsList.foldl
    (fun acc rc =>
      if s.grid rc.1 rc.2 = '.' then
        let options := countOptions s rc.1 rc.2
        if options < acc.2 then (some rc, options) else acc
      else acc)
    (none, 10)

/-- A placement step of `solve`: write the digit into the grid and mark it used
in the row, column and subgrid maps. -/
def place (s : SolverState) (r c : Nat) (num : Char) : SolverState :=
  { s with
    grid := setCell s.grid r c num
    usedRows := setFlag s.usedRows r num true
    usedCols := setFlag s.usedCols c num true
    usedSubgrids := setFlag2 s.usedSubgrids (r / 3 * 3) (c / 3 * 3) num true }

/-- The undo step of `solve`: restore the blank and clear the three flags. -/
def unplace (s : SolverState) (r c : Nat) (num : Char) : SolverState :=
  { s with
    grid := setCell s.grid r c '.'
    usedRows := setFlag s.usedRows r num false
    usedCols := setFlag s.usedCols c num false
    usedSubgrids := setFlag2 s.usedSubgrids (r / 3 * 3) (c / 3 * 3) num false }

/-- A pending activation of the recursive closure `solve`: either an entry into
`solve` itself, or the digit loop `for num := '1'; num <= '9'` at the selected
cell with the digits not yet tried. -/
inductive Call where
  | solve (s : SolverState)
  | loop (s : SolverState) (r c : Nat) (nums : List Char)

/-- The state carried by a pending call. -/
def Call.state : Call → SolverState
  | .solve s => s
  | .loop s _ _ _ => s

/-- Fuel-indexed interpreter for the recursive `solve` closure.  Every clause
is a line-by-line transcription of the Go function body; in particular, when
the incremented solution counter exceeds 1 the digit loop returns `false`
immediately, before the undo assignments, exactly as in the source. -/
def runCall : Nat → Call → SolverState × Bool
  | 0, c => (c.state, false)
  | fuel + 1, .solve s =>
    match findNextCell s with
    | (none, _) => (s, true)
    | (some rc, minOptions) =>
      if minOptions = 0 then (s, false)
      else runCall fuel (.loop s rc.1 rc.2 digitChars)
  | _ + 1, .loop s _ _ [] => (s, false)
  | fuel + 1, .loop s r c (num :: rest) =>
    if canPlace s r c num then
      let res := runCall fuel (.solve (place s r c num))
      if res.2 then
        let s3 : SolverState := { res.1 with solutionCount := res.1.solutionCount + 1 }
        let s4 : SolverState :=
          if s3.solutionCount = 1 then { s3 with solvedGrid := s3.grid } else s3
        if s4.solutionCount > 1 then (s4, false)
        else runCall fuel (.loop (unplace s4 r c num) r c rest)
      else runCall fuel (.loop (unplace res.1 r c num) r c rest)
    else runCall fuel (.loop s r c rest)

/-- One step of the initialization loops of `SolveSudoku`: if the cell is not
blank, mark its value used in the row, column and subgrid maps. -/
def markCell (s : SolverState) (r c : Nat) : SolverState :=
  let v := s.grid r c
  if v ≠ '.' then
    { s with
      usedRows := setFlag s.usedRows r v true
      usedCols := setFlag s.usedCols c v true
      usedSubgrids := setFlag2 s.usedSubgrids (r / 3 * 3) (c / 3 * 3) v true }
  else s

/-- The state of `SolveSudoku` just before `solve()` is first called: empty
tracking maps populated from the initial grid, solution counter 0, and the
freshly made (all-zero-rune) `solvedGrid`. -/
def initState (g : Grid) : SolverState :=
  cellsList.foldl (fun s rc => markCell s rc.1 rc.2)
    { grid := g
      usedRows := fun _ _ => false
      usedCols := fun _ _ => false
      usedSubgrids := fun _ _ _ => false
      solutionCount := 0
      solvedGrid := fun _ _ => Char.ofNat 0 }

/-- Fuel given to the interpreter by `SolveSudoku`; the call depth of the Go
recursion is at most `10 * 81 + 2`, so 1000 is never exhausted. -/
def solveFuel : Nat := 1000

/-- The solver state after the single top-level `solve()` call inside
`SolveSudoku`. -/
def runSolve (g : Grid) : SolverState :=
  (runCall solveFuel (.solve (initState g))).1

/-- `SolveSudoku`: run the search, then return `(grid, false)` unless the
solution counter is exactly 1, in which case return `(solvedGrid, true)`. -/
def SolveSudoku (g : Grid) : Grid × Bool :=
  let s := runSolve g
  if s.solutionCount ≠ 1 then (s.grid, false) else (s.solvedGrid, true)

/-- Build a `Grid` from nine row strings (test inputs; blanks are `'.'`). -/
def gridOfRows (rows : List String) : Grid :=
  fun r c => ((rows.getD r "").toList.getD c '.')

/-- Number of blank cells among the 81 cells. -/
def blanksCount (g : Grid) : Nat :=
  (cellsList.filter (fun rc => g rc.1 rc.2 = '.')).length

/-! ### Parser (`Parser.go`) -/

/-- The Go `map[string]rune` of the parser, embedded as an association list in
insertion order; Go's unspecified map iteration order is fixed to this
insertion (row-major) order. -/
abbrev RawGrid := List (String × Char)

/-- Go map lookup `grid[pos]`: the stored value, or the zero rune for a
missing key. -/
def mapGet (g : RawGrid) (k : String) : Char :=
  match g.find? (fun p => p.1 == k) with
  | some p => p.2
  | none => Char.ofNat 0

/-- Go map assignment `grid[pos] = v`: replace the entry if the key is
present, otherwise add it. -/
def mapSet (g : RawGrid) (k : String) (v : Char) : RawGrid :=
  if g.any (fun p => p.1 == k) then g.map (fun p => if p.1 == k then (k, v) else p)
  else g ++ [(k, v)]

/-- The row names `'A'..'I'` of the parser. -/
def rowNames : List Char := ['A', 'B', 'C', 'D', 'E', 'F', 'G', 'H', 'I']

/-- A two-character position key such as `"A1"`. -/
def posKey (rowCh colCh : Char) : String := String.mk [rowCh, colCh]

/-- `isValid` from `Parser.go`: placing `num` at `pos` conflicts with no cell
of the same row, column or 3×3 subgrid (the scans read the whole grid,
including `pos` itself). -/
def isValid (g : RawGrid) (pos : String) (num : Char) : Bool :=
  let row := pos.toList.getD 0 (Char.ofNat 0)
  let col := pos.toList.getD 1 (Char.ofNat 0)
  (digitChars.all (fun i => !(mapGet g (posKey row i) == num))) &&
  (rowNames.all (fun i => !(mapGet g (posKey i col) == num))) &&
  (let startRow := Char.ofNat ('A'.toNat + (row.toNat - 'A'.toNat) / 3 * 3)
   let startCol := Char.ofNat ('1'.toNat + (col.toNat - '1'.toNat) / 3 * 3)
   (List.range 3).all (fun i => (List.range 3).all (fun j =>
     !(mapGet g (posKey (Char.ofNat (startRow.toNat + i))
         (Char.ofNat (startCol.toNat + j))) == num))))

/-- The `for pos, val := range grid` loop of `validateInitialGrid`, iterating
over `entries` while mutating the grid `g`: each non-blank cell is temporarily
blanked and tested with `isValid`; on failure the loop returns immediately,
leaving the cell blanked, exactly as in the source. -/
def validateLoop : List (String × Char) → RawGrid → RawGrid × Bool
  | [], g => (g, true)
  | (pos, val) :: rest, g =>
    if val ≠ '.' then
      let original := mapGet g pos
      let g1 := mapSet g pos '.'
      if !isValid g1 pos original then (g1, false)
      else validateLoop rest (mapSet g1 pos original)
    else validateLoop rest g

/-- `validateInitialGrid` from `Parser.go`; the returned grid is the
(possibly mutated) map after the loop. -/
def validateInitialGrid (g : RawGrid) : RawGrid × Bool := validateLoop g g

/-- `isEmptyGrid` from `Parser.go`: every stored cell is `'.'`. -/
def isEmptyGrid (g : RawGrid) : Bool := g.all (fun p => p.2 == '.')

/-- The error cases of `ParseInput`, in the order of its `fmt.Errorf` calls. -/
inductive ParseError where
  | wrongRowCount (n : Nat)
  | rowNot9Long (i : Nat)
  | invalidChar (i : Nat)
  | tooFewClues (n : Nat)
  | conflicts
  | emptyGrid
deriving DecidableEq, Repr

/-- The inner `for j, char := range row` loop of `ParseInput` for row number
`i` (1-based): validate each character, store it at its position key and count
clues. -/
def parseChars (i : Nat) : List Char → Nat → RawGrid → Nat →
    Except ParseError (RawGrid × Nat)
  | [], _, g, clues => .ok (g, clues)
  | ch :: rest, j, g, clues =>
    if (ch < '1' ∨ '9' < ch) ∧ ch ≠ '.' then .error (.invalidChar i)
    else
      let pos := posKey (rowNames.getD (i - 1) 'A') (Char.ofNat ('1'.toNat + j))
      parseChars i rest (j + 1) (mapSet g pos ch)
        (if ch ≠ '.' then clues + 1 else clues)

/-- The outer `for i := 1; i <= 9` loop of `ParseInput`: check each row's
length and parse its characters. -/
def parseRows : List String → Nat → RawGrid → Nat →
    Except ParseError (RawGrid × Nat)
  | [], _, g, clues => .ok (g, clues)
  | row :: rest, i, g, clues =>
    if row.length ≠ 9 then .error (.rowNot9Long i)
    else match parseChars i row.toList 0 g clues with
      | .error e => .error e
      | .ok (g', clues') => parseRows rest (i + 1) g' clues'

/-- `ParseInput` from `Parser.go`, with the command-line rows
`os.Args[1..9]` passed as the `args` list.  The checks run in source order:
argument count, row shapes/characters, clue count (`< 17`), initial-grid
conflicts, emptiness. -/
def ParseInput (args : List String) : Except ParseError RawGrid :=
  if args.length ≠ 9 then .error (.wrongRowCount args.length)
  else match parseRows args 1 [] 0 with
    | .error e => .error e
    | .ok (g, clueCount) =>
      if clueCount < 17 then .error (.tooFewClues clueCount)
      else
        let v := validateInitialGrid g
        if !v.2 then .error .conflicts
        else if isEmptyGrid v.1 then .error .emptyGrid
        else .ok v.1

/-- View a parsed map as a coordinate-indexed grid (position `(r, c)` is the
key with row letter `'A'+r` and column character `'1'+c`). -/
def toGrid (g : RawGrid) : Grid :=
  fun r c => mapGet g (posKey (Char.ofNat ('A'.toNat + r)) (Char.ofNat ('1'.toNat + c)))

/-! ### Specification-level predicates on grids -/

/-- The 81 position keys `"A1".."I9"` in row-major order. -/
def standardKeys : List String :=
  cellsList.map (fun rc => posKey (Char.ofNat ('A'.toNat + rc.1)) (Char.ofNat ('1'.toNat + rc.2)))

/-- The entries that the inner parsing loop of row `i` appends for the
characters `chs`, starting at column index `j`. -/
def rowEntries (i : Nat) : List Char → Nat → RawGrid
  | [], _ => []
  | ch :: rest, j =>
    (posKey (rowNames.getD (i - 1) 'A') (Char.ofNat ('1'.toNat + j)), ch) ::
      rowEntries i rest (j + 1)

/-- The entries that the outer parsing loop appends for the rows `rows`,
the first row being row number `i`. -/
def rowsEntries : List String → Nat → RawGrid
  | [], _ => []
  | row :: rest, i => rowEntries i row.toList 0 ++ rowsEntries rest (i + 1)

/-- The command-line arguments of the `gOne` puzzle. -/
def gOneArgs : List String :=
  ["123756489", "745189236", "689234157", "214365798", "3578.1624",
   "896427315", "431578962", "562943871", "978612543"]

/-- The cells of row `r`. -/
def rowCells (r : Nat) : List (Nat × Nat) := (List.range 9).map (fun c => (r, c))

/-- The cells of column `c`. -/
def colCells (c : Nat) : List (Nat × Nat) := (List.range 9).map (fun r => (r, c))

/-- The cells of the 3×3 box with box coordinates `(br, bc)`. -/
def boxCells (br bc : Nat) : List (Nat × Nat) :=
  (List.range 3).flatMap (fun i => (List.range 3).map (fun j => (3 * br + i, 3 * bc + j)))

/-- All 27 units: 9 rows, 9 columns, 9 boxes. -/
def allUnits : List (List (Nat × Nat)) :=
  (List.range 9).map rowCells ++ (List.range 9).map colCells ++
    (List.range 3).flatMap (fun br => (List.range 3).map (fun bc => boxCells br bc))

/-- No digit occurs twice in any row, column or box. -/
def NoConf (g : Grid) : Prop :=
  ∀ u ∈ allUnits, ∀ p ∈ u, ∀ q ∈ u,
    p ≠ q → g p.1 p.2 ≠ '.' → g p.1 p.2 ≠ g q.1 q.2

/-- Every cell holds a digit `'1'..'9'` or a blank. -/
def WFValues (g : Grid) : Prop :=
  ∀ rc ∈ cellsList, g rc.1 rc.2 ∈ digitChars ∨ g rc.1 rc.2 = '.'

/-- Number of non-blank cells. -/
def cluesCount (g : Grid) : Nat :=
  (cellsList.filter (fun rc => g rc.1 rc.2 ≠ '.')).length

/-- What the grid validator guarantees on success: legal cell values, no
conflicting clues, and at least 17 clues. -/
def PassedValidation (g : Grid) : Prop :=
  WFValues g ∧ NoConf g ∧ 17 ≤ cluesCount g

/-- `g'` agrees with `g` on every clue (non-blank) cell of `g`. -/
def ExtendsG (g g' : Grid) : Prop :=
  ∀ rc ∈ cellsList, g rc.1 rc.2 ≠ '.' → g' rc.1 rc.2 = g rc.1 rc.2

/-- Every cell of `g'` holds a digit (no blanks). -/
def FullG (g' : Grid) : Prop := ∀ rc ∈ cellsList, g' rc.1 rc.2 ∈ digitChars

/-- `g'` is a completion of `g` satisfying the Sudoku constraints. -/
def IsCompletion (g g' : Grid) : Prop := ExtendsG g g' ∧ FullG g' ∧ NoConf g'

/-! ### Concrete test grids

`gFull` is a fully solved valid grid.  `gMulti` blanks the four cells
`(0,0), (0,3), (1,0), (1,3)` of `gFull` — these carry the value pattern
`1,7 / 7,1`, so `gMulti` has exactly two completions.  `gTriple` additionally
blanks the four cells `(6,2), (6,8), (7,2), (7,8)` (pattern `1,2 / 2,1`), so it
has exactly four completions.  `gOne` blanks the single cell `(4,4)` and has a
unique completion. -/

def gFull : Grid := gridOfRows
  ["123756489", "745189236", "689234157", "214365798", "357891624",
   "896427315", "431578962", "562943871", "978612543"]

def gMulti : Grid := gridOfRows
  [".23.56489", ".45.89236", "689234157", "214365798", "357891624",
   "896427315", "431578962", "562943871", "978612543"]

def gTriple : Grid := gridOfRows
  [".23.56489", ".45.89236", "689234157", "214365798", "357891624",
   "896427315", "43.57896.", "56.94387.", "978612543"]

def gOne : Grid := gridOfRows
  ["123756489", "745189236", "689234157", "214365798", "3578.1624",
   "896427315", "431578962", "562943871", "978612543"]

/-- Nine blank rows (Scenario E input). -/
def blankRows : List String := List.replicate 9 "........."

/-- A two-entry map with conflicting clues `'5'` at `"A1"` and `"A2"`. -/
def gConf : RawGrid := [("A1", '5'), ("A2", '5')]

/-! ### Invariants and counting used by the solver proofs -/

/-- The tracking maps agree with the grid: a digit is flagged in a row, column
or box exactly when it occupies some cell of that unit. -/
def InSync (s : SolverState) : Prop :=
  (∀ r < 9, ∀ num ∈ digitChars,
    (s.usedRows r num = true ↔ ∃ c < 9, s.grid r c = num)) ∧
  (∀ c < 9, ∀ num ∈ digitChars,
    (s.usedCols c num = true ↔ ∃ r < 9, s.grid r c = num)) ∧
  (∀ br < 3, ∀ bc < 3, ∀ num ∈ digitChars,
    (s.usedSubgrids (3 * br) (3 * bc) num = true ↔
      ∃ p ∈ boxCells br bc, s.grid p.1 p.2 = num))

/-- The master invariant of the search: tracking maps in sync, grid without
unit conflicts, legal cell values. -/
def Inv (s : SolverState) : Prop := InSync s ∧ NoConf s.grid ∧ WFValues s.grid

/-- Grid-level legality of placing `num` at `(r, c)`: the digit occupies no
cell of the row, the column or the box. -/
def gridCanPlace (g : Grid) (r c : Nat) (num : Char) : Prop :=
  (∀ p ∈ rowCells r, g p.1 p.2 ≠ num) ∧ (∀ p ∈ colCells c, g p.1 p.2 ≠ num) ∧
    (∀ p ∈ boxCells (r / 3) (c / 3), g p.1 p.2 ≠ num)

/-- The digit character of index `d`. -/
def digitChar (d : Fin 9) : Char := Char.ofNat ('1'.toNat + d.val)

/-- Fill the blanks of `g` (inside the 81-cell window) according to the
assignment `a`. -/
def fillWith (g : Grid) (a : Fin 9 → Fin 9 → Fin 9) : Grid :=
  fun r c =>
    if h : r < 9 ∧ c < 9 then
      (if g r c = '.' then digitChar (a ⟨r, h.1⟩ ⟨c, h.2⟩) else g r c)
    else g r c

/-- `a` encodes a conflict-free completion of `g` (with the canonical value
`0` on clue cells, so that completions correspond to assignments one-to-one). -/
def IsAssign (g : Grid) (a : Fin 9 → Fin 9 → Fin 9) : Prop :=
  (∀ r c : Fin 9, g r.val c.val ≠ '.' → a r c = 0) ∧ NoConf (fillWith g a)

instance (g : Grid) : Decidable (NoConf g) := by
  unfold NoConf; infer_instance

instance (g : Grid) : Decidable (WFValues g) := by
  unfold WFValues; infer_instance

instance (g : Grid) : Decidable (PassedValidation g) := by
  unfold PassedValidation WFValues NoConf; infer_instance

instance (s : SolverState) : Decidable (InSync s) := by
  unfold InSync; infer_instance

instance (s : SolverState) : Decidable (Inv s) := by
  unfold Inv InSync NoConf WFValues; infer_instance

instance (g : Grid) (a : Fin 9 → Fin 9 → Fin 9) : Decidable (IsAssign g a) := by
  unfold IsAssign NoConf; infer_instance

/-- The number of conflict-free completions of `g`. -/
def NComp (g : Grid) : Nat :=
  (Finset.univ.filter (fun a : Fin 9 → Fin 9 → Fin 9 => IsAssign g a)).card

/-- Point update of an assignment. -/
def updAssign (a : Fin 9 → Fin 9 → Fin 9) (r c v : Fin 9) : Fin 9 → Fin 9 → Fin 9 :=
  fun r' c' => if r' = r ∧ c' = c then v else a r' c'

/-- The digit index of a digit character (`'1' ↦ 0`, …, `'9' ↦ 8`). -/
def digitIdx (ch : Char) : Fin 9 := ⟨min 8 (ch.toNat - '1'.toNat), by omega⟩

/-- Number of conflict-free completions of `g` whose value at the blank cell
`(r, c)` is one of the digits in `nums`. -/
def NCompAt (g : Grid) (r c : Nat) (hr : r < 9) (hc : c < 9)
    (nums : List Char) : Nat :=
  (Finset.univ.filter (fun a : Fin 9 → Fin 9 → Fin 9 =>
    IsAssign g a ∧ digitChar (a ⟨r, hr⟩ ⟨c, hc⟩) ∈ nums)).card

/-- The canonical assignment encoding a completion `g'` of `g`. -/
def assignOf (g g' : Grid) : Fin 9 → Fin 9 → Fin 9 :=
  fun r c => if g r.val c.val = '.' then digitIdx (g' r.val c.val) else 0

/-- Specification of a `solve` activation in the clean regime (at most one
completion remains to be counted): on a full grid it returns `(s, true)`
untouched; otherwise the search rolls the state back exactly, adds the number
of completions to the counter, reports `false`, and captures a completion as
the snapshot precisely when the counter moves from 0 to 1. -/
def SolveOut (fuel : Nat) (s : SolverState) : Prop :=
  if blanksCount s.grid = 0 then runCall fuel (.solve s) = (s, true)
  else
    (runCall fuel (.solve s)).1.grid = s.grid ∧
    (runCall fuel (.solve s)).1.usedRows = s.usedRows ∧
    (runCall fuel (.solve s)).1.usedCols = s.usedCols ∧
    (runCall fuel (.solve s)).1.usedSubgrids = s.usedSubgrids ∧
    (runCall fuel (.solve s)).1.solutionCount = s.solutionCount + NComp s.grid ∧
    (runCall fuel (.solve s)).2 = false ∧
    (if s.solutionCount = 0 ∧ NComp s.grid = 1 then
      IsCompletion s.grid (runCall fuel (.solve s)).1.solvedGrid
    else (runCall fuel (.solve s)).1.solvedGrid = s.solvedGrid)

/-- Specification of a digit-loop activation in the clean regime, with
`NCompAt` restricting the count to completions whose digit at the loop's cell
is among the digits still to be tried. -/
def LoopOut (fuel : Nat) (s : SolverState) (r c : Nat) (hr : r < 9)
    (hc : c < 9) (nums : List Char) : Prop :=
  (runCall fuel (.loop s r c nums)).1.grid = s.grid ∧
  (runCall fuel (.loop s r c nums)).1.usedRows = s.usedRows ∧
  (runCall fuel (.loop s r c nums)).1.usedCols = s.usedCols ∧
  (runCall fuel (.loop s r c nums)).1.usedSubgrids = s.usedSubgrids ∧
  (runCall fuel (.loop s r c nums)).1.solutionCount =
    s.solutionCount + NCompAt s.grid r c hr hc nums ∧
  (runCall fuel (.loop s r c nums)).2 = false ∧
  (if s.solutionCount = 0 ∧ NCompAt s.grid r c hr hc nums = 1 then
    IsCompletion s.grid (runCall fuel (.loop s r c nums)).1.solvedGrid
  else (runCall fuel (.loop s r c nums)).1.solvedGrid = s.solvedGrid)

/-- Completeness clause for `solve` activations: the counter grows to at least
`min (current + completions) 2` no matter how corrupted the regime is. -/
def CompleteSolve (fuel : Nat) : Prop :=
  ∀ s : SolverState, Inv s → 0 < blanksCount s.grid →
    11 * blanksCount s.grid + 1 ≤ fuel →
    min (s.solutionCount + NComp s.grid) 2 ≤
      (runCall fuel (.solve s)).1.solutionCount

/-- Completeness clause for digit-loop activations. -/
def CompleteLoop (fuel : Nat) : Prop :=
  ∀ (s : SolverState) (r c : Nat) (hr : r < 9) (hc : c < 9)
    (nums : List Char), Inv s → s.grid r c = '.' → nums.Sublist digitChars →
    11 * (blanksCount s.grid - 1) + nums.length + 2 ≤ fuel →
    min (s.solutionCount + NCompAt s.grid r c hr hc nums) 2 ≤
      (runCall fuel (.loop s r c nums)).1.solutionCount

/-- Precondition of a pending call: a digit loop runs at a cell that is blank,
in range, with its digit list a sublist of `'1'..'9'`. -/
def CallWF : Call → Prop
  | .solve _ => True
  | .loop s r c nums => s.grid r c = '.' ∧ (r, c) ∈ cellsList ∧ nums.Sublist digitChars

/-- The master invariant attached to a pending call. -/
def CallInv (call : Call) : Prop := Inv call.state ∧ CallWF call

/-- A conflict-free 18-clue grid with no completion: the blank cell `(0,0)`
sees the digits `2..9` in its row and `1` in its column, so it has no
candidate. -/
def gNoSol : Grid := gridOfRows
  [".23756489", ".........", ".........", "1........", ".........",
   ".........", ".........", ".........", "978612543"]

/-! ### Well-formed command-line rows (for the parser claims) -/

/-- A row string of length 9 whose characters are digits or dots. -/
def rowWF (row : String) : Prop :=
  row.length = 9 ∧ ∀ ch ∈ row.toList, ch ∈ digitChars ∨ ch = '.'

/-- Nine well-formed rows. -/
def rowsWF (args : List String) : Prop :=
  args.length = 9 ∧ ∀ row ∈ args, rowWF row

/-- Total number of clue characters in the rows. -/
def cluesOfRows (args : List String) : Nat :=
  (args.map (fun row => (row.toList.filter (fun ch => ch ≠ '.')).length)).sum

/-- The body of the `findNextCell` scan loop, as a named step function
(definitionally equal to the lambda inside `findNextCell`). -/
def scanStep (s : SolverState) (acc : Option (Nat × Nat) × Nat) (rc : Nat × Nat) :
    Option (Nat × Nat) × Nat :=
  if s.grid rc.1 rc.2 = '.' then
    let options := countOptions s rc.1 rc.2
    if options < acc.2 then (some rc, options) else acc
  else acc

/-- Loop invariant of the `findNextCell` scan over a processed prefix `pre`:
either nothing was selected and the prefix holds no blank, or the selected
blank cell splits the prefix so that every blank strictly before it has
strictly more options and every blank after it has at least as many. -/
def ScanInv (s : SolverState) (pre : List (Nat × Nat))
    (acc : Option (Nat × Nat) × Nat) : Prop :=
  (acc = (none, 10) ∧ ∀ rc ∈ pre, s.grid rc.1 rc.2 ≠ '.') ∨
  (∃ rc p₁ p₂, acc = (some rc, countOptions s rc.1 rc.2) ∧ pre = p₁ ++ rc :: p₂ ∧
    s.grid rc.1 rc.2 = '.' ∧
    (∀ b ∈ p₁, s.grid b.1 b.2 = '.' →
      countOptions s rc.1 rc.2 < countOptions s b.1 b.2) ∧
    (∀ b ∈ p₂, s.grid b.1 b.2 = '.' →
      countOptions s rc.1 rc.2 ≤ countOptions s b.1 b.2))

/-! ## Theorems -/

/-- C5 (counterexample): on the all-blank input, `ParseInput` fails with the
too-few-clues error reporting 0 clues — not with the distinct empty-grid
error the claim requires — because the clue-count check runs before the
emptiness check. -/
theorem parseInput_allBlank_not_emptyGrid :
    ParseInput blankRows = Except.error (ParseError.tooFewClues 0) ∧
      ParseInput blankRows ≠ Except.error ParseError.emptyGrid := by
  exact ⟨by decide, by decide⟩

/-- C5 (amended): for the 81-blank grid, validation fails with the
`TooFewClues` condition reporting 0 clues (the clue-count check precedes the
emptiness check, so the distinct `EmptyGrid` condition is not reached), and
since `ParseInput` errors out, the solver is not invoked on it. -/
theorem parseInput_allBlank_tooFewClues :
    ParseInput blankRows = Except.error (ParseError.tooFewClues 0) := by decide

/-- C7 (counterexample): `validateInitialGrid` on the map with the conflicting
clues `'5'` at `"A1"` and `"A2"` returns with the tested cell `"A1"` left
blanked: the failure path does not undo the temporary blanking, so validation
mutates the grid it was given. -/
theorem validateInitialGrid_mutates_on_conflict :
    (validateInitialGrid gConf).1 ≠ gConf ∧
      mapGet (validateInitialGrid gConf).1 "A1" = '.' ∧ mapGet gConf "A1" = '5' := by
  exact ⟨by decide, by decide, by decide⟩

theorem any_key_iff (g : RawGrid) (k : String) :
    (g.any (fun p => p.1 == k) = true) ↔ k ∈ g.map Prod.fst := by
  simp only [List.any_eq_true, beq_iff_eq, List.mem_map]

theorem mapSet_present (g : RawGrid) (k : String) (v : Char)
    (hk : k ∈ g.map Prod.fst) :
    mapSet g k v = g.map (fun p => if p.1 == k then (k, v) else p) := by
  unfold mapSet
  rw [if_pos ((any_key_iff g k).mpr hk)]

theorem mem_keys_mapSet_self (g : RawGrid) (k : String) (v : Char)
    (hk : k ∈ g.map Prod.fst) : k ∈ (mapSet g k v).map Prod.fst := by
  rw [mapSet_present g k v hk]
  obtain ⟨p, hp, hpk⟩ := List.mem_map.mp hk
  refine List.mem_map.mpr ⟨(k, v), List.mem_map.mpr ⟨p, hp, ?_⟩, rfl⟩
  simp [hpk]

theorem mapSet_mapSet_restore (g : RawGrid) (k : String)
    (hk : k ∈ g.map Prod.fst) (hnd : (g.map Prod.fst).Nodup) :
    mapSet (mapSet g k '.') k (mapGet g k) = g := by
  induction g with
  | nil => simp at hk
  | cons p t ih =>
    have hnd' : (t.map Prod.fst).Nodup := (List.nodup_cons.mp (by simpa using hnd)).2
    have hpt : p.1 ∉ t.map Prod.fst := (List.nodup_cons.mp (by simpa using hnd)).1
    by_cases hpk : p.1 = k
    · have hkt : k ∉ t.map Prod.fst := hpk ▸ hpt
      have hget : mapGet (p :: t) k = p.2 := by
        unfold mapGet
        rw [List.find?_cons_of_pos _ (by simp [hpk])]
      have hmapid : ∀ v : Char,
          (t.map fun q => if q.1 == k then (k, v) else q) = t := by
        intro v
        refine List.map_congr_left (fun q hq => ?_) |>.trans (List.map_id t)
        have : q.1 ≠ k := fun h => hkt (h ▸ List.mem_map_of_mem Prod.fst hq)
        simp [this]
      have h1 : mapSet (p :: t) k '.' = (k, '.') :: t := by
        rw [mapSet_present _ _ _ hk]
        simp only [List.map_cons, if_pos (by simp [hpk] : (p.1 == k) = true)]
        rw [hmapid]
      have h2 : mapSet ((k, '.') :: t) k p.2 = (k, p.2) :: t := by
        rw [mapSet_present _ _ _ (by simp)]
        simp only [List.map_cons, if_pos (by simp : ((k, '.').1 == k) = true)]
        rw [hmapid]
      rw [hget, h1, h2]
      have : p = (k, p.2) := by
        rw [← hpk]
      rw [← this]
    · have hkt : k ∈ t.map Prod.fst := by
        rcases (by simpa using hk : k = p.1 ∨ k ∈ t.map Prod.fst) with h | h
        · exact absurd h.symm hpk
        · exact h
      have hget : mapGet (p :: t) k = mapGet t k := by
        unfold mapGet
        rw [List.find?_cons_of_neg _ (by simp [hpk])]
      have hsplit : ∀ (v : Char) (g0 : RawGrid), k ∈ g0.map Prod.fst →
          mapSet (p :: g0) k v = p :: mapSet g0 k v := by
        intro v g0 hg0
        rw [mapSet_present _ _ _ (by simp [hg0]), mapSet_present _ _ _ hg0]
        simp only [List.map_cons, if_neg (by simp [hpk] : ¬((p.1 == k) = true))]
      rw [hget, hsplit '.' t hkt,
        hsplit (mapGet t k) (mapSet t k '.') (mem_keys_mapSet_self t k '.' hkt),
        ih hkt hnd']

theorem keys_mapSet_present (g : RawGrid) (k : String) (v : Char)
    (hk : k ∈ g.map Prod.fst) :
    (mapSet g k v).map Prod.fst = g.map Prod.fst := by
  rw [mapSet_present g k v hk, List.map_map]
  refine List.map_congr_left (fun p hp => ?_)
  by_cases h : p.1 = k <;> simp [h]

theorem validateLoop_ok_id (entries : List (String × Char)) (g : RawGrid)
    (hsub : ∀ p ∈ entries, p.1 ∈ g.map Prod.fst)
    (hnd : (g.map Prod.fst).Nodup)
    (hok : (validateLoop entries g).2 = true) :
    (validateLoop entries g).1 = g := by
  induction entries with
  | nil => rfl
  | cons p rest ih =>
    have hmem := hsub p (List.mem_cons_self p rest)
    by_cases hval : p.2 ≠ '.'
    · rw [validateLoop, if_pos hval] at hok ⊢
      by_cases hv : isValid (mapSet g p.1 '.') p.1 (mapGet g p.1) = true
      · rw [if_neg (by simp [hv])] at hok ⊢
        rw [mapSet_mapSet_restore g p.1 hmem hnd] at hok ⊢
        exact ih (fun q hq => hsub q (List.mem_cons_of_mem p hq)) hok
      · rw [if_pos (by simp [hv])] at hok
        simp at hok
    · rw [validateLoop, if_neg hval] at hok ⊢
      exact ih (fun q hq => hsub q (List.mem_cons_of_mem p hq)) hok

/-- C7 (amended): on its success path the conflict check mutates nothing —
for any grid with distinct keys, if `validateInitialGrid` answers `true` the
grid it hands back is exactly the grid it was given (every temporary blanking
was undone); on its failure path, however, it returns with the offending cell
still blanked. -/
theorem validateInitialGrid_ok_no_mutation (g : RawGrid)
    (hnd : (g.map Prod.fst).Nodup)
    (hok : (validateInitialGrid g).2 = true) :
    (validateInitialGrid g).1 = g :=
  validateLoop_ok_id g g (fun _p hp => List.mem_map_of_mem Prod.fst hp) hnd hok

/-- Witness for the amended C7 at a concrete one-entry grid. -/
theorem validateInitialGrid_ok_no_mutation_witness :
    (validateInitialGrid [("A1", '1')]).1 = [("A1", '1')] :=
  validateInitialGrid_ok_no_mutation [("A1", '1')] (by decide) (by decide)

theorem parseChars_ok_count (i : Nat) (chs : List Char) :
    ∀ (j : Nat) (g : RawGrid) (clues : Nat),
      (∀ ch ∈ chs, ch ∈ digitChars ∨ ch = '.') →
      ∃ g', parseChars i chs j g clues =
        .ok (g', clues + (chs.filter (fun ch => ch ≠ '.')).length) := by
  induction chs with
  | nil => intro j g clues _; exact ⟨g, by simp [parseChars]⟩
  | cons ch rest ih =>
    intro j g clues h
    have hch := h ch (List.mem_cons_self ch rest)
    have hcond : ¬((ch < '1' ∨ '9' < ch) ∧ ch ≠ '.') := by
      rcases hch with hd | hdot
      · rintro ⟨hlt, _⟩
        revert hlt
        fin_cases hd <;> decide
      · rintro ⟨_, hne⟩; exact hne hdot
    rw [parseChars, if_neg hcond]
    obtain ⟨g', hg'⟩ := ih (j + 1)
      (mapSet g (posKey (rowNames.getD (i - 1) 'A') (Char.ofNat ('1'.toNat + j))) ch)
      (if ch ≠ '.' then clues + 1 else clues)
      (fun c hc => h c (List.mem_cons_of_mem ch hc))
    refine ⟨g', hg'.trans ?_⟩
    by_cases hdot : ch = '.' <;> (simp [hdot]; try omega)

theorem parseRows_ok_count (args : List String) :
    ∀ (i : Nat) (g : RawGrid) (clues : Nat),
      (∀ row ∈ args, rowWF row) →
      ∃ g', parseRows args i g clues = .ok (g', clues + cluesOfRows args) := by
  induction args with
  | nil => intro i g clues _; exact ⟨g, by simp [parseRows, cluesOfRows]⟩
  | cons row rest ih =>
    intro i g clues h
    have hrow := h row (List.mem_cons_self row rest)
    rw [parseRows, if_neg (by simp [hrow.1])]
    obtain ⟨g1, hg1⟩ := parseChars_ok_count i row.toList 0 g clues hrow.2
    rw [hg1]
    obtain ⟨g', hg'⟩ := ih (i + 1) g1
      (clues + (row.toList.filter (fun ch => ch ≠ '.')).length)
      (fun r hr => h r (List.mem_cons_of_mem row hr))
    refine ⟨g', hg'.trans ?_⟩
    simp [cluesOfRows]
    omega

/-- C6 (confirmed): for well-formed rows whose total clue count is at least 1
and below 17, `ParseInput` fails with the too-few-clues error reporting that
count — the clue-count check precedes the conflict check, so this holds
whether or not the clues conflict. -/
theorem parseInput_tooFewClues (args : List String) (hwf : rowsWF args)
    (_h1 : 1 ≤ cluesOfRows args) (h17 : cluesOfRows args < 17) :
    ParseInput args = Except.error (ParseError.tooFewClues (cluesOfRows args)) := by
  obtain ⟨hlen, hrows⟩ := hwf
  obtain ⟨g', hg'⟩ := parseRows_ok_count args 1 [] 0 hrows
  unfold ParseInput
  rw [if_neg (by omega), hg']
  simp [h17]

/-- Witness for C6: a 16-clue conflict-free grid is rejected with the
too-few-clues error. -/
theorem parseInput_tooFewClues_witness :
    ParseInput ["123756489", "7451892..", ".........", ".........", ".........",
      ".........", ".........", ".........", "........."] =
      Except.error (ParseError.tooFewClues 16) := by
  have h := parseInput_tooFewClues
    ["123756489", "7451892..", ".........", ".........", ".........",
      ".........", ".........", ".........", "........."]
    (by constructor
        · decide
        · intro row hrow
          fin_cases hrow <;> exact ⟨by decide, by decide⟩)
    (by decide) (by decide)
  simpa using h

theorem findNextCell_eq_foldl (s : SolverState) :
    findNextCell s = cellsList.foldl (scanStep s) (none, 10) := rfl

theorem countOptions_le_nine (s : SolverState) (r c : Nat) :
    countOptions s r c ≤ 9 :=
  le_trans (List.length_filter_le _ _) (by decide)

theorem scanInv_step (s : SolverState) (pre : List (Nat × Nat))
    (acc : Option (Nat × Nat) × Nat) (x : Nat × Nat)
    (h : ScanInv s pre acc) : ScanInv s (pre ++ [x]) (scanStep s acc x) := by
  rcases h with ⟨hacc, hpre⟩ | ⟨rc, p₁, p₂, hacc, hsplit, hblank, hbefore, hafter⟩
  · by_cases hx : s.grid x.1 x.2 = '.'
    · right
      refine ⟨x, pre, [], ?_, by simp, hx, ?_, by simp⟩
      · subst hacc
        have hlt : countOptions s x.1 x.2 < 10 :=
          Nat.lt_succ_of_le (countOptions_le_nine s x.1 x.2)
        simp [scanStep, hx, hlt]
      · exact fun b hb hbblank => absurd hbblank (hpre b hb)
    · left
      refine ⟨by subst hacc; simp [scanStep, hx], ?_⟩
      intro rc hrc
      rcases List.mem_append.mp hrc with h1 | h2
      · exact hpre rc h1
      · simp at h2; subst h2; exact hx
  · by_cases hx : s.grid x.1 x.2 = '.'
    · by_cases hlt : countOptions s x.1 x.2 < countOptions s rc.1 rc.2
      · right
        refine ⟨x, pre, [], ?_, by simp, hx, ?_, by simp⟩
        · subst hacc; simp [scanStep, hx, hlt]
        · intro b hb hbblank
          rw [hsplit] at hb
          rcases List.mem_append.mp hb with hb₁ | hb₂
          · exact lt_trans hlt (hbefore b hb₁ hbblank)
          · rcases List.mem_cons.mp hb₂ with hbrc | hb₂
            · subst hbrc; exact hlt
            · exact lt_of_lt_of_le hlt (hafter b hb₂ hbblank)
      · right
        refine ⟨rc, p₁, p₂ ++ [x], ?_, by rw [hsplit]; simp, hblank, hbefore, ?_⟩
        · subst hacc; simp [scanStep, hx, hlt]
        · intro b hb hbblank
          rcases List.mem_append.mp hb with hb₂ | hbx
          · exact hafter b hb₂ hbblank
          · simp at hbx; subst hbx; omega
    · right
      refine ⟨rc, p₁, p₂ ++ [x], ?_, by rw [hsplit]; simp, hblank, hbefore, ?_⟩
      · subst hacc; simp [scanStep, hx]
      · intro b hb hbblank
        rcases List.mem_append.mp hb with hb₂ | hbx
        · exact hafter b hb₂ hbblank
        · simp at hbx; subst hbx; exact absurd hbblank hx

theorem scanInv_foldl (s : SolverState) (l : List (Nat × Nat)) :
    ∀ (pre : List (Nat × Nat)) (acc : Option (Nat × Nat) × Nat),
      ScanInv s pre acc → ScanInv s (pre ++ l) (l.foldl (scanStep s) acc) := by
  induction l with
  | nil => intro pre acc h; simpa using h
  | cons x l' ih =>
    intro pre acc h
    have h2 := ih (pre ++ [x]) (scanStep s acc x) (scanInv_step s pre acc x h)
    simpa [List.append_assoc] using h2

theorem scanInv_findNextCell (s : SolverState) :
    ScanInv s cellsList (findNextCell s) := by
  have h := scanInv_foldl s cellsList [] (none, 10) (Or.inl ⟨rfl, by simp⟩)
  simpa [findNextCell_eq_foldl] using h

/-- C8 (confirmed): the cell selector of the solver returns the empty sentinel
exactly when no blank cell remains; otherwise it returns a blank cell together
with its option count, that count being minimal over all blank cells, the tie
going to the first such cell in row-major scan order (every blank strictly
earlier in the scan has strictly more options); and when the returned count is
0 the `solve` branch fails immediately, leaving the state untouched and trying
no digit. -/
theorem findNextCell_spec (s : SolverState) :
    ((findNextCell s).1 = none →
      findNextCell s = (none, 10) ∧ ∀ rc ∈ cellsList, s.grid rc.1 rc.2 ≠ '.') ∧
    ((∀ rc ∈ cellsList, s.grid rc.1 rc.2 ≠ '.') → (findNextCell s).1 = none) ∧
    (∀ rc m, findNextCell s = (some rc, m) →
      rc ∈ cellsList ∧ s.grid rc.1 rc.2 = '.' ∧ m = countOptions s rc.1 rc.2 ∧
      (∀ b ∈ cellsList, s.grid b.1 b.2 = '.' → m ≤ countOptions s b.1 b.2) ∧
      (∃ p₁ p₂, cellsList = p₁ ++ rc :: p₂ ∧
        ∀ b ∈ p₁, s.grid b.1 b.2 = '.' → m < countOptions s b.1 b.2)) ∧
    (∀ rc, findNextCell s = (some rc, 0) →
      ∀ fuel, runCall (fuel + 1) (.solve s) = (s, false)) := by
  have hinv := scanInv_findNextCell s
  refine ⟨?_, ?_, ?_, ?_⟩
  · intro hnone
    rcases hinv with ⟨hacc, hpre⟩ | ⟨rc, p₁, p₂, hacc, _, _, _, _⟩
    · exact ⟨hacc, hpre⟩
    · rw [hacc] at hnone; simp at hnone
  · intro hall
    rcases hinv with ⟨hacc, _⟩ | ⟨rc, p₁, p₂, hacc, hsplit, hblank, _, _⟩
    · rw [hacc]
    · exact absurd hblank (hall rc (by rw [hsplit]; simp))
  · intro rc m hres
    rcases hinv with ⟨hacc, _⟩ | ⟨rc', p₁, p₂, hacc, hsplit, hblank, hbefore, hafter⟩
    · rw [hacc] at hres; simp at hres
    · rw [hacc] at hres
      have hrc : rc' = rc := by simpa using congrArg Prod.fst hres
      have hm : m = countOptions s rc'.1 rc'.2 := by
        simpa using (congrArg Prod.snd hres).symm
      subst hrc
      refine ⟨by rw [hsplit]; simp, hblank, hm, ?_, p₁, p₂, hsplit, ?_⟩
      · intro b hb hbblank
        rw [hsplit] at hb
        rcases List.mem_append.mp hb with hb₁ | hb₂
        · exact le_of_lt (hm ▸ hbefore b hb₁ hbblank)
        · rcases List.mem_cons.mp hb₂ with hbrc | hb₂
          · subst hbrc; exact le_of_eq hm
          · exact hm ▸ hafter b hb₂ hbblank
      · intro b hb hbblank
        exact hm ▸ hbefore b hb hbblank
  · intro rc hres fuel
    rw [runCall, hres]
    simp

/-- Witness for C8 at the concrete state of `gOne`: the selector picks the
single blank cell `(4,4)` with option count 1, and that count bounds every
blank cell's count. -/
theorem findNextCell_spec_witness :
    1 ≤ countOptions (initState gOne) 4 4 := by
  have h := (findNextCell_spec (initState gOne)).2.2.1 (4, 4) 1 (by decide)
  have hb := h.2.2.2.1 (4, 4) (by decide) (by decide)
  exact hb

theorem setCell_same (g : Grid) (r c : Nat) (v : Char) : setCell g r c v r c = v := by
  simp [setCell]

theorem setCell_other (g : Grid) (r c : Nat) (v : Char) (r' c' : Nat)
    (h : ¬(r' = r ∧ c' = c)) : setCell g r c v r' c' = g r' c' := by
  simp only [setCell, if_neg h]

theorem setFlag_same (f : Nat → Char → Bool) (k : Nat) (num : Char) (b : Bool) :
    setFlag f k num b k num = b := by simp [setFlag]

theorem setFlag_other (f : Nat → Char → Bool) (k : Nat) (num : Char) (b : Bool)
    (k' : Nat) (num' : Char) (h : ¬(k' = k ∧ num' = num)) :
    setFlag f k num b k' num' = f k' num' := by
  simp only [setFlag, if_neg h]

theorem setFlag2_same (f : Nat → Nat → Char → Bool) (k1 k2 : Nat) (num : Char)
    (b : Bool) : setFlag2 f k1 k2 num b k1 k2 num = b := by simp [setFlag2]

theorem setFlag2_other (f : Nat → Nat → Char → Bool) (k1 k2 : Nat) (num : Char)
    (b : Bool) (k1' k2' : Nat) (num' : Char)
    (h : ¬(k1' = k1 ∧ k2' = k2 ∧ num' = num)) :
    setFlag2 f k1 k2 num b k1' k2' num' = f k1' k2' num' := by
  simp only [setFlag2, if_neg h]

theorem mem_cellsList (r c : Nat) : (r, c) ∈ cellsList ↔ r < 9 ∧ c < 9 := by
  simp only [cellsList, List.mem_flatMap, List.mem_map, List.mem_range]
  constructor
  · rintro ⟨a, ha, b, hb, h⟩
    injection h with h1 h2
    exact ⟨h1 ▸ ha, h2 ▸ hb⟩
  · rintro ⟨hr, hc⟩; exact ⟨r, hr, c, hc, rfl⟩

theorem cellsList_nodup : cellsList.Nodup := by decide

theorem mem_rowCells (r x y : Nat) : (x, y) ∈ rowCells r ↔ x = r ∧ y < 9 := by
  simp only [rowCells, List.mem_map, List.mem_range]
  constructor
  · rintro ⟨c, hc, h⟩
    injection h with h1 h2
    exact ⟨h1.symm, h2 ▸ hc⟩
  · rintro ⟨hx, hy⟩; exact ⟨y, hy, by rw [hx]⟩

theorem mem_colCells (c x y : Nat) : (x, y) ∈ colCells c ↔ y = c ∧ x < 9 := by
  simp only [colCells, List.mem_map, List.mem_range]
  constructor
  · rintro ⟨a, ha, h⟩
    injection h with h1 h2
    exact ⟨h2.symm, h1 ▸ ha⟩
  · rintro ⟨hy, hx⟩; exact ⟨x, hx, by rw [hy]⟩

theorem mem_boxCells (br bc x y : Nat) :
    (x, y) ∈ boxCells br bc ↔ ∃ i < 3, ∃ j < 3, x = 3 * br + i ∧ y = 3 * bc + j := by
  simp only [boxCells, List.mem_flatMap, List.mem_map, List.mem_range]
  constructor
  · rintro ⟨i, hi, j, hj, h⟩
    injection h with h1 h2
    exact ⟨i, hi, j, hj, h1.symm, h2.symm⟩
  · rintro ⟨i, hi, j, hj, hx, hy⟩
    exact ⟨i, hi, j, hj, by rw [hx, hy]⟩

theorem mem_boxCells_div (br bc x y : Nat) (hbr : br < 3) (hbc : bc < 3) :
    (x, y) ∈ boxCells br bc ↔ x / 3 = br ∧ y / 3 = bc ∧ x < 9 ∧ y < 9 := by
  rw [mem_boxCells]
  constructor
  · rintro ⟨i, hi, j, hj, hx, hy⟩
    subst hx; subst hy
    omega
  · rintro ⟨hx, hy, hx9, hy9⟩
    exact ⟨x % 3, by omega, y % 3, by omega, by omega, by omega⟩

theorem rowCells_mem_allUnits (r : Nat) (hr : r < 9) : rowCells r ∈ allUnits := by
  simp only [allUnits, List.mem_append, List.mem_map, List.mem_range, List.mem_flatMap]
  exact Or.inl (Or.inl ⟨r, hr, rfl⟩)

theorem colCells_mem_allUnits (c : Nat) (hc : c < 9) : colCells c ∈ allUnits := by
  simp only [allUnits, List.mem_append, List.mem_map, List.mem_range, List.mem_flatMap]
  exact Or.inl (Or.inr ⟨c, hc, rfl⟩)

theorem boxCells_mem_allUnits (br bc : Nat) (hbr : br < 3) (hbc : bc < 3) :
    boxCells br bc ∈ allUnits := by
  simp only [allUnits, List.mem_append, List.mem_map, List.mem_range, List.mem_flatMap]
  exact Or.inr ⟨br, hbr, bc, hbc, rfl⟩

theorem unit_cases (u : List (Nat × Nat)) (hu : u ∈ allUnits) (x y : Nat)
    (hmem : (x, y) ∈ u) :
    u = rowCells x ∨ u = colCells y ∨ u = boxCells (x / 3) (y / 3) := by
  simp only [allUnits, List.mem_append, List.mem_map, List.mem_range,
    List.mem_flatMap] at hu
  rcases hu with (⟨r, _, hru⟩ | ⟨c, _, hcu⟩) | ⟨br, hbr, bc, hbc, hbu⟩
  · subst hru
    exact Or.inl (by rw [((mem_rowCells r x y).mp hmem).1])
  · subst hcu
    exact Or.inr (Or.inl (by rw [((mem_colCells c x y).mp hmem).1]))
  · subst hbu
    obtain ⟨i, hi, j, hj, hx, hy⟩ := (mem_boxCells br bc x y).mp hmem
    refine Or.inr (Or.inr ?_)
    subst hx; subst hy
    congr 1 <;> omega

theorem cell_mem_units (r c : Nat) (hr : r < 9) (hc : c < 9) :
    (r, c) ∈ rowCells r ∧ (r, c) ∈ colCells c ∧ (r, c) ∈ boxCells (r / 3) (c / 3) :=
  ⟨(mem_rowCells r r c).mpr ⟨rfl, hc⟩, (mem_colCells c r c).mpr ⟨rfl, hr⟩,
    (mem_boxCells_div (r / 3) (c / 3) r c (by omega) (by omega)).mpr
      ⟨rfl, rfl, hr, hc⟩⟩

theorem units_inrange : ∀ u ∈ allUnits, ∀ p ∈ u, p.1 < 9 ∧ p.2 < 9 := by decide

theorem digitChar_ne_dot (d : Fin 9) : digitChar d ≠ '.' := by
  revert d; decide

theorem digitChar_mem (d : Fin 9) : digitChar d ∈ digitChars := by
  revert d; decide

theorem digitChar_inj (d d' : Fin 9) : digitChar d = digitChar d' → d = d' := by
  revert d d'; decide

theorem digitChar_digitIdx (ch : Char) (h : ch ∈ digitChars) :
    digitChar (digitIdx ch) = ch := by
  fin_cases h <;> decide

theorem digitChars_nodup : digitChars.Nodup := by decide

theorem digit_mem_ne_dot (num : Char) (h : num ∈ digitChars) : num ≠ '.' := by
  fin_cases h <;> decide

theorem cellsList_length : cellsList.length = 81 := by decide

theorem blanksCount_le (g : Grid) : blanksCount g ≤ 81 :=
  le_trans (List.length_filter_le _ _) (le_of_eq cellsList_length)

theorem blanksCount_pos (g : Grid) (r c : Nat) (hmem : (r, c) ∈ cellsList)
    (hb : g r c = '.') : 1 ≤ blanksCount g := by
  have hmem' : (r, c) ∈ cellsList.filter (fun rc => g rc.1 rc.2 = '.') :=
    List.mem_filter.mpr ⟨hmem, by simp [hb]⟩
  have := List.length_pos.mpr (List.ne_nil_of_mem hmem')
  exact this

theorem blanksCount_setCell (g : Grid) (r c : Nat) (v : Char)
    (hmem : (r, c) ∈ cellsList) (hb : g r c = '.') (hv : v ≠ '.') :
    blanksCount (setCell g r c v) + 1 = blanksCount g := by
  obtain ⟨l₁, l₂, hsplit⟩ := List.append_of_mem hmem
  have hnd : (l₁ ++ (r, c) :: l₂).Nodup := hsplit ▸ cellsList_nodup
  have hnotl₁ : (r, c) ∉ l₁ := fun h =>
    (List.disjoint_of_nodup_append hnd) h (List.mem_cons_self _ _)
  have hnotl₂ : (r, c) ∉ l₂ :=
    (List.nodup_cons.mp (List.Nodup.of_append_right hnd)).1
  have hcongr : ∀ l : List (Nat × Nat), (r, c) ∉ l →
      l.filter (fun rc => setCell g r c v rc.1 rc.2 = '.') =
        l.filter (fun rc => g rc.1 rc.2 = '.') := by
    intro l hl
    refine List.filter_congr (fun x hx => ?_)
    have hxne : ¬(x.1 = r ∧ x.2 = c) := by
      rintro ⟨h1, h2⟩
      exact hl (by rwa [show x = (r, c) from Prod.ext h1 h2] at hx)
    rw [setCell_other g r c v x.1 x.2 hxne]
  unfold blanksCount
  rw [hsplit, List.filter_append, List.filter_append, List.filter_cons,
    List.filter_cons, hcongr l₁ hnotl₁, hcongr l₂ hnotl₂]
  have h1 : (decide (setCell g r c v r c = '.')) = false := by
    rw [setCell_same]; simpa using hv
  have h2 : (decide (g r c = '.')) = true := by simpa using hb
  rw [h1, h2]
  simp [List.length_append]
  omega

theorem runCall_zero (call : Call) : runCall 0 call = (call.state, false) := rfl

theorem runCall_solve_full (fuel : Nat) (s : SolverState) (m : Nat)
    (hfind : findNextCell s = (none, m)) :
    runCall (fuel + 1) (.solve s) = (s, true) := by
  rw [runCall, hfind]

theorem runCall_solve_dead (fuel : Nat) (s : SolverState) (rc : Nat × Nat)
    (hfind : findNextCell s = (some rc, 0)) :
    runCall (fuel + 1) (.solve s) = (s, false) := by
  rw [runCall, hfind]
  simp

theorem runCall_solve_loop (fuel : Nat) (s : SolverState) (rc : Nat × Nat)
    (m : Nat) (hfind : findNextCell s = (some rc, m)) (hm : m ≠ 0) :
    runCall (fuel + 1) (.solve s) = runCall fuel (.loop s rc.1 rc.2 digitChars) := by
  rw [runCall, hfind]
  simp [hm]

theorem runCall_loop_skip (fuel : Nat) (s : SolverState) (r c : Nat) (num : Char)
    (rest : List Char) (hcan : ¬canPlace s r c num = true) :
    runCall (fuel + 1) (.loop s r c (num :: rest)) =
      runCall fuel (.loop s r c rest) := by
  rw [runCall, if_neg hcan]

theorem runCall_loop_fail (fuel : Nat) (s : SolverState) (r c : Nat) (num : Char)
    (rest : List Char) (hcan : canPlace s r c num = true) (s2 : SolverState)
    (hres : runCall fuel (.solve (place s r c num)) = (s2, false)) :
    runCall (fuel + 1) (.loop s r c (num :: rest)) =
      runCall fuel (.loop (unplace s2 r c num) r c rest) := by
  rw [runCall, if_pos hcan]
  simp [hres]

theorem runCall_loop_snap (fuel : Nat) (s : SolverState) (r c : Nat) (num : Char)
    (rest : List Char) (hcan : canPlace s r c num = true) (s2 : SolverState)
    (hres : runCall fuel (.solve (place s r c num)) = (s2, true))
    (hzero : s2.solutionCount = 0) :
    runCall (fuel + 1) (.loop s r c (num :: rest)) =
      runCall fuel (.loop
        (unplace { s2 with solutionCount := 1, solvedGrid := s2.grid } r c num)
        r c rest) := by
  rw [runCall, if_pos hcan]
  simp [hres, hzero]

/-- The early-return step of the digit loop: when the recursion reports a
completed grid and the incremented counter exceeds 1, the loop returns `false`
at once — before the undo assignments and without trying the remaining
digits. -/
theorem runCall_loop_early (fuel : Nat) (s : SolverState) (r c : Nat) (num : Char)
    (rest : List Char) (hcan : canPlace s r c num = true) (s2 : SolverState)
    (hres : runCall fuel (.solve (place s r c num)) = (s2, true))
    (hpos : 1 ≤ s2.solutionCount) :
    runCall (fuel + 1) (.loop s r c (num :: rest)) =
      ({ s2 with solutionCount := s2.solutionCount + 1 }, false) := by
  rw [runCall, if_pos hcan]
  simp only [hres]
  have h1 : ¬(s2.solutionCount + 1 = 1) := by omega
  have h2 : s2.solutionCount + 1 > 1 := by omega
  simp [h1, h2]

theorem runCall_count_mono : ∀ (fuel : Nat) (call : Call),
    call.state.solutionCount ≤ (runCall fuel call).1.solutionCount := by
  intro fuel
  induction fuel with
  | zero => intro call; simp [runCall_zero]
  | succ fuel ih =>
    intro call
    match call with
    | .solve s =>
      rcases hfind : findNextCell s with ⟨o, m⟩
      match o with
      | none => rw [runCall_solve_full fuel s m hfind]; simp [Call.state]
      | some rc =>
        by_cases hm : m = 0
        · subst hm; rw [runCall_solve_dead fuel s rc hfind]; simp [Call.state]
        · rw [runCall_solve_loop fuel s rc m hfind hm]
          exact ih (.loop s rc.1 rc.2 digitChars)
    | .loop s r c [] => simp [runCall, Call.state]
    | .loop s r c (num :: rest) =>
      by_cases hcan : canPlace s r c num = true
      · rcases hres : runCall fuel (.solve (place s r c num)) with ⟨s2, b⟩
        have h2 : s.solutionCount ≤ s2.solutionCount := by
          have h := ih (.solve (place s r c num))
          rw [hres] at h
          exact h
        match b with
        | false =>
          rw [runCall_loop_fail fuel s r c num rest hcan s2 hres]
          have h3 := ih (.loop (unplace s2 r c num) r c rest)
          exact le_trans h2 h3
        | true =>
          by_cases hzero : s2.solutionCount = 0
          · rw [runCall_loop_snap fuel s r c num rest hcan s2 hres hzero]
            simp only [Call.state]
            omega
          · rw [runCall_loop_early fuel s r c num rest hcan s2 hres (by omega)]
            simp only [Call.state]
            omega
      · rw [runCall_loop_skip fuel s r c num rest hcan]
        exact ih (.loop s r c rest)

theorem canPlace_flags (s : SolverState) (r c : Nat) (num : Char)
    (h : canPlace s r c num = true) :
    s.usedRows r num = false ∧ s.usedCols c num = false ∧
      s.usedSubgrids (r / 3 * 3) (c / 3 * 3) num = false := by
  simp only [canPlace, Bool.and_eq_true, Bool.not_eq_true'] at h
  exact ⟨h.1.1, h.1.2, h.2⟩

theorem setCell_setCell_cancel (g : Grid) (r c : Nat) (v : Char)
    (hblank : g r c = '.') : setCell (setCell g r c v) r c '.' = g := by
  funext r' c'
  by_cases h : r' = r ∧ c' = c
  · obtain ⟨h1, h2⟩ := h; subst h1; subst h2
    rw [setCell_same, hblank]
  · rw [setCell_other _ _ _ _ _ _ h, setCell_other _ _ _ _ _ _ h]

theorem setFlag_setFlag_cancel (f : Nat → Char → Bool) (k : Nat) (num : Char)
    (hf : f k num = false) : setFlag (setFlag f k num true) k num false = f := by
  funext k' n'
  by_cases h : k' = k ∧ n' = num
  · obtain ⟨h1, h2⟩ := h; subst h1; subst h2
    rw [setFlag_same, hf]
  · rw [setFlag_other _ _ _ _ _ _ h, setFlag_other _ _ _ _ _ _ h]

theorem setFlag2_setFlag2_cancel (f : Nat → Nat → Char → Bool) (k1 k2 : Nat)
    (num : Char) (hf : f k1 k2 num = false) :
    setFlag2 (setFlag2 f k1 k2 num true) k1 k2 num false = f := by
  funext a1 a2 n'
  by_cases h : a1 = k1 ∧ a2 = k2 ∧ n' = num
  · obtain ⟨h1, h2, h3⟩ := h; subst h1; subst h2; subst h3
    rw [setFlag2_same, hf]
  · rw [setFlag2_other _ _ _ _ _ _ _ _ h, setFlag2_other _ _ _ _ _ _ _ _ h]

theorem unplace_place (s : SolverState) (r c : Nat) (num : Char)
    (hblank : s.grid r c = '.') (hrow : s.usedRows r num = false)
    (hcol : s.usedCols c num = false)
    (hsub : s.usedSubgrids (r / 3 * 3) (c / 3 * 3) num = false) :
    unplace (place s r c num) r c num = s := by
  simp only [unplace, place]
  rw [setCell_setCell_cancel s.grid r c num hblank,
    setFlag_setFlag_cancel s.usedRows r num hrow,
    setFlag_setFlag_cancel s.usedCols c num hcol,
    setFlag2_setFlag2_cancel s.usedSubgrids _ _ num hsub]

theorem runCall_count_fix : ∀ (fuel : Nat) (call : Call), CallWF call →
    (runCall fuel call).1.solutionCount = call.state.solutionCount →
    (runCall fuel call).1 = call.state := by
  intro fuel
  induction fuel with
  | zero => intro call _ _; rw [runCall_zero]
  | succ fuel ih =>
    intro call hwf hcount
    match call with
    | .solve s =>
      rcases hfind : findNextCell s with ⟨o, m⟩
      match o with
      | none => rw [runCall_solve_full fuel s m hfind]; rfl
      | some rc =>
        by_cases hm : m = 0
        · subst hm; rw [runCall_solve_dead fuel s rc hfind]; rfl
        · rw [runCall_solve_loop fuel s rc m hfind hm] at hcount ⊢
          have hspec := (findNextCell_spec s).2.2.1 rc m hfind
          exact ih (.loop s rc.1 rc.2 digitChars)
            ⟨hspec.2.1, hspec.1, List.Sublist.refl _⟩ hcount
    | .loop s r c [] => rw [runCall]; rfl
    | .loop s r c (num :: rest) =>
      obtain ⟨hblank, hmem, hsl⟩ := hwf
      have hsl' : rest.Sublist digitChars :=
        (List.Sublist.cons num (List.Sublist.refl rest)).trans hsl
      by_cases hcan : canPlace s r c num = true
      · rcases hres : runCall fuel (.solve (place s r c num)) with ⟨s2, b⟩
        have hmono : s.solutionCount ≤ s2.solutionCount := by
          have h := runCall_count_mono fuel (.solve (place s r c num))
          rw [hres] at h
          exact h
        match b with
        | true =>
          by_cases hzero : s2.solutionCount = 0
          · rw [runCall_loop_snap fuel s r c num rest hcan s2 hres hzero]
              at hcount
            have h1 : 1 ≤ (runCall fuel (.loop
                (unplace { s2 with solutionCount := 1, solvedGrid := s2.grid }
                  r c num) r c rest)).1.solutionCount :=
              runCall_count_mono fuel (.loop
                (unplace { s2 with solutionCount := 1, solvedGrid := s2.grid }
                  r c num) r c rest)
            have hcount' : (runCall fuel (.loop
                (unplace { s2 with solutionCount := 1, solvedGrid := s2.grid }
                  r c num) r c rest)).1.solutionCount = s.solutionCount := hcount
            exfalso
            omega
          · rw [runCall_loop_early fuel s r c num rest hcan s2 hres (by omega)]
              at hcount
            have hcount' : s2.solutionCount + 1 = s.solutionCount := hcount
            exfalso
            omega
        | false =>
          rw [runCall_loop_fail fuel s r c num rest hcan s2 hres] at hcount ⊢
          have hmono2 : s2.solutionCount ≤ (runCall fuel
              (.loop (unplace s2 r c num) r c rest)).1.solutionCount :=
            runCall_count_mono fuel (.loop (unplace s2 r c num) r c rest)
          have hcount' : (runCall fuel
              (.loop (unplace s2 r c num) r c rest)).1.solutionCount =
                s.solutionCount := hcount
          have hs2count : s2.solutionCount = s.solutionCount := by omega
          have hfix := ih (.solve (place s r c num)) trivial (by
            rw [hres]
            exact hs2count)
          rw [hres] at hfix
          have hfix' : s2 = place s r c num := hfix
          rw [hfix', unplace_place s r c num hblank
            (canPlace_flags s r c num hcan).1
            (canPlace_flags s r c num hcan).2.1
            (canPlace_flags s r c num hcan).2.2] at hcount ⊢
          exact ih (.loop s r c rest) ⟨hblank, hmem, hsl'⟩ hcount
      · rw [runCall_loop_skip fuel s r c num rest hcan] at hcount ⊢
        exact ih (.loop s r c rest) ⟨hblank, hmem, hsl'⟩ hcount

theorem markCell_grid (s : SolverState) (r c : Nat) :
    (markCell s r c).grid = s.grid := by
  unfold markCell
  by_cases h : s.grid r c ≠ '.' <;> simp [h]

theorem markCell_count (s : SolverState) (r c : Nat) :
    (markCell s r c).solutionCount = s.solutionCount := by
  unfold markCell
  by_cases h : s.grid r c ≠ '.' <;> simp [h]

theorem markCell_solved (s : SolverState) (r c : Nat) :
    (markCell s r c).solvedGrid = s.solvedGrid := by
  unfold markCell
  by_cases h : s.grid r c ≠ '.' <;> simp [h]

theorem foldl_markCell_grid (l : List (Nat × Nat)) :
    ∀ s : SolverState, (l.foldl (fun s rc => markCell s rc.1 rc.2) s).grid = s.grid := by
  induction l with
  | nil => intro s; rfl
  | cons rc l ih =>
    intro s
    rw [List.foldl_cons, ih, markCell_grid]

theorem foldl_markCell_count (l : List (Nat × Nat)) :
    ∀ s : SolverState,
      (l.foldl (fun s rc => markCell s rc.1 rc.2) s).solutionCount =
        s.solutionCount := by
  induction l with
  | nil => intro s; rfl
  | cons rc l ih =>
    intro s
    rw [List.foldl_cons, ih, markCell_count]

theorem initState_grid (g : Grid) : (initState g).grid = g :=
  foldl_markCell_grid cellsList _

theorem initState_count (g : Grid) : (initState g).solutionCount = 0 :=
  foldl_markCell_count cellsList _

theorem call_state_solve (s : SolverState) : (Call.solve s).state = s := rfl

theorem call_state_loop (s : SolverState) (r c : Nat) (nums : List Char) :
    (Call.loop s r c nums).state = s := rfl

theorem runSolve_def (g : Grid) :
    runSolve g = (runCall solveFuel (.solve (initState g))).1 := rfl

theorem SolveSudoku_def (g : Grid) :
    SolveSudoku g =
      if (runSolve g).solutionCount ≠ 1 then ((runSolve g).grid, false)
      else ((runSolve g).solvedGrid, true) := rfl

/-- C4 (amended): when the search ends with solution counter 0, every
placement was undone and `SolveSudoku` returns the original input grid with
`false`; when it ends with counter 2 or more, `SolveSudoku` returns `false`
paired with the live search grid (which, as the counterexample shows, can
differ from the input where an undo was skipped). -/
theorem solveSudoku_count_zero_returns_input (g : Grid) :
    ((runSolve g).solutionCount = 0 → SolveSudoku g = (g, false)) ∧
    (2 ≤ (runSolve g).solutionCount →
      SolveSudoku g = ((runSolve g).grid, false)) := by
  constructor
  · intro h0
    have hfix : runSolve g = initState g := by
      have h := runCall_count_fix solveFuel (.solve (initState g)) trivial (by
        rw [call_state_solve, initState_count, ← runSolve_def]
        exact h0)
      rw [call_state_solve] at h
      rw [runSolve_def]
      exact h
    rw [SolveSudoku_def,
      if_pos (show (runSolve g).solutionCount ≠ 1 by rw [h0]; decide),
      hfix, initState_grid]
  · intro h2
    rw [SolveSudoku_def, if_pos (show (runSolve g).solutionCount ≠ 1 by omega)]

/-- Witness for the amended C4 at the concrete unsolvable grid `gNoSol`. -/
theorem solveSudoku_count_zero_returns_input_witness :
    SolveSudoku gNoSol = (gNoSol, false) :=
  (solveSudoku_count_zero_returns_input gNoSol).1 (by decide)

/-- C2 (amended): when the recursion reports a completed grid and the
incremented counter exceeds 1, the currently executing digit loop returns
`false` immediately — before the undo assignments and without trying its
remaining digits; the stop is not propagated further: the caller receives an
ordinary `false` and continues its own loop. -/
theorem runCall_loop_early_return (fuel : Nat) (s : SolverState) (r c : Nat)
    (num : Char) (rest : List Char) (hcan : canPlace s r c num = true)
    (s2 : SolverState)
    (hres : runCall fuel (.solve (place s r c num)) = (s2, true))
    (hpos : 1 ≤ s2.solutionCount) :
    runCall (fuel + 1) (.loop s r c (num :: rest)) =
      ({ s2 with solutionCount := s2.solutionCount + 1 }, false) :=
  runCall_loop_early fuel s r c num rest hcan s2 hres hpos

/-- Witness for the amended C2: a digit loop at the last blank cell of `gOne`,
started with counter already 1, stops right after the placement with counter 2
and the placement still in effect. -/
theorem runCall_loop_early_return_witness :
    runCall 11 (.loop { initState gOne with solutionCount := 1 } 4 4 ['9']) =
      ({ place { initState gOne with solutionCount := 1 } 4 4 '9' with
          solutionCount := 2 }, false) :=
  runCall_loop_early_return 10 { initState gOne with solutionCount := 1 } 4 4
    '9' [] (by decide) (place { initState gOne with solutionCount := 1 } 4 4 '9')
    rfl (Nat.le_refl 1)

theorem box_key_left (r : Nat) : r / 3 * 3 = 3 * (r / 3) := Nat.mul_comm _ _

theorem canPlace_iff (s : SolverState) (hsync : InSync s) (r c : Nat)
    (hr : r < 9) (hc : c < 9) (num : Char) (hnum : num ∈ digitChars) :
    (canPlace s r c num = true ↔ gridCanPlace s.grid r c num) := by
  obtain ⟨hrow, hcol, hbox⟩ := hsync
  have hbr : r / 3 < 3 := by omega
  have hbc : c / 3 < 3 := by omega
  simp only [canPlace, Bool.and_eq_true, Bool.not_eq_true']
  constructor
  · rintro ⟨⟨h1, h2⟩, h3⟩
    refine ⟨?_, ?_, ?_⟩
    · rintro ⟨p1, p2⟩ hp heq
      obtain ⟨hp1, hp2⟩ := (mem_rowCells r p1 p2).mp hp
      subst hp1
      have : s.usedRows p1 num = true :=
        (hrow p1 hr num hnum).mpr ⟨p2, hp2, heq⟩
      rw [this] at h1
      cases h1
    · rintro ⟨p1, p2⟩ hp heq
      obtain ⟨hp2, hp1⟩ := (mem_colCells c p1 p2).mp hp
      subst hp2
      have : s.usedCols p2 num = true :=
        (hcol p2 hc num hnum).mpr ⟨p1, hp1, heq⟩
      rw [this] at h2
      cases h2
    · rintro ⟨p1, p2⟩ hp heq
      have : s.usedSubgrids (3 * (r / 3)) (3 * (c / 3)) num = true :=
        (hbox (r / 3) hbr (c / 3) hbc num hnum).mpr ⟨(p1, p2), hp, heq⟩
      rw [box_key_left r, box_key_left c] at h3
      rw [this] at h3
      cases h3
  · rintro ⟨hArow, hAcol, hAbox⟩
    refine ⟨⟨?_, ?_⟩, ?_⟩
    · cases hflag : s.usedRows r num with
      | false => rfl
      | true =>
        obtain ⟨c', hc', heq⟩ := (hrow r hr num hnum).mp hflag
        exact absurd heq (hArow (r, c') ((mem_rowCells r r c').mpr ⟨rfl, hc'⟩))
    · cases hflag : s.usedCols c num with
      | false => rfl
      | true =>
        obtain ⟨r', hr', heq⟩ := (hcol c hc num hnum).mp hflag
        exact absurd heq (hAcol (r', c) ((mem_colCells c r' c).mpr ⟨rfl, hr'⟩))
    · rw [box_key_left r, box_key_left c]
      cases hflag : s.usedSubgrids (3 * (r / 3)) (3 * (c / 3)) num with
      | false => rfl
      | true =>
        obtain ⟨p, hp, heq⟩ := (hbox (r / 3) hbr (c / 3) hbc num hnum).mp hflag
        exact absurd heq (hAbox p hp)

theorem noConf_setCell (g : Grid) (hnc : NoConf g) (r c : Nat)
    (num : Char) (_hnum : num ∈ digitChars) (hblank : g r c = '.')
    (hgcan : gridCanPlace g r c num) : NoConf (setCell g r c num) := by
  rintro u hu ⟨p1, p2⟩ hp ⟨q1, q2⟩ hq hpq hpne
  by_cases hP : p1 = r ∧ p2 = c
  · obtain ⟨e1, e2⟩ := hP; subst e1; subst e2
    rw [setCell_same]
    have hQ : ¬(q1 = p1 ∧ q2 = p2) := by
      rintro ⟨a, b⟩; exact hpq (by rw [a, b])
    rw [setCell_other _ _ _ _ _ _ hQ]
    intro heq
    rcases unit_cases u hu p1 p2 hp with hu' | hu' | hu'
    · exact hgcan.1 (q1, q2) (hu' ▸ hq) heq.symm
    · exact hgcan.2.1 (q1, q2) (hu' ▸ hq) heq.symm
    · exact hgcan.2.2 (q1, q2) (hu' ▸ hq) heq.symm
  · rw [setCell_other _ _ _ _ _ _ hP] at hpne ⊢
    by_cases hQ : q1 = r ∧ q2 = c
    · obtain ⟨e1, e2⟩ := hQ; subst e1; subst e2
      rw [setCell_same]
      intro heq
      rcases unit_cases u hu q1 q2 hq with hu' | hu' | hu'
      · exact hgcan.1 (p1, p2) (hu' ▸ hp) heq
      · exact hgcan.2.1 (p1, p2) (hu' ▸ hp) heq
      · exact hgcan.2.2 (p1, p2) (hu' ▸ hp) heq
    · rw [setCell_other _ _ _ _ _ _ hQ]
      exact hnc u hu (p1, p2) hp (q1, q2) hq hpq hpne

theorem noConf_unset (g : Grid) (hnc : NoConf g) (r c : Nat) :
    NoConf (setCell g r c '.') := by
  rintro u hu ⟨p1, p2⟩ hp ⟨q1, q2⟩ hq hpq hpne
  by_cases hP : p1 = r ∧ p2 = c
  · obtain ⟨e1, e2⟩ := hP; subst e1; subst e2
    rw [setCell_same] at hpne
    exact absurd rfl hpne
  · rw [setCell_other _ _ _ _ _ _ hP] at hpne ⊢
    by_cases hQ : q1 = r ∧ q2 = c
    · obtain ⟨e1, e2⟩ := hQ; subst e1; subst e2
      rw [setCell_same]
      exact fun heq => hpne heq
    · rw [setCell_other _ _ _ _ _ _ hQ]
      exact hnc u hu (p1, p2) hp (q1, q2) hq hpq hpne

theorem wfValues_setCell (g : Grid) (hwf : WFValues g) (r c : Nat) (num : Char)
    (hnum : num ∈ digitChars ∨ num = '.') : WFValues (setCell g r c num) := by
  rintro ⟨p1, p2⟩ hp
  by_cases hP : p1 = r ∧ p2 = c
  · obtain ⟨e1, e2⟩ := hP; subst e1; subst e2
    rw [setCell_same]
    exact hnum
  · rw [setCell_other _ _ _ _ _ _ hP]
    exact hwf (p1, p2) hp

theorem inSync_place (s : SolverState) (hsync : InSync s) (r c : Nat)
    (hr : r < 9) (hc : c < 9) (num : Char) (hnum : num ∈ digitChars)
    (hblank : s.grid r c = '.') : InSync (place s r c num) := by
  obtain ⟨hrow, hcol, hbox⟩ := hsync
  refine ⟨?_, ?_, ?_⟩
  · intro r' hr' num' hnum'
    show setFlag s.usedRows r num true r' num' = true ↔
      ∃ c' < 9, setCell s.grid r c num r' c' = num'
    by_cases hK : r' = r ∧ num' = num
    · obtain ⟨e1, e2⟩ := hK; subst e1; subst e2
      rw [setFlag_same]
      simp only [true_iff]
      exact ⟨c, hc, setCell_same _ _ _ _⟩
    · rw [setFlag_other _ _ _ _ _ _ hK, hrow r' hr' num' hnum']
      constructor
      · rintro ⟨c', hc', heq⟩
        refine ⟨c', hc', ?_⟩
        rw [setCell_other]
        · exact heq
        · rintro ⟨e1, e2⟩
          apply digit_mem_ne_dot num' hnum'
          rw [← heq, e1, e2, hblank]
      · rintro ⟨c', hc', heq⟩
        by_cases hcell : r' = r ∧ c' = c
        · obtain ⟨e1, e2⟩ := hcell; subst e1; subst e2
          rw [setCell_same] at heq
          exact absurd ⟨rfl, heq.symm⟩ hK
        · rw [setCell_other _ _ _ _ _ _ hcell] at heq
          exact ⟨c', hc', heq⟩
  · intro c' hc' num' hnum'
    show setFlag s.usedCols c num true c' num' = true ↔
      ∃ r' < 9, setCell s.grid r c num r' c' = num'
    by_cases hK : c' = c ∧ num' = num
    · obtain ⟨e1, e2⟩ := hK; subst e1; subst e2
      rw [setFlag_same]
      simp only [true_iff]
      exact ⟨r, hr, setCell_same _ _ _ _⟩
    · rw [setFlag_other _ _ _ _ _ _ hK, hcol c' hc' num' hnum']
      constructor
      · rintro ⟨r', hr', heq⟩
        refine ⟨r', hr', ?_⟩
        rw [setCell_other]
        · exact heq
        · rintro ⟨e1, e2⟩
          apply digit_mem_ne_dot num' hnum'
          rw [← heq, e1, e2, hblank]
      · rintro ⟨r', hr', heq⟩
        by_cases hcell : r' = r ∧ c' = c
        · obtain ⟨e1, e2⟩ := hcell; subst e1; subst e2
          rw [setCell_same] at heq
          exact absurd ⟨rfl, heq.symm⟩ hK
        · rw [setCell_other _ _ _ _ _ _ hcell] at heq
          exact ⟨r', hr', heq⟩
  · intro br hbr bc hbc num' hnum'
    show setFlag2 s.usedSubgrids (r / 3 * 3) (c / 3 * 3) num true
        (3 * br) (3 * bc) num' = true ↔
      ∃ p ∈ boxCells br bc, setCell s.grid r c num p.1 p.2 = num'
    by_cases hK : 3 * br = r / 3 * 3 ∧ 3 * bc = c / 3 * 3 ∧ num' = num
    · obtain ⟨e1, e2, e3⟩ := hK; subst e3
      rw [e1, e2, setFlag2_same]
      simp only [true_iff]
      have hbrr : br = r / 3 := by omega
      have hbcc : bc = c / 3 := by omega
      refine ⟨(r, c), ?_, setCell_same _ _ _ _⟩
      rw [hbrr, hbcc]
      exact (cell_mem_units r c hr hc).2.2
    · rw [setFlag2_other _ _ _ _ _ _ _ _ hK, hbox br hbr bc hbc num' hnum']
      constructor
      · rintro ⟨⟨px, py⟩, hp, heq⟩
        refine ⟨(px, py), hp, ?_⟩
        rw [setCell_other]
        · exact heq
        · rintro ⟨e1, e2⟩
          apply digit_mem_ne_dot num' hnum'
          simp only at e1 e2 heq
          rw [← heq, e1, e2, hblank]
      · rintro ⟨⟨px, py⟩, hp, heq⟩
        by_cases hcell : px = r ∧ py = c
        · obtain ⟨e1, e2⟩ := hcell; subst e1; subst e2
          simp only at heq
          rw [setCell_same] at heq
          obtain ⟨hd1, hd2, _, _⟩ :=
            (mem_boxCells_div br bc px py hbr hbc).mp hp
          exact absurd ⟨by omega, by omega, heq.symm⟩ hK
        · refine ⟨(px, py), hp, ?_⟩
          rw [setCell_other _ _ _ _ _ _ hcell] at heq
          exact heq

theorem inSync_unplace (s : SolverState) (hsync : InSync s) (hnc : NoConf s.grid)
    (r c : Nat) (hr : r < 9) (hc : c < 9) (num : Char) (hnum : num ∈ digitChars)
    (hval : s.grid r c = num) : InSync (unplace s r c num) := by
  obtain ⟨hrow, hcol, hbox⟩ := hsync
  have hnumdot := digit_mem_ne_dot num hnum
  refine ⟨?_, ?_, ?_⟩
  · intro r' hr' num' hnum'
    show setFlag s.usedRows r num false r' num' = true ↔
      ∃ c' < 9, setCell s.grid r c '.' r' c' = num'
    by_cases hK : r' = r ∧ num' = num
    · obtain ⟨e1, e2⟩ := hK; subst e1; subst e2
      rw [setFlag_same]
      constructor
      · intro h; cases h
      · rintro ⟨c', hc', heq⟩
        by_cases hcc : c' = c
        · subst hcc
          rw [setCell_same] at heq
          exact absurd heq.symm hnumdot
        · rw [setCell_other _ _ _ _ _ _ (by rintro ⟨_, e⟩; exact hcc e)] at heq
          have hne : ((r', c) : Nat × Nat) ≠ (r', c') := by
            intro h; injection h with _ h2; exact hcc h2.symm
          have := hnc (rowCells r') (rowCells_mem_allUnits r' hr')
            (r', c) ((mem_rowCells r' r' c).mpr ⟨rfl, hc⟩)
            (r', c') ((mem_rowCells r' r' c').mpr ⟨rfl, hc'⟩) hne
            (by simp only; rw [hval]; exact hnumdot)
          simp only at this
          rw [hval, heq] at this
          exact (this rfl).elim
    · rw [setFlag_other _ _ _ _ _ _ hK, hrow r' hr' num' hnum']
      constructor
      · rintro ⟨c', hc', heq⟩
        refine ⟨c', hc', ?_⟩
        by_cases hcell : r' = r ∧ c' = c
        · obtain ⟨e1, e2⟩ := hcell
          rw [e1, e2, hval] at heq
          exact absurd ⟨e1, heq.symm⟩ hK
        · rw [setCell_other _ _ _ _ _ _ hcell]
          exact heq
      · rintro ⟨c', hc', heq⟩
        by_cases hcell : r' = r ∧ c' = c
        · obtain ⟨e1, e2⟩ := hcell; subst e1; subst e2
          rw [setCell_same] at heq
          exact absurd heq.symm (digit_mem_ne_dot num' hnum')
        · rw [setCell_other _ _ _ _ _ _ hcell] at heq
          exact ⟨c', hc', heq⟩
  · intro c' hc' num' hnum'
    show setFlag s.usedCols c num false c' num' = true ↔
      ∃ r' < 9, setCell s.grid r c '.' r' c' = num'
    by_cases hK : c' = c ∧ num' = num
    · obtain ⟨e1, e2⟩ := hK; subst e1; subst e2
      rw [setFlag_same]
      constructor
      · intro h; cases h
      · rintro ⟨r', hr', heq⟩
        by_cases hrr : r' = r
        · subst hrr
          rw [setCell_same] at heq
          exact absurd heq.symm hnumdot
        · rw [setCell_other _ _ _ _ _ _ (by rintro ⟨e, _⟩; exact hrr e)] at heq
          have hne : ((r, c') : Nat × Nat) ≠ (r', c') := by
            intro h; injection h with h1 _; exact hrr h1.symm
          have := hnc (colCells c') (colCells_mem_allUnits c' hc')
            (r, c') ((mem_colCells c' r c').mpr ⟨rfl, hr⟩)
            (r', c') ((mem_colCells c' r' c').mpr ⟨rfl, hr'⟩) hne
            (by simp only; rw [hval]; exact hnumdot)
          simp only at this
          rw [hval, heq] at this
          exact (this rfl).elim
    · rw [setFlag_other _ _ _ _ _ _ hK, hcol c' hc' num' hnum']
      constructor
      · rintro ⟨r', hr', heq⟩
        refine ⟨r', hr', ?_⟩
        by_cases hcell : r' = r ∧ c' = c
        · obtain ⟨e1, e2⟩ := hcell
          rw [e1, e2, hval] at heq
          exact absurd ⟨e2, heq.symm⟩ hK
        · rw [setCell_other _ _ _ _ _ _ hcell]
          exact heq
      · rintro ⟨r', hr', heq⟩
        by_cases hcell : r' = r ∧ c' = c
        · obtain ⟨e1, e2⟩ := hcell; subst e1; subst e2
          rw [setCell_same] at heq
          exact absurd heq.symm (digit_mem_ne_dot num' hnum')
        · rw [setCell_other _ _ _ _ _ _ hcell] at heq
          exact ⟨r', hr', heq⟩
  · intro br hbr bc hbc num' hnum'
    show setFlag2 s.usedSubgrids (r / 3 * 3) (c / 3 * 3) num false
        (3 * br) (3 * bc) num' = true ↔
      ∃ p ∈ boxCells br bc, setCell s.grid r c '.' p.1 p.2 = num'
    by_cases hK : 3 * br = r / 3 * 3 ∧ 3 * bc = c / 3 * 3 ∧ num' = num
    · obtain ⟨e1, e2, e3⟩ := hK; subst e3
      rw [e1, e2, setFlag2_same]
      have hbrr : br = r / 3 := by omega
      have hbcc : bc = c / 3 := by omega
      subst hbrr; subst hbcc
      constructor
      · intro h; cases h
      · rintro ⟨⟨px, py⟩, hp, heq⟩
        by_cases hcell : px = r ∧ py = c
        · obtain ⟨f1, f2⟩ := hcell; subst f1; subst f2
          simp only at heq
          rw [setCell_same] at heq
          exact absurd heq.symm hnumdot
        · simp only at heq
          rw [setCell_other _ _ _ _ _ _ hcell] at heq
          have hne : ((r, c) : Nat × Nat) ≠ (px, py) := by
            intro h; injection h with h1 h2
            exact hcell ⟨h1.symm, h2.symm⟩
          have := hnc (boxCells (r / 3) (c / 3))
            (boxCells_mem_allUnits _ _ (by omega) (by omega))
            (r, c) ((cell_mem_units r c hr hc).2.2)
            (px, py) hp hne
            (by simp only; rw [hval]; exact hnumdot)
          simp only at this
          rw [hval, heq] at this
          exact (this rfl).elim
    · rw [setFlag2_other _ _ _ _ _ _ _ _ hK, hbox br hbr bc hbc num' hnum']
      constructor
      · rintro ⟨⟨px, py⟩, hp, heq⟩
        refine ⟨(px, py), hp, ?_⟩
        by_cases hcell : px = r ∧ py = c
        · obtain ⟨e1, e2⟩ := hcell; subst e1; subst e2
          simp only at heq ⊢
          rw [hval] at heq
          obtain ⟨hd1, hd2, _, _⟩ :=
            (mem_boxCells_div br bc px py hbr hbc).mp hp
          exact absurd ⟨by omega, by omega, heq.symm⟩ hK
        · simp only
          rw [setCell_other _ _ _ _ _ _ hcell]
          exact heq
      · rintro ⟨⟨px, py⟩, hp, heq⟩
        by_cases hcell : px = r ∧ py = c
        · obtain ⟨e1, e2⟩ := hcell; subst e1; subst e2
          simp only at heq
          rw [setCell_same] at heq
          exact absurd heq.symm (digit_mem_ne_dot num' hnum')
        · refine ⟨(px, py), hp, ?_⟩
          simp only at heq ⊢
          rw [setCell_other _ _ _ _ _ _ hcell] at heq
          exact heq

theorem inv_place (s : SolverState) (hinv : Inv s) (r c : Nat) (hr : r < 9)
    (hc : c < 9) (num : Char) (hnum : num ∈ digitChars)
    (hblank : s.grid r c = '.') (hcan : canPlace s r c num = true) :
    Inv (place s r c num) :=
  ⟨inSync_place s hinv.1 r c hr hc num hnum hblank,
    noConf_setCell s.grid hinv.2.1 r c num hnum hblank
      ((canPlace_iff s hinv.1 r c hr hc num hnum).mp hcan),
    wfValues_setCell s.grid hinv.2.2 r c num (Or.inl hnum)⟩

theorem inv_unplace (s : SolverState) (hinv : Inv s) (r c : Nat) (hr : r < 9)
    (hc : c < 9) (num : Char) (hnum : num ∈ digitChars)
    (hval : s.grid r c = num) : Inv (unplace s r c num) :=
  ⟨inSync_unplace s hinv.1 hinv.2.1 r c hr hc num hnum hval,
    noConf_unset s.grid hinv.2.1 r c,
    wfValues_setCell s.grid hinv.2.2 r c '.' (Or.inr rfl)⟩

theorem markCell_usedRows (s : SolverState) (x1 x2 k : Nat) (num : Char) :
    ((markCell s x1 x2).usedRows k num = true ↔
      (s.usedRows k num = true ∨ (k = x1 ∧ s.grid x1 x2 = num ∧ num ≠ '.'))) := by
  unfold markCell
  by_cases hval : s.grid x1 x2 ≠ '.'
  · simp only [if_pos hval]
    show setFlag s.usedRows x1 (s.grid x1 x2) true k num = true ↔ _
    by_cases hK : k = x1 ∧ num = s.grid x1 x2
    · obtain ⟨e1, e2⟩ := hK; subst e1
      rw [e2, setFlag_same]
      simp only [true_iff]
      exact Or.inr ⟨trivial, trivial, hval⟩
    · rw [setFlag_other _ _ _ _ _ _ hK]
      constructor
      · exact Or.inl
      · rintro (hold | ⟨e1, e2, _⟩)
        · exact hold
        · exact absurd ⟨e1, e2.symm⟩ hK
  · simp only [if_neg hval]
    constructor
    · exact Or.inl
    · rintro (hold | ⟨_, e2, e3⟩)
      · exact hold
      · rw [not_not] at hval
        rw [hval] at e2
        exact absurd e2.symm e3

theorem markCell_usedCols (s : SolverState) (x1 x2 k : Nat) (num : Char) :
    ((markCell s x1 x2).usedCols k num = true ↔
      (s.usedCols k num = true ∨ (k = x2 ∧ s.grid x1 x2 = num ∧ num ≠ '.'))) := by
  unfold markCell
  by_cases hval : s.grid x1 x2 ≠ '.'
  · simp only [if_pos hval]
    show setFlag s.usedCols x2 (s.grid x1 x2) true k num = true ↔ _
    by_cases hK : k = x2 ∧ num = s.grid x1 x2
    · obtain ⟨e1, e2⟩ := hK; subst e1
      rw [e2, setFlag_same]
      simp only [true_iff]
      exact Or.inr ⟨trivial, trivial, hval⟩
    · rw [setFlag_other _ _ _ _ _ _ hK]
      constructor
      · exact Or.inl
      · rintro (hold | ⟨e1, e2, _⟩)
        · exact hold
        · exact absurd ⟨e1, e2.symm⟩ hK
  · simp only [if_neg hval]
    constructor
    · exact Or.inl
    · rintro (hold | ⟨_, e2, e3⟩)
      · exact hold
      · rw [not_not] at hval
        rw [hval] at e2
        exact absurd e2.symm e3

theorem markCell_usedSubgrids (s : SolverState) (x1 x2 k1 k2 : Nat) (num : Char) :
    ((markCell s x1 x2).usedSubgrids k1 k2 num = true ↔
      (s.usedSubgrids k1 k2 num = true ∨
        (k1 = x1 / 3 * 3 ∧ k2 = x2 / 3 * 3 ∧ s.grid x1 x2 = num ∧ num ≠ '.'))) := by
  unfold markCell
  by_cases hval : s.grid x1 x2 ≠ '.'
  · simp only [if_pos hval]
    show setFlag2 s.usedSubgrids (x1 / 3 * 3) (x2 / 3 * 3) (s.grid x1 x2) true
      k1 k2 num = true ↔ _
    by_cases hK : k1 = x1 / 3 * 3 ∧ k2 = x2 / 3 * 3 ∧ num = s.grid x1 x2
    · obtain ⟨e1, e2, e3⟩ := hK; subst e1; subst e2
      rw [e3, setFlag2_same]
      simp only [true_iff]
      exact Or.inr ⟨trivial, trivial, trivial, hval⟩
    · rw [setFlag2_other _ _ _ _ _ _ _ _ hK]
      constructor
      · exact Or.inl
      · rintro (hold | ⟨e1, e2, e3, _⟩)
        · exact hold
        · exact absurd ⟨e1, e2, e3.symm⟩ hK
  · simp only [if_neg hval]
    constructor
    · exact Or.inl
    · rintro (hold | ⟨_, _, e3, e4⟩)
      · exact hold
      · rw [not_not] at hval
        rw [hval] at e3
        exact absurd e3.symm e4

theorem foldl_markCell_usedRows (l : List (Nat × Nat)) :
    ∀ (s : SolverState) (k : Nat) (num : Char),
      ((l.foldl (fun s rc => markCell s rc.1 rc.2) s).usedRows k num = true ↔
        (s.usedRows k num = true ∨
          ∃ rc ∈ l, rc.1 = k ∧ s.grid rc.1 rc.2 = num ∧ num ≠ '.')) := by
  induction l with
  | nil => intro s k num; simp
  | cons x l ih =>
    intro s k num
    rw [List.foldl_cons, ih (markCell s x.1 x.2) k num, markCell_usedRows,
      markCell_grid]
    constructor
    · rintro ((hold | ⟨e1, e2, e3⟩) | ⟨rc, hrc, h⟩)
      · exact Or.inl hold
      · exact Or.inr ⟨x, List.mem_cons_self x l, e1.symm, e2, e3⟩
      · exact Or.inr ⟨rc, List.mem_cons_of_mem x hrc, h⟩
    · rintro (hold | ⟨rc, hrc, h1, h2, h3⟩)
      · exact Or.inl (Or.inl hold)
      · rcases List.mem_cons.mp hrc with heq | hmem
        · subst heq
          exact Or.inl (Or.inr ⟨h1.symm, h2, h3⟩)
        · exact Or.inr ⟨rc, hmem, h1, h2, h3⟩

theorem foldl_markCell_usedCols (l : List (Nat × Nat)) :
    ∀ (s : SolverState) (k : Nat) (num : Char),
      ((l.foldl (fun s rc => markCell s rc.1 rc.2) s).usedCols k num = true ↔
        (s.usedCols k num = true ∨
          ∃ rc ∈ l, rc.2 = k ∧ s.grid rc.1 rc.2 = num ∧ num ≠ '.')) := by
  induction l with
  | nil => intro s k num; simp
  | cons x l ih =>
    intro s k num
    rw [List.foldl_cons, ih (markCell s x.1 x.2) k num, markCell_usedCols,
      markCell_grid]
    constructor
    · rintro ((hold | ⟨e1, e2, e3⟩) | ⟨rc, hrc, h⟩)
      · exact Or.inl hold
      · exact Or.inr ⟨x, List.mem_cons_self x l, e1.symm, e2, e3⟩
      · exact Or.inr ⟨rc, List.mem_cons_of_mem x hrc, h⟩
    · rintro (hold | ⟨rc, hrc, h1, h2, h3⟩)
      · exact Or.inl (Or.inl hold)
      · rcases List.mem_cons.mp hrc with heq | hmem
        · subst heq
          exact Or.inl (Or.inr ⟨h1.symm, h2, h3⟩)
        · exact Or.inr ⟨rc, hmem, h1, h2, h3⟩

theorem foldl_markCell_usedSubgrids (l : List (Nat × Nat)) :
    ∀ (s : SolverState) (k1 k2 : Nat) (num : Char),
      ((l.foldl (fun s rc => markCell s rc.1 rc.2) s).usedSubgrids k1 k2 num
          = true ↔
        (s.usedSubgrids k1 k2 num = true ∨
          ∃ rc ∈ l, rc.1 / 3 * 3 = k1 ∧ rc.2 / 3 * 3 = k2 ∧
            s.grid rc.1 rc.2 = num ∧ num ≠ '.')) := by
  induction l with
  | nil => intro s k1 k2 num; simp
  | cons x l ih =>
    intro s k1 k2 num
    rw [List.foldl_cons, ih (markCell s x.1 x.2) k1 k2 num,
      markCell_usedSubgrids, markCell_grid]
    constructor
    · rintro ((hold | ⟨e1, e2, e3, e4⟩) | ⟨rc, hrc, h⟩)
      · exact Or.inl hold
      · exact Or.inr ⟨x, List.mem_cons_self x l, e1.symm, e2.symm, e3, e4⟩
      · exact Or.inr ⟨rc, List.mem_cons_of_mem x hrc, h⟩
    · rintro (hold | ⟨rc, hrc, h1, h2, h3, h4⟩)
      · exact Or.inl (Or.inl hold)
      · rcases List.mem_cons.mp hrc with heq | hmem
        · subst heq
          exact Or.inl (Or.inr ⟨h1.symm, h2.symm, h3, h4⟩)
        · exact Or.inr ⟨rc, hmem, h1, h2, h3, h4⟩

theorem initState_inv (g : Grid) (hnc : NoConf g) (hwf : WFValues g) :
    Inv (initState g) := by
  refine ⟨⟨?_, ?_, ?_⟩, ?_, ?_⟩
  · intro r hr num hnum
    show (initState g).usedRows r num = true ↔
      ∃ c < 9, (initState g).grid r c = num
    unfold initState
    rw [foldl_markCell_usedRows, foldl_markCell_grid]
    simp only [Bool.false_eq_true, false_or]
    constructor
    · rintro ⟨⟨r1, c1⟩, hmem, h1, h2, _⟩
      subst h1
      exact ⟨c1, ((mem_cellsList r1 c1).mp hmem).2, h2⟩
    · rintro ⟨c1, hc1, heq⟩
      exact ⟨(r, c1), (mem_cellsList r c1).mpr ⟨hr, hc1⟩, rfl, heq,
        digit_mem_ne_dot num hnum⟩
  · intro c hc num hnum
    show (initState g).usedCols c num = true ↔
      ∃ r < 9, (initState g).grid r c = num
    unfold initState
    rw [foldl_markCell_usedCols, foldl_markCell_grid]
    simp only [Bool.false_eq_true, false_or]
    constructor
    · rintro ⟨⟨r1, c1⟩, hmem, h1, h2, _⟩
      subst h1
      exact ⟨r1, ((mem_cellsList r1 c1).mp hmem).1, h2⟩
    · rintro ⟨r1, hr1, heq⟩
      exact ⟨(r1, c), (mem_cellsList r1 c).mpr ⟨hr1, hc⟩, rfl, heq,
        digit_mem_ne_dot num hnum⟩
  · intro br hbr bc hbc num hnum
    show (initState g).usedSubgrids (3 * br) (3 * bc) num = true ↔
      ∃ p ∈ boxCells br bc, (initState g).grid p.1 p.2 = num
    unfold initState
    rw [foldl_markCell_usedSubgrids, foldl_markCell_grid]
    simp only [Bool.false_eq_true, false_or]
    constructor
    · rintro ⟨⟨r1, c1⟩, hmem, h1, h2, h3, _⟩
      obtain ⟨hr1, hc1⟩ := (mem_cellsList r1 c1).mp hmem
      refine ⟨(r1, c1), ?_, h3⟩
      exact (mem_boxCells_div br bc r1 c1 hbr hbc).mpr
        ⟨by omega, by omega, hr1, hc1⟩
    · rintro ⟨⟨r1, c1⟩, hp, heq⟩
      obtain ⟨hd1, hd2, hr1, hc1⟩ := (mem_boxCells_div br bc r1 c1 hbr hbc).mp hp
      exact ⟨(r1, c1), (mem_cellsList r1 c1).mpr ⟨hr1, hc1⟩, by omega, by omega,
        heq, digit_mem_ne_dot num hnum⟩
  · show NoConf (initState g).grid
    rw [initState_grid]
    exact hnc
  · show WFValues (initState g).grid
    rw [initState_grid]
    exact hwf

theorem runCall_keeps : ∀ (fuel : Nat) (call : Call), CallWF call →
    ∀ r' c', call.state.grid r' c' ≠ '.' →
    (runCall fuel call).1.grid r' c' = call.state.grid r' c' := by
  intro fuel
  induction fuel with
  | zero => intro call _ r' c' _; rw [runCall_zero]
  | succ fuel ih =>
    intro call hwf r' c' hne
    match call with
    | .solve s =>
      rcases hfind : findNextCell s with ⟨o, m⟩
      match o with
      | none => rw [runCall_solve_full fuel s m hfind]; rfl
      | some rc =>
        by_cases hm : m = 0
        · subst hm; rw [runCall_solve_dead fuel s rc hfind]; rfl
        · rw [runCall_solve_loop fuel s rc m hfind hm]
          have hspec := (findNextCell_spec s).2.2.1 rc m hfind
          exact ih (.loop s rc.1 rc.2 digitChars)
            ⟨hspec.2.1, hspec.1, List.Sublist.refl _⟩ r' c' hne
    | .loop s r c [] => rw [runCall]; rfl
    | .loop s r c (num :: rest) =>
      obtain ⟨hblank, hmem, hsl⟩ := hwf
      have hne' : s.grid r' c' ≠ '.' := hne
      have hsl' : rest.Sublist digitChars :=
        (List.Sublist.cons num (List.Sublist.refl rest)).trans hsl
      have hcell : ¬(r' = r ∧ c' = c) := by
        rintro ⟨e1, e2⟩
        rw [e1, e2, hblank] at hne'
        exact hne' rfl
      by_cases hcan : canPlace s r c num = true
      · rcases hres : runCall fuel (.solve (place s r c num)) with ⟨s2, b⟩
        have hs1 : (place s r c num).grid r' c' = s.grid r' c' :=
          setCell_other _ _ _ _ _ _ hcell
        have hchild : s2.grid r' c' = s.grid r' c' := by
          have h := ih (.solve (place s r c num)) trivial r' c'
            (by rw [call_state_solve, hs1]; exact hne')
          rw [hres, call_state_solve, hs1] at h
          exact h
        match b with
        | false =>
          rw [runCall_loop_fail fuel s r c num rest hcan s2 hres]
          have hun : (unplace s2 r c num).grid r' c' = s.grid r' c' := by
            show setCell s2.grid r c '.' r' c' = s.grid r' c'
            rw [setCell_other _ _ _ _ _ _ hcell, hchild]
          have h := ih (.loop (unplace s2 r c num) r c rest)
            ⟨setCell_same _ _ _ _, hmem, hsl'⟩ r' c'
            (by rw [call_state_loop, hun]; exact hne')
          rw [call_state_loop, hun] at h
          exact h
        | true =>
          by_cases hzero : s2.solutionCount = 0
          · rw [runCall_loop_snap fuel s r c num rest hcan s2 hres hzero]
            have hun : (unplace { s2 with solutionCount := 1, solvedGrid := s2.grid } r c num).grid r' c' = s.grid r' c' := by
              show setCell s2.grid r c '.' r' c' = s.grid r' c'
              rw [setCell_other _ _ _ _ _ _ hcell, hchild]
            have h := ih (.loop (unplace { s2 with solutionCount := 1, solvedGrid := s2.grid } r c num) r c rest)
              ⟨setCell_same _ _ _ _, hmem, hsl'⟩ r' c'
              (by rw [call_state_loop, hun]; exact hne')
            rw [call_state_loop, hun] at h
            exact h
          · rw [runCall_loop_early fuel s r c num rest hcan s2 hres (by omega)]
            exact hchild
      · rw [runCall_loop_skip fuel s r c num rest hcan]
        exact ih (.loop s r c rest) ⟨hblank, hmem, hsl'⟩ r' c' hne

theorem runCall_inv : ∀ (fuel : Nat) (call : Call), CallInv call →
    Inv (runCall fuel call).1 := by
  intro fuel
  induction fuel with
  | zero => intro call hinv; rw [runCall_zero]; exact hinv.1
  | succ fuel ih =>
    intro call hinv
    match call with
    | .solve s =>
      obtain ⟨hs, _⟩ := hinv
      rcases hfind : findNextCell s with ⟨o, m⟩
      match o with
      | none => rw [runCall_solve_full fuel s m hfind]; exact hs
      | some rc =>
        by_cases hm : m = 0
        · subst hm; rw [runCall_solve_dead fuel s rc hfind]; exact hs
        · rw [runCall_solve_loop fuel s rc m hfind hm]
          have hspec := (findNextCell_spec s).2.2.1 rc m hfind
          exact ih (.loop s rc.1 rc.2 digitChars)
            ⟨hs, hspec.2.1, hspec.1, List.Sublist.refl _⟩
    | .loop s r c [] =>
      rw [runCall]
      exact hinv.1
    | .loop s r c (num :: rest) =>
      obtain ⟨hs, hblank, hmem, hsl⟩ := hinv
      obtain ⟨hr, hc⟩ := (mem_cellsList r c).mp hmem
      have hnum : num ∈ digitChars := hsl.subset (List.mem_cons_self num rest)
      have hsl' : rest.Sublist digitChars :=
        (List.Sublist.cons num (List.Sublist.refl rest)).trans hsl
      by_cases hcan : canPlace s r c num = true
      · have hs1 : Inv (place s r c num) :=
          inv_place s hs r c hr hc num hnum hblank hcan
        rcases hres : runCall fuel (.solve (place s r c num)) with ⟨s2, b⟩
        have hs2 : Inv s2 := by
          have h := ih (.solve (place s r c num)) ⟨hs1, trivial⟩
          rw [hres] at h
          exact h
        have hval : s2.grid r c = num := by
          have h := runCall_keeps fuel (.solve (place s r c num)) trivial r c
            (by
              rw [call_state_solve]
              show setCell s.grid r c num r c ≠ '.'
              rw [setCell_same]
              exact digit_mem_ne_dot num hnum)
          rw [hres, call_state_solve] at h
          show s2.grid r c = num
          rw [h]
          exact setCell_same _ _ _ _
        match b with
        | false =>
          rw [runCall_loop_fail fuel s r c num rest hcan s2 hres]
          exact ih (.loop (unplace s2 r c num) r c rest)
            ⟨inv_unplace s2 hs2 r c hr hc num hnum hval,
              setCell_same _ _ _ _, hmem, hsl'⟩
        | true =>
          by_cases hzero : s2.solutionCount = 0
          · rw [runCall_loop_snap fuel s r c num rest hcan s2 hres hzero]
            have hs5 : Inv { s2 with solutionCount := 1, solvedGrid := s2.grid } := hs2
            have hval5 : ({ s2 with solutionCount := 1, solvedGrid := s2.grid } : SolverState).grid r c = num := hval
            exact ih (.loop (unplace { s2 with solutionCount := 1, solvedGrid := s2.grid } r c num) r c rest)
              ⟨inv_unplace _ hs5 r c hr hc num hnum hval5,
                setCell_same _ _ _ _, hmem, hsl'⟩
          · rw [runCall_loop_early fuel s r c num rest hcan s2 hres (by omega)]
            exact hs2
      · rw [runCall_loop_skip fuel s r c num rest hcan]
        exact ih (.loop s r c rest) ⟨hs, hblank, hmem, hsl'⟩

/-- C3 (amended): the sync invariant does hold at every point — the initial
tracking maps agree with the grid, and every interpreter step preserves the
agreement (together with conflict-freedom and value legality), because on the
early second-solution return the grid cell and the three sets all keep the
placed digit; what fails is only the claim's final conjunct, refuted
separately: on that return path the placement is not removed at all. -/
theorem inv_preserved :
    (∀ g : Grid, NoConf g → WFValues g → Inv (initState g)) ∧
    (∀ (fuel : Nat) (call : Call), CallInv call → Inv (runCall fuel call).1) :=
  ⟨initState_inv, runCall_inv⟩

/-- Witness for the amended C3: the final search state on `gOne` satisfies the
invariant. -/
theorem inv_preserved_witness : Inv (runSolve gOne) := by
  rw [runSolve_def]
  exact inv_preserved.2 solveFuel (.solve (initState gOne))
    ⟨inv_preserved.1 gOne (by decide) (by decide), trivial⟩

/-- C2 (counterexample): on `gTriple` the final solution counter is 3.  Had
the entire search stopped as soon as the counter exceeded 1 — with no further
digit tried at any cell and no further cell visited — no third full grid could
ever have been reached and counted, so the counter could never pass 2. -/
theorem solve_counter_reaches_three :
    (runSolve gTriple).solutionCount = 3 := by decide

/-- C3 (counterexample): on `gMulti` (two completions), after `SolveSudoku`'s
search returns, cell `(1,3)` — blank in the input — still holds the digit
`'7'` placed on the path to the second solution, and `'7'` is still flagged in
the row-tracking set: the undo was skipped on the return path taken when the
second solution was found. -/
theorem solve_skips_undo_on_second_solution :
    gMulti 1 3 = '.' ∧ (runSolve gMulti).grid 1 3 = '7' ∧
      (runSolve gMulti).usedRows 1 '7' = true := by
  exact ⟨by decide, by decide, by decide⟩

/-- C4 (counterexample): on `gMulti` the search ends with solution counter 2,
and the grid returned by `SolveSudoku` is not the original input: cell
`(1,3)`, blank in the input, comes back holding `'7'` — a leftover of the
search. -/
theorem solveSudoku_multiple_returns_mutated_grid :
    (SolveSudoku gMulti).2 = false ∧ (runSolve gMulti).solutionCount = 2 ∧
      (SolveSudoku gMulti).1 1 3 = '7' ∧ gMulti 1 3 = '.' := by
  exact ⟨by decide, by decide, by decide, by decide⟩

/-- C9 (confirmed): the solver is a pure function of the input grid — two
invocations on equal grids yield the same outcome flag and the same returned
grid.  (In the source every loop of `SolveSudoku` iterates over fixed ranges,
never over a Go map, so the embedding is a deterministic function; the only
map-range iteration, in `copyGrid`, is order-insensitive.) -/
theorem solveSudoku_deterministic (g₁ g₂ : Grid) (h : g₁ = g₂) :
    SolveSudoku g₁ = SolveSudoku g₂ := by rw [h]

/-- Witness for C9 at `gOne`. -/
theorem solveSudoku_deterministic_witness :
    SolveSudoku gOne = SolveSudoku gOne :=
  solveSudoku_deterministic gOne gOne rfl

/-! ### Counting completions: correspondence with assignments -/

theorem units_sub_cells (u : List (Nat × Nat)) (hu : u ∈ allUnits)
    (p : Nat × Nat) (hp : p ∈ u) : p ∈ cellsList :=
  (mem_cellsList p.1 p.2).mpr (units_inrange u hu p hp)

theorem noConf_congr (g₁ g₂ : Grid)
    (h : ∀ p ∈ cellsList, g₁ p.1 p.2 = g₂ p.1 p.2) :
    NoConf g₁ ↔ NoConf g₂ := by
  constructor <;> intro hnc u hu p hp q hq hpq hne
  · rw [← h p (units_sub_cells u hu p hp)] at hne ⊢
    rw [← h q (units_sub_cells u hu q hq)]
    exact hnc u hu p hp q hq hpq hne
  · rw [h p (units_sub_cells u hu p hp)] at hne ⊢
    rw [h q (units_sub_cells u hu q hq)]
    exact hnc u hu p hp q hq hpq hne

theorem fillWith_clue (g : Grid) (a : Fin 9 → Fin 9 → Fin 9) (r c : Nat)
    (h : g r c ≠ '.') : fillWith g a r c = g r c := by
  unfold fillWith
  split <;> simp [h]

theorem fillWith_blank (g : Grid) (a : Fin 9 → Fin 9 → Fin 9) (r c : Nat)
    (hr : r < 9) (hc : c < 9) (h : g r c = '.') :
    fillWith g a r c = digitChar (a ⟨r, hr⟩ ⟨c, hc⟩) := by
  unfold fillWith
  rw [dif_pos ⟨hr, hc⟩, if_pos h]

theorem isAssign_isCompletion (g : Grid) (hwf : WFValues g)
    (a : Fin 9 → Fin 9 → Fin 9) (ha : IsAssign g a) :
    IsCompletion g (fillWith g a) := by
  obtain ⟨_hcanon, hnc⟩ := ha
  refine ⟨?_, ?_, hnc⟩
  · rintro ⟨p1, p2⟩ _hp hne
    exact fillWith_clue g a p1 p2 hne
  · rintro ⟨p1, p2⟩ hp
    obtain ⟨h1, h2⟩ := (mem_cellsList p1 p2).mp hp
    by_cases hb : g p1 p2 = '.'
    · rw [fillWith_blank g a p1 p2 h1 h2 hb]
      exact digitChar_mem _
    · rw [fillWith_clue g a p1 p2 hb]
      rcases hwf (p1, p2) hp with h | h
      · exact h
      · exact absurd h hb

theorem fillWith_assignOf (g g' : Grid) (hcomp : IsCompletion g g')
    (p1 p2 : Nat) (hp : (p1, p2) ∈ cellsList) :
    fillWith g (assignOf g g') p1 p2 = g' p1 p2 := by
  obtain ⟨hext, hfull, _hnc⟩ := hcomp
  obtain ⟨h1, h2⟩ := (mem_cellsList p1 p2).mp hp
  by_cases hb : g p1 p2 = '.'
  · rw [fillWith_blank g _ p1 p2 h1 h2 hb]
    show digitChar (if g p1 p2 = '.' then digitIdx (g' p1 p2) else 0) = g' p1 p2
    rw [if_pos hb, digitChar_digitIdx (g' p1 p2) (hfull (p1, p2) hp)]
  · rw [fillWith_clue g _ p1 p2 hb]
    exact (hext (p1, p2) hp hb).symm

theorem isCompletion_isAssign (g g' : Grid) (hcomp : IsCompletion g g') :
    IsAssign g (assignOf g g') := by
  refine ⟨?_, ?_⟩
  · intro r c hne
    show (if g r.val c.val = '.' then digitIdx (g' r.val c.val) else 0) = 0
    rw [if_neg hne]
  · refine (noConf_congr _ g' ?_).mpr hcomp.2.2
    intro p hp
    exact fillWith_assignOf g g' hcomp p.1 p.2 hp

theorem blanksCount_zero_iff (g : Grid) :
    blanksCount g = 0 ↔ ∀ rc ∈ cellsList, g rc.1 rc.2 ≠ '.' := by
  unfold blanksCount
  rw [List.length_eq_zero, List.filter_eq_nil_iff]
  simp

theorem fillWith_of_no_blanks (g : Grid)
    (hnb : ∀ rc ∈ cellsList, g rc.1 rc.2 ≠ '.') (a : Fin 9 → Fin 9 → Fin 9) :
    fillWith g a = g := by
  funext r c
  by_cases h : r < 9 ∧ c < 9
  · exact fillWith_clue g a r c (hnb (r, c) ((mem_cellsList r c).mpr h))
  · unfold fillWith
    rw [dif_neg h]

theorem ncomp_full (g : Grid) (hfull : blanksCount g = 0) :
    NComp g = if NoConf g then 1 else 0 := by
  have hnb := (blanksCount_zero_iff g).mp hfull
  unfold NComp
  by_cases hnc : NoConf g
  · rw [if_pos hnc, Finset.card_eq_one]
    refine ⟨fun _ _ => 0, ?_⟩
    ext a
    simp only [Finset.mem_filter, Finset.mem_univ, true_and,
      Finset.mem_singleton]
    constructor
    · rintro ⟨hcanon, _⟩
      funext r c
      exact hcanon r c (hnb (r.val, c.val)
        ((mem_cellsList r.val c.val).mpr ⟨r.isLt, c.isLt⟩))
    · rintro rfl
      exact ⟨fun _ _ _ => rfl, by rw [fillWith_of_no_blanks g hnb]; exact hnc⟩
  · rw [if_neg hnc, Finset.card_eq_zero]
    ext a
    simp only [Finset.mem_filter, Finset.mem_univ, true_and,
      Finset.not_mem_empty, iff_false]
    rintro ⟨_, hncf⟩
    rw [fillWith_of_no_blanks g hnb] at hncf
    exact hnc hncf

theorem updAssign_same (a : Fin 9 → Fin 9 → Fin 9) (r c v : Fin 9) :
    updAssign a r c v r c = v := by
  simp [updAssign]

theorem updAssign_other (a : Fin 9 → Fin 9 → Fin 9) (r c v r' c' : Fin 9)
    (h : ¬(r' = r ∧ c' = c)) : updAssign a r c v r' c' = a r' c' := by
  simp only [updAssign, if_neg h]

theorem updAssign_updAssign (a : Fin 9 → Fin 9 → Fin 9) (r c v w : Fin 9) :
    updAssign (updAssign a r c v) r c w = updAssign a r c w := by
  funext r' c'
  by_cases h : r' = r ∧ c' = c
  · obtain ⟨e1, e2⟩ := h; subst e1; subst e2
    rw [updAssign_same, updAssign_same]
  · rw [updAssign_other _ _ _ _ _ _ h, updAssign_other _ _ _ _ _ _ h,
      updAssign_other _ _ _ _ _ _ h]

theorem updAssign_self (a : Fin 9 → Fin 9 → Fin 9) (r c : Fin 9) :
    updAssign a r c (a r c) = a := by
  funext r' c'
  by_cases h : r' = r ∧ c' = c
  · obtain ⟨e1, e2⟩ := h; subst e1; subst e2
    rw [updAssign_same]
  · rw [updAssign_other _ _ _ _ _ _ h]

theorem fin_pair_ne (r c r' c' : Nat) (hr : r < 9) (hc : c < 9) (hr' : r' < 9)
    (hc' : c' < 9) (h : ¬(r' = r ∧ c' = c)) :
    ¬((⟨r', hr'⟩ : Fin 9) = ⟨r, hr⟩ ∧ (⟨c', hc'⟩ : Fin 9) = ⟨c, hc⟩) := by
  rintro ⟨e1, e2⟩
  simp only [Fin.mk.injEq] at e1 e2
  exact h ⟨e1, e2⟩

theorem fill_set_eq (g : Grid) (r c : Nat) (hr : r < 9) (hc : c < 9)
    (hblank : g r c = '.') (d : Fin 9) (a : Fin 9 → Fin 9 → Fin 9)
    (had : a ⟨r, hr⟩ ⟨c, hc⟩ = d) :
    fillWith (setCell g r c (digitChar d)) (updAssign a ⟨r, hr⟩ ⟨c, hc⟩ 0) =
      fillWith g a := by
  funext r' c'
  by_cases hcell : r' = r ∧ c' = c
  · obtain ⟨e1, e2⟩ := hcell; subst e1; subst e2
    rw [fillWith_clue _ _ r' c'
        (by rw [setCell_same]; exact digitChar_ne_dot d),
      setCell_same, fillWith_blank g a r' c' hr hc hblank, had]
  · by_cases hin : r' < 9 ∧ c' < 9
    · have hval : setCell g r c (digitChar d) r' c' = g r' c' :=
        setCell_other g r c (digitChar d) r' c' hcell
      by_cases hb : g r' c' = '.'
      · rw [fillWith_blank _ _ r' c' hin.1 hin.2 (by rw [hval]; exact hb),
          fillWith_blank g a r' c' hin.1 hin.2 hb,
          updAssign_other _ _ _ _ _ _
            (fin_pair_ne r c r' c' hr hc hin.1 hin.2 hcell)]
      · rw [fillWith_clue _ _ r' c' (by rw [hval]; exact hb),
          fillWith_clue g a r' c' hb, hval]
    · unfold fillWith
      rw [dif_neg hin, dif_neg hin]
      exact setCell_other g r c (digitChar d) r' c' hcell

theorem fiber_card (g : Grid) (r c : Nat) (hr : r < 9) (hc : c < 9)
    (hblank : g r c = '.') (d : Fin 9) :
    (Finset.univ.filter (fun a : Fin 9 → Fin 9 → Fin 9 =>
        IsAssign g a ∧ a ⟨r, hr⟩ ⟨c, hc⟩ = d)).card =
      NComp (setCell g r c (digitChar d)) := by
  unfold NComp
  refine Finset.card_bij (fun a _ => updAssign a ⟨r, hr⟩ ⟨c, hc⟩ 0) ?_ ?_ ?_
  · simp only [Finset.mem_filter, Finset.mem_univ, true_and]
    rintro a ⟨⟨hcanon, hnc⟩, had⟩
    unfold IsAssign
    refine ⟨?_, ?_⟩
    · intro r' c' hne
      by_cases h : r' = ⟨r, hr⟩ ∧ c' = ⟨c, hc⟩
      · obtain ⟨e1, e2⟩ := h; subst e1; subst e2
        exact updAssign_same a _ _ 0
      · rw [updAssign_other _ _ _ _ _ _ h]
        refine hcanon r' c' ?_
        have hq : ¬(r'.val = r ∧ c'.val = c) := by
          rintro ⟨e1, e2⟩
          exact h ⟨Fin.ext e1, Fin.ext e2⟩
        rwa [setCell_other g r c (digitChar d) r'.val c'.val hq] at hne
    · rw [fill_set_eq g r c hr hc hblank d a had]
      exact hnc
  · simp only [Finset.mem_filter, Finset.mem_univ, true_and]
    rintro a₁ ⟨_, had₁⟩ a₂ ⟨_, had₂⟩ heq
    funext r' c'
    by_cases h : r' = ⟨r, hr⟩ ∧ c' = ⟨c, hc⟩
    · obtain ⟨e1, e2⟩ := h; subst e1; subst e2
      rw [had₁, had₂]
    · have := congrFun (congrFun heq r') c'
      rwa [updAssign_other _ _ _ _ _ _ h, updAssign_other _ _ _ _ _ _ h]
        at this
  · simp only [Finset.mem_filter, Finset.mem_univ, true_and]
    rintro b ⟨hcanon, hnc⟩
    have hb0 : b ⟨r, hr⟩ ⟨c, hc⟩ = 0 := by
      refine hcanon _ _ ?_
      rw [setCell_same]
      exact digitChar_ne_dot d
    have hfix : updAssign (updAssign b ⟨r, hr⟩ ⟨c, hc⟩ d) ⟨r, hr⟩ ⟨c, hc⟩ 0 = b := by
      rw [updAssign_updAssign, ← hb0, updAssign_self]
    refine ⟨updAssign b ⟨r, hr⟩ ⟨c, hc⟩ d, ⟨⟨?_, ?_⟩, updAssign_same b _ _ d⟩, hfix⟩
    · intro r' c' hne
      have h : ¬(r' = (⟨r, hr⟩ : Fin 9) ∧ c' = (⟨c, hc⟩ : Fin 9)) := by
        rintro ⟨e1, e2⟩; subst e1; subst e2
        exact hne hblank
      rw [updAssign_other _ _ _ _ _ _ h]
      refine hcanon r' c' ?_
      have hq : ¬(r'.val = r ∧ c'.val = c) := by
        rintro ⟨e1, e2⟩
        exact h ⟨Fin.ext e1, Fin.ext e2⟩
      rw [setCell_other g r c (digitChar d) r'.val c'.val hq]
      exact hne
    · rw [← fill_set_eq g r c hr hc hblank d
          (updAssign b ⟨r, hr⟩ ⟨c, hc⟩ d) (updAssign_same b _ _ d),
        updAssign_updAssign, ← hb0, updAssign_self]
      exact hnc

theorem ncompAt_nil (g : Grid) (r c : Nat) (hr : r < 9) (hc : c < 9) :
    NCompAt g r c hr hc [] = 0 := by
  unfold NCompAt
  rw [Finset.card_eq_zero]
  ext a
  simp

theorem ncompAt_digitChars (g : Grid) (r c : Nat) (hr : r < 9) (hc : c < 9) :
    NCompAt g r c hr hc digitChars = NComp g := by
  unfold NCompAt NComp
  refine congrArg Finset.card (Finset.filter_congr ?_)
  intro a _
  simp only [and_iff_left_iff_imp]
  intro _
  exact digitChar_mem _

theorem ncompAt_singleton (g : Grid) (r c : Nat) (hr : r < 9) (hc : c < 9)
    (num : Char) (hblank : g r c = '.') (hnum : num ∈ digitChars) :
    NCompAt g r c hr hc [num] = NComp (setCell g r c num) := by
  have h1 : NCompAt g r c hr hc [num] =
      (Finset.univ.filter (fun a : Fin 9 → Fin 9 → Fin 9 =>
        IsAssign g a ∧ a ⟨r, hr⟩ ⟨c, hc⟩ = digitIdx num)).card := by
    unfold NCompAt
    refine congrArg Finset.card (Finset.filter_congr ?_)
    intro a _
    simp only [List.mem_singleton]
    constructor
    · rintro ⟨ha, h2⟩
      refine ⟨ha, digitChar_inj _ _ ?_⟩
      rw [h2, digitChar_digitIdx num hnum]
    · rintro ⟨ha, h2⟩
      exact ⟨ha, by rw [h2, digitChar_digitIdx num hnum]⟩
  rw [h1, fiber_card g r c hr hc hblank (digitIdx num),
    digitChar_digitIdx num hnum]

theorem ncompAt_split (g : Grid) (r c : Nat) (hr : r < 9) (hc : c < 9)
    (num : Char) (rest : List Char) (hnd : num ∉ rest) :
    NCompAt g r c hr hc (num :: rest) =
      NCompAt g r c hr hc [num] + NCompAt g r c hr hc rest := by
  unfold NCompAt
  rw [← Finset.card_union_of_disjoint]
  · refine congrArg Finset.card ?_
    ext a
    simp only [Finset.mem_filter, Finset.mem_univ, true_and, Finset.mem_union,
      List.mem_cons, List.mem_singleton]
    tauto
  · simp only [Finset.disjoint_left, Finset.mem_filter, Finset.mem_univ,
      true_and]
    rintro a ⟨_, he⟩ ⟨_, hm⟩
    rw [List.mem_singleton] at he
    rw [he] at hm
    exact hnd hm

theorem ncompAt_cons (g : Grid) (r c : Nat) (hr : r < 9) (hc : c < 9)
    (num : Char) (rest : List Char) (hblank : g r c = '.')
    (hnum : num ∈ digitChars) (hnd : num ∉ rest) :
    NCompAt g r c hr hc (num :: rest) =
      NComp (setCell g r c num) + NCompAt g r c hr hc rest := by
  rw [ncompAt_split g r c hr hc num rest hnd,
    ncompAt_singleton g r c hr hc num hblank hnum]

theorem not_gridCanPlace_unit (g : Grid) (r c : Nat) (hr : r < 9) (hc : c < 9)
    (num : Char) (hconf : ¬gridCanPlace g r c num) :
    ∃ u ∈ allUnits, (r, c) ∈ u ∧ ∃ p ∈ u, g p.1 p.2 = num := by
  unfold gridCanPlace at hconf
  by_cases hA : ∀ p ∈ rowCells r, g p.1 p.2 ≠ num
  · by_cases hB : ∀ p ∈ colCells c, g p.1 p.2 ≠ num
    · have hC : ¬∀ p ∈ boxCells (r / 3) (c / 3), g p.1 p.2 ≠ num :=
        fun hC => hconf ⟨hA, hB, hC⟩
      push_neg at hC
      obtain ⟨p, hp, hval⟩ := hC
      exact ⟨boxCells (r / 3) (c / 3),
        boxCells_mem_allUnits _ _ (by omega) (by omega),
        (cell_mem_units r c hr hc).2.2, p, hp, hval⟩
    · push_neg at hB
      obtain ⟨p, hp, hval⟩ := hB
      exact ⟨colCells c, colCells_mem_allUnits c hc,
        (cell_mem_units r c hr hc).2.1, p, hp, hval⟩
  · push_neg at hA
    obtain ⟨p, hp, hval⟩ := hA
    exact ⟨rowCells r, rowCells_mem_allUnits r hr,
      (cell_mem_units r c hr hc).1, p, hp, hval⟩

theorem ncomp_conflict_zero (g : Grid) (r c : Nat) (hr : r < 9) (hc : c < 9)
    (hblank : g r c = '.') (num : Char) (hnum : num ∈ digitChars)
    (hconf : ¬gridCanPlace g r c num) : NComp (setCell g r c num) = 0 := by
  obtain ⟨u, hu, hrc, p, hp, hval⟩ := not_gridCanPlace_unit g r c hr hc num hconf
  have hpne : p ≠ (r, c) := by
    intro he
    rw [he] at hval
    have : num = '.' := by rw [← hval]; exact hblank
    exact digit_mem_ne_dot num hnum this
  unfold NComp
  rw [Finset.card_eq_zero]
  ext a
  simp only [Finset.mem_filter, Finset.mem_univ, true_and,
    Finset.not_mem_empty, iff_false]
  rintro ⟨_, hnc⟩
  have hpcell : setCell g r c num p.1 p.2 = num := by
    rw [setCell_other g r c num p.1 p.2 (by
      rintro ⟨e1, e2⟩
      exact hpne (Prod.ext e1 e2))]
    exact hval
  have h1 : fillWith (setCell g r c num) a r c = num := by
    rw [fillWith_clue _ a r c
      (by rw [setCell_same]; exact digit_mem_ne_dot num hnum), setCell_same]
  have h2 : fillWith (setCell g r c num) a p.1 p.2 = num := by
    rw [fillWith_clue _ a p.1 p.2
      (by rw [hpcell]; exact digit_mem_ne_dot num hnum), hpcell]
  refine hnc u hu p hp (r, c) hrc hpne ?_ ?_
  · rw [h2]
    exact digit_mem_ne_dot num hnum
  · rw [h2, h1]

theorem countOptions_zero (s : SolverState) (r c : Nat)
    (h : countOptions s r c = 0) :
    ∀ num ∈ digitChars, canPlace s r c num = false := by
  unfold countOptions at h
  rw [List.length_eq_zero] at h
  intro num hnum
  cases hcp : canPlace s r c num with
  | false => rfl
  | true =>
    exfalso
    have hmem : num ∈ digitChars.filter (fun num => canPlace s r c num) :=
      List.mem_filter.mpr ⟨hnum, hcp⟩
    rw [h] at hmem
    exact List.not_mem_nil num hmem

theorem ncompAt_sublist_zero (g : Grid) (r c : Nat) (hr : r < 9) (hc : c < 9)
    (hblank : g r c = '.')
    (hblocked : ∀ num ∈ digitChars, ¬gridCanPlace g r c num) :
    ∀ nums, nums.Sublist digitChars → NCompAt g r c hr hc nums = 0 := by
  intro nums
  induction nums with
  | nil => intro _; exact ncompAt_nil g r c hr hc
  | cons num rest ih =>
    intro hsl
    have hnum : num ∈ digitChars := hsl.subset (List.mem_cons_self num rest)
    have hnd : num ∉ rest :=
      (List.nodup_cons.mp (digitChars_nodup.sublist hsl)).1
    rw [ncompAt_cons g r c hr hc num rest hblank hnum hnd,
      ncomp_conflict_zero g r c hr hc hblank num hnum (hblocked num hnum),
      ih (List.sublist_of_cons_sublist hsl)]

theorem ncomp_zero_of_no_options (g : Grid) (r c : Nat) (hr : r < 9)
    (hc : c < 9) (hblank : g r c = '.')
    (hblocked : ∀ num ∈ digitChars, ¬gridCanPlace g r c num) : NComp g = 0 := by
  rw [← ncompAt_digitChars g r c hr hc]
  exact ncompAt_sublist_zero g r c hr hc hblank hblocked digitChars
    (List.Sublist.refl digitChars)

theorem full_of_blanks_zero (g : Grid) (hwf : WFValues g)
    (hb : blanksCount g = 0) : FullG g := by
  have hnb := (blanksCount_zero_iff g).mp hb
  intro rc hrc
  rcases hwf rc hrc with h | h
  · exact h
  · exact absurd h (hnb rc hrc)

theorem extendsG_setCell (g : Grid) (r c : Nat) (hblank : g r c = '.')
    (num : Char) : ExtendsG g (setCell g r c num) := by
  intro rc _hrc hne
  refine setCell_other g r c num rc.1 rc.2 ?_
  rintro ⟨e1, e2⟩
  apply hne
  have : rc = (r, c) := Prod.ext e1 e2
  rw [this]
  exact hblank

theorem isCompletion_of_setCell (g : Grid) (r c : Nat) (hblank : g r c = '.')
    (num : Char) (g'' : Grid) (hcomp : IsCompletion (setCell g r c num) g'') :
    IsCompletion g g'' := by
  obtain ⟨hext, hfull, hnc⟩ := hcomp
  refine ⟨?_, hfull, hnc⟩
  intro rc hrc hne
  have hcond : ¬(rc.1 = r ∧ rc.2 = c) := by
    rintro ⟨e1, e2⟩
    apply hne
    have : rc = (r, c) := Prod.ext e1 e2
    rw [this]
    exact hblank
  have hcell : setCell g r c num rc.1 rc.2 = g rc.1 rc.2 :=
    setCell_other g r c num rc.1 rc.2 hcond
  rw [← hcell]
  exact hext rc hrc (by rw [hcell]; exact hne)

theorem units_length : ∀ u ∈ allUnits, u.length = 9 := by decide

theorem units_nodup : ∀ u ∈ allUnits, u.Nodup := by decide

theorem digitChars_count : ∀ d ∈ digitChars, digitChars.count d = 1 := by
  decide

theorem unit_counts (g' : Grid) (hfull : FullG g') (hnc : NoConf g') :
    ∀ u ∈ allUnits, ∀ d ∈ digitChars,
      (u.map (fun rc => g' rc.1 rc.2)).count d = 1 := by
  intro u hu d hd
  have hlen : (u.map (fun rc => g' rc.1 rc.2)).length = 9 := by
    rw [List.length_map]
    exact units_length u hu
  have hnd : (u.map (fun rc => g' rc.1 rc.2)).Nodup := by
    refine List.Nodup.map_on ?_ (units_nodup u hu)
    intro x hx y hy hxy
    by_contra hne
    exact hnc u hu x hx y hy hne
      (digit_mem_ne_dot _ (hfull x (units_sub_cells u hu x hx))) hxy
  have hsub : ∀ x ∈ u.map (fun rc => g' rc.1 rc.2), x ∈ digitChars := by
    intro x hx
    obtain ⟨p, hp, hpx⟩ := List.mem_map.mp hx
    rw [← hpx]
    exact hfull p (units_sub_cells u hu p hp)
  have hperm : (u.map (fun rc => g' rc.1 rc.2)).Perm digitChars := by
    refine List.Subperm.perm_of_length_le (List.Nodup.subperm hnd hsub) ?_
    rw [hlen]
    rfl
  rw [hperm.count_eq]
  exact digitChars_count d hd

theorem completions_unique (g : Grid) (h1 : NComp g = 1) (g₁ g₂ : Grid)
    (hc1 : IsCompletion g g₁) (hc2 : IsCompletion g g₂) :
    ∀ rc ∈ cellsList, g₁ rc.1 rc.2 = g₂ rc.1 rc.2 := by
  unfold NComp at h1
  obtain ⟨a₀, ha₀⟩ := Finset.card_eq_one.mp h1
  have hmem : ∀ gX : Grid, IsCompletion g gX → assignOf g gX = a₀ := by
    intro gX hcX
    have : assignOf g gX ∈
        Finset.univ.filter (fun a : Fin 9 → Fin 9 → Fin 9 => IsAssign g a) := by
      simp only [Finset.mem_filter, Finset.mem_univ, true_and]
      exact isCompletion_isAssign g gX hcX
    rw [ha₀] at this
    simpa using this
  intro rc hrc
  rw [← fillWith_assignOf g g₁ hc1 rc.1 rc.2 hrc,
    ← fillWith_assignOf g g₂ hc2 rc.1 rc.2 hrc, hmem g₁ hc1, hmem g₂ hc2]

/-! ### The clean-regime contract of the search -/

theorem place_grid (s : SolverState) (r c : Nat) (num : Char) :
    (place s r c num).grid = setCell s.grid r c num := rfl

theorem place_usedRows (s : SolverState) (r c : Nat) (num : Char) :
    (place s r c num).usedRows = setFlag s.usedRows r num true := rfl

theorem place_usedCols (s : SolverState) (r c : Nat) (num : Char) :
    (place s r c num).usedCols = setFlag s.usedCols c num true := rfl

theorem place_usedSubgrids (s : SolverState) (r c : Nat) (num : Char) :
    (place s r c num).usedSubgrids =
      setFlag2 s.usedSubgrids (r / 3 * 3) (c / 3 * 3) num true := rfl

theorem place_count (s : SolverState) (r c : Nat) (num : Char) :
    (place s r c num).solutionCount = s.solutionCount := rfl

theorem place_solved (s : SolverState) (r c : Nat) (num : Char) :
    (place s r c num).solvedGrid = s.solvedGrid := rfl

theorem blanksCount_pos_exists (g : Grid) (h : 0 < blanksCount g) :
    ∃ rc ∈ cellsList, g rc.1 rc.2 = '.' := by
  unfold blanksCount at h
  rw [List.length_pos] at h
  obtain ⟨rc, hrc⟩ := List.exists_mem_of_ne_nil _ h
  have hm := List.mem_filter.mp hrc
  exact ⟨rc, hm.1, by simpa using hm.2⟩

theorem unplace_place_mod (s : SolverState) (r c : Nat) (num : Char)
    (hblank : s.grid r c = '.') (hrow : s.usedRows r num = false)
    (hcol : s.usedCols c num = false)
    (hsub : s.usedSubgrids (r / 3 * 3) (c / 3 * 3) num = false)
    (n : Nat) (sg : Grid) :
    unplace { place s r c num with solutionCount := n, solvedGrid := sg }
        r c num =
      { s with solutionCount := n, solvedGrid := sg } := by
  simp only [unplace, place]
  rw [setCell_setCell_cancel s.grid r c num hblank,
    setFlag_setFlag_cancel s.usedRows r num hrow,
    setFlag_setFlag_cancel s.usedCols c num hcol,
    setFlag2_setFlag2_cancel s.usedSubgrids _ _ num hsub]

theorem unplace_eq_of_fields (s : SolverState) (r c : Nat) (num : Char)
    (hblank : s.grid r c = '.') (hrow : s.usedRows r num = false)
    (hcol : s.usedCols c num = false)
    (hsub : s.usedSubgrids (r / 3 * 3) (c / 3 * 3) num = false)
    (t : SolverState) (hg : t.grid = setCell s.grid r c num)
    (hurw : t.usedRows = setFlag s.usedRows r num true)
    (hucl : t.usedCols = setFlag s.usedCols c num true)
    (husg : t.usedSubgrids =
      setFlag2 s.usedSubgrids (r / 3 * 3) (c / 3 * 3) num true) :
    unplace t r c num =
      { s with solutionCount := t.solutionCount, solvedGrid := t.solvedGrid } := by
  simp only [unplace]
  rw [hg, hurw, hucl, husg,
    setCell_setCell_cancel s.grid r c num hblank,
    setFlag_setFlag_cancel s.usedRows r num hrow,
    setFlag_setFlag_cancel s.usedCols c num hcol,
    setFlag2_setFlag2_cancel s.usedSubgrids _ _ num hsub]

theorem runCall_sound : ∀ fuel : Nat,
    (∀ s : SolverState, Inv s →
      s.solutionCount + NComp s.grid ≤ 1 →
      11 * blanksCount s.grid + 1 ≤ fuel → SolveOut fuel s) ∧
    (∀ (s : SolverState) (r c : Nat) (hr : r < 9) (hc : c < 9)
      (nums : List Char), Inv s → s.grid r c = '.' →
      nums.Sublist digitChars →
      s.solutionCount + NCompAt s.grid r c hr hc nums ≤ 1 →
      11 * (blanksCount s.grid - 1) + nums.length + 2 ≤ fuel →
      LoopOut fuel s r c hr hc nums) := by
  intro fuel
  induction fuel with
  | zero =>
    constructor
    · intro s _ _ hfuel
      exact absurd hfuel (by omega)
    · intro s r c hr hc nums _ _ _ _ hfuel
      exact absurd hfuel (by omega)
  | succ fuel ih =>
    constructor
    · -- one activation of solve
      intro s hinv hcount hfuel
      by_cases hb0 : blanksCount s.grid = 0
      · unfold SolveOut
        rw [if_pos hb0]
        have hnone : (findNextCell s).1 = none :=
          (findNextCell_spec s).2.1
            (fun rc hrc => (blanksCount_zero_iff s.grid).mp hb0 rc hrc)
        rcases hfind : findNextCell s with ⟨o, m⟩
        rw [hfind] at hnone
        have ho : o = none := hnone
        subst ho
        exact runCall_solve_full fuel s m hfind
      · unfold SolveOut
        rw [if_neg hb0]
        rcases hfind : findNextCell s with ⟨o, m⟩
        cases o with
        | none =>
          exfalso
          have hspec := (findNextCell_spec s).1 (by rw [hfind])
          exact hb0 ((blanksCount_zero_iff s.grid).mpr hspec.2)
        | some rc =>
          obtain ⟨hmem, hblank, hm, _hminall, _⟩ :=
            (findNextCell_spec s).2.2.1 rc m hfind
          obtain ⟨hr, hc⟩ := (mem_cellsList rc.1 rc.2).mp hmem
          by_cases hm0 : m = 0
          · have hrun := runCall_solve_dead fuel s rc (by rw [hfind, hm0])
            have hco : countOptions s rc.1 rc.2 = 0 := by rw [← hm]; exact hm0
            have hblocked : ∀ num ∈ digitChars,
                ¬gridCanPlace s.grid rc.1 rc.2 num := by
              intro num hnum hgc
              have hcp := (canPlace_iff s hinv.1 rc.1 rc.2 hr hc num hnum).mpr hgc
              have hfalse := countOptions_zero s rc.1 rc.2 hco num hnum
              rw [hcp] at hfalse
              exact Bool.noConfusion hfalse
            have hN0 : NComp s.grid = 0 :=
              ncomp_zero_of_no_options s.grid rc.1 rc.2 hr hc hblank hblocked
            have hcond : ¬(s.solutionCount = 0 ∧ NComp s.grid = 1) := by
              rintro ⟨_, h1⟩
              rw [hN0] at h1
              exact absurd h1 (by decide)
            rw [hrun, if_neg hcond]
            refine ⟨rfl, rfl, rfl, rfl, ?_, rfl, rfl⟩
            rw [hN0]
            exact (Nat.add_zero _).symm
          · have hrun := runCall_solve_loop fuel s rc m hfind hm0
            have hb1 : 1 ≤ blanksCount s.grid :=
              blanksCount_pos s.grid rc.1 rc.2 hmem hblank
            have h9 : digitChars.length = 9 := rfl
            have hfuel' :
                11 * (blanksCount s.grid - 1) + digitChars.length + 2 ≤ fuel := by
              omega
            have hcount' :
                s.solutionCount + NCompAt s.grid rc.1 rc.2 hr hc digitChars ≤ 1 := by
              rw [ncompAt_digitChars]
              exact hcount
            have hloop := ih.2 s rc.1 rc.2 hr hc digitChars hinv hblank
              (List.Sublist.refl digitChars) hcount' hfuel'
            unfold LoopOut at hloop
            obtain ⟨e1, e2, e3, e4, e5, e6, e7⟩ := hloop
            rw [hrun]
            refine ⟨e1, e2, e3, e4, ?_, e6, ?_⟩
            · rw [e5, ncompAt_digitChars]
            · rw [← ncompAt_digitChars s.grid rc.1 rc.2 hr hc]
              exact e7
    · -- one activation of the digit loop
      intro s r c hr hc nums hinv hblank hsl hcount hfuel
      cases nums with
      | nil =>
        have hrun : runCall (fuel + 1) (.loop s r c []) = (s, false) := by
          simp [runCall]
        unfold LoopOut
        rw [hrun, ncompAt_nil s.grid r c hr hc]
        have hcond : ¬(s.solutionCount = 0 ∧ (0 : Nat) = 1) := by
          rintro ⟨_, h⟩
          exact absurd h (by decide)
        rw [if_neg hcond]
        exact ⟨rfl, rfl, rfl, rfl, (Nat.add_zero _).symm, rfl, rfl⟩
      | cons num rest =>
        have hnum : num ∈ digitChars := hsl.subset (List.mem_cons_self num rest)
        have hnd : num ∉ rest :=
          (List.nodup_cons.mp (digitChars_nodup.sublist hsl)).1
        have hsl' : rest.Sublist digitChars := List.sublist_of_cons_sublist hsl
        have hmem : (r, c) ∈ cellsList := (mem_cellsList r c).mpr ⟨hr, hc⟩
        have hsplit := ncompAt_cons s.grid r c hr hc num rest hblank hnum hnd
        have hlen : (num :: rest).length = rest.length + 1 := rfl
        rw [hlen] at hfuel
        have hbpos : 1 ≤ blanksCount s.grid :=
          blanksCount_pos s.grid r c hmem hblank
        by_cases hcan : canPlace s r c num = true
        · obtain ⟨hrow0, hcol0, hsub0⟩ := canPlace_flags s r c num hcan
          have hinv1 : Inv (place s r c num) :=
            inv_place s hinv r c hr hc num hnum hblank hcan
          have hb1 : blanksCount (setCell s.grid r c num) + 1 = blanksCount s.grid :=
            blanksCount_setCell s.grid r c num hmem hblank
              (digit_mem_ne_dot num hnum)
          rw [hsplit] at hcount
          by_cases hfull : blanksCount (setCell s.grid r c num) = 0
          · -- the placement fills the last blank: the recursion reports a grid
            have hfullP : blanksCount (place s r c num).grid = 0 := hfull
            have hNC : NoConf (setCell s.grid r c num) := hinv1.2.1
            have hN1 : NComp (setCell s.grid r c num) = 1 := by
              rw [ncomp_full _ hfull, if_pos hNC]
            have hk0 : s.solutionCount = 0 := by omega
            have hR0 : NCompAt s.grid r c hr hc rest = 0 := by omega
            have hcntc :
                (place s r c num).solutionCount + NComp (place s r c num).grid ≤ 1 := by
              rw [place_count, place_grid]
              omega
            have hfuelc : 11 * blanksCount (place s r c num).grid + 1 ≤ fuel := by
              rw [place_grid, hfull]
              omega
            have hchild := ih.1 (place s r c num) hinv1 hcntc hfuelc
            unfold SolveOut at hchild
            rw [if_pos hfullP] at hchild
            have hsnap := runCall_loop_snap fuel s r c num rest hcan
              (place s r c num) hchild (by rw [place_count]; exact hk0)
            have hupd := unplace_place_mod s r c num hblank hrow0 hcol0 hsub0
              1 (place s r c num).grid
            rw [hupd] at hsnap
            have hinvA : Inv ({ s with solutionCount := 1, solvedGrid := (place s r c num).grid } : SolverState) := hinv
            have hblankA : ({ s with solutionCount := 1, solvedGrid := (place s r c num).grid } : SolverState).grid r c = '.' := hblank
            have hcountA : ({ s with solutionCount := 1, solvedGrid := (place s r c num).grid } : SolverState).solutionCount +
                NCompAt ({ s with solutionCount := 1, solvedGrid := (place s r c num).grid } : SolverState).grid r c hr hc rest ≤ 1 := by
              show 1 + NCompAt s.grid r c hr hc rest ≤ 1
              omega
            have hfuelA : 11 * (blanksCount ({ s with solutionCount := 1, solvedGrid := (place s r c num).grid } : SolverState).grid - 1) +
                rest.length + 2 ≤ fuel := by
              show 11 * (blanksCount s.grid - 1) + rest.length + 2 ≤ fuel
              omega
            have hloop := ih.2 _ r c hr hc rest hinvA hblankA hsl' hcountA hfuelA
            unfold LoopOut at hloop
            obtain ⟨e1, e2, e3, e4, e5, e6, e7⟩ := hloop
            have e5' : (runCall fuel (.loop { s with solutionCount := 1, solvedGrid := (place s r c num).grid } r c rest)).1.solutionCount =
                1 + NCompAt s.grid r c hr hc rest := by
              rw [e5]
            unfold LoopOut
            rw [hsnap]
            refine ⟨e1.trans rfl, e2.trans rfl, e3.trans rfl, e4.trans rfl,
              ?_, e6, ?_⟩
            · rw [hsplit]
              omega
            · have hT : s.solutionCount = 0 ∧
                  NCompAt s.grid r c hr hc (num :: rest) = 1 :=
                ⟨hk0, by rw [hsplit, hN1, hR0]⟩
              rw [if_pos hT]
              have hcondR : ¬(({ s with solutionCount := 1, solvedGrid := (place s r c num).grid } : SolverState).solutionCount = 0 ∧
                  NCompAt ({ s with solutionCount := 1, solvedGrid := (place s r c num).grid } : SolverState).grid r c hr hc rest = 1) := by
                rintro ⟨h0, _⟩
                have h0' : (1 : Nat) = 0 := h0
                exact absurd h0' (by decide)
              rw [if_neg hcondR] at e7
              rw [e7]
              show IsCompletion s.grid (setCell s.grid r c num)
              have hwfset : WFValues (setCell s.grid r c num) := hinv1.2.2
              exact ⟨extendsG_setCell s.grid r c hblank num,
                full_of_blanks_zero _ hwfset hfull, hNC⟩
          · -- the recursion still has blanks to fill: it returns false
            have hcntc :
                (place s r c num).solutionCount + NComp (place s r c num).grid ≤ 1 := by
              rw [place_count, place_grid]
              omega
            have hfuelc : 11 * blanksCount (place s r c num).grid + 1 ≤ fuel := by
              rw [place_grid]
              omega
            have hchild := ih.1 (place s r c num) hinv1 hcntc hfuelc
            unfold SolveOut at hchild
            have hfullP : ¬blanksCount (place s r c num).grid = 0 := hfull
            rw [if_neg hfullP] at hchild
            obtain ⟨c1, c2, c3, c4, c5, c6, c7⟩ := hchild
            rw [place_grid] at c1
            rw [place_usedRows] at c2
            rw [place_usedCols] at c3
            rw [place_usedSubgrids] at c4
            rw [place_count, place_grid] at c5
            rw [place_count, place_grid, place_solved] at c7
            have hres' : runCall fuel (.solve (place s r c num)) =
                ((runCall fuel (.solve (place s r c num))).1, false) := by
              rw [← c6]
            have hfail := runCall_loop_fail fuel s r c num rest hcan _ hres'
            have hust := unplace_eq_of_fields s r c num hblank hrow0 hcol0 hsub0
              (runCall fuel (.solve (place s r c num))).1 c1 c2 c3 c4
            rw [hust] at hfail
            have hinvB : Inv ({ s with solutionCount := (runCall fuel (.solve (place s r c num))).1.solutionCount, solvedGrid := (runCall fuel (.solve (place s r c num))).1.solvedGrid } : SolverState) := hinv
            have hblankB : ({ s with solutionCount := (runCall fuel (.solve (place s r c num))).1.solutionCount, solvedGrid := (runCall fuel (.solve (place s r c num))).1.solvedGrid } : SolverState).grid r c = '.' := hblank
            have hcountB : ({ s with solutionCount := (runCall fuel (.solve (place s r c num))).1.solutionCount, solvedGrid := (runCall fuel (.solve (place s r c num))).1.solvedGrid } : SolverState).solutionCount +
                NCompAt ({ s with solutionCount := (runCall fuel (.solve (place s r c num))).1.solutionCount, solvedGrid := (runCall fuel (.solve (place s r c num))).1.solvedGrid } : SolverState).grid r c hr hc rest ≤ 1 := by
              show (runCall fuel (.solve (place s r c num))).1.solutionCount +
                NCompAt s.grid r c hr hc rest ≤ 1
              omega
            have hfuelB : 11 * (blanksCount ({ s with solutionCount := (runCall fuel (.solve (place s r c num))).1.solutionCount, solvedGrid := (runCall fuel (.solve (place s r c num))).1.solvedGrid } : SolverState).grid - 1) +
                rest.length + 2 ≤ fuel := by
              show 11 * (blanksCount s.grid - 1) + rest.length + 2 ≤ fuel
              omega
            have hloop := ih.2 _ r c hr hc rest hinvB hblankB hsl' hcountB hfuelB
            unfold LoopOut at hloop
            obtain ⟨e1, e2, e3, e4, e5, e6, e7⟩ := hloop
            have e5' : (runCall fuel (.loop { s with solutionCount := (runCall fuel (.solve (place s r c num))).1.solutionCount, solvedGrid := (runCall fuel (.solve (place s r c num))).1.solvedGrid } r c rest)).1.solutionCount =
                (runCall fuel (.solve (place s r c num))).1.solutionCount +
                  NCompAt s.grid r c hr hc rest := by
              rw [e5]
            have e7' : (if (runCall fuel (.solve (place s r c num))).1.solutionCount = 0 ∧
                  NCompAt s.grid r c hr hc rest = 1 then
                IsCompletion s.grid (runCall fuel (.loop { s with solutionCount := (runCall fuel (.solve (place s r c num))).1.solutionCount, solvedGrid := (runCall fuel (.solve (place s r c num))).1.solvedGrid } r c rest)).1.solvedGrid
              else (runCall fuel (.loop { s with solutionCount := (runCall fuel (.solve (place s r c num))).1.solutionCount, solvedGrid := (runCall fuel (.solve (place s r c num))).1.solvedGrid } r c rest)).1.solvedGrid =
                (runCall fuel (.solve (place s r c num))).1.solvedGrid) := e7
            unfold LoopOut
            rw [hfail]
            refine ⟨e1.trans rfl, e2.trans rfl, e3.trans rfl, e4.trans rfl,
              ?_, e6, ?_⟩
            · rw [hsplit]
              omega
            · by_cases hT : s.solutionCount = 0 ∧
                  NCompAt s.grid r c hr hc (num :: rest) = 1
              · rw [if_pos hT]
                obtain ⟨hT1, hT2⟩ := hT
                rw [hsplit] at hT2
                by_cases hN1c : NComp (setCell s.grid r c num) = 1
                · have hNR0 : NCompAt s.grid r c hr hc rest = 0 := by omega
                  have hc7T : s.solutionCount = 0 ∧
                      NComp (setCell s.grid r c num) = 1 := ⟨hT1, hN1c⟩
                  rw [if_pos hc7T] at c7
                  have hcondR : ¬((runCall fuel (.solve (place s r c num))).1.solutionCount = 0 ∧
                      NCompAt s.grid r c hr hc rest = 1) := by
                    rintro ⟨_, hnr⟩
                    rw [hNR0] at hnr
                    exact absurd hnr (by decide)
                  rw [if_neg hcondR] at e7'
                  rw [e7']
                  exact isCompletion_of_setCell s.grid r c hblank num _ c7
                · have hN10 : NComp (setCell s.grid r c num) = 0 := by omega
                  have hNR1 : NCompAt s.grid r c hr hc rest = 1 := by omega
                  have hc7F : ¬(s.solutionCount = 0 ∧
                      NComp (setCell s.grid r c num) = 1) := by
                    rintro ⟨_, h1⟩
                    rw [hN10] at h1
                    exact absurd h1 (by decide)
                  rw [if_neg hc7F] at c7
                  have hcondR : (runCall fuel (.solve (place s r c num))).1.solutionCount = 0 ∧
                      NCompAt s.grid r c hr hc rest = 1 := by
                    constructor
                    · omega
                    · exact hNR1
                  rw [if_pos hcondR] at e7'
                  exact e7'
              · rw [if_neg hT]
                have hcondR : ¬((runCall fuel (.solve (place s r c num))).1.solutionCount = 0 ∧
                    NCompAt s.grid r c hr hc rest = 1) := by
                  rintro ⟨h0, hnr⟩
                  apply hT
                  constructor
                  · omega
                  · rw [hsplit]
                    omega
                rw [if_neg hcondR] at e7'
                have hc7F : ¬(s.solutionCount = 0 ∧
                    NComp (setCell s.grid r c num) = 1) := by
                  rintro ⟨h0, h1⟩
                  apply hT
                  constructor
                  · exact h0
                  · rw [hsplit]
                    omega
                rw [if_neg hc7F] at c7
                rw [e7', c7]
        · -- the digit cannot be placed: the loop skips it
          have hnogc : ¬gridCanPlace s.grid r c num := fun hgc =>
            hcan ((canPlace_iff s hinv.1 r c hr hc num hnum).mpr hgc)
          have hN10 : NComp (setCell s.grid r c num) = 0 :=
            ncomp_conflict_zero s.grid r c hr hc hblank num hnum hnogc
          have hrun := runCall_loop_skip fuel s r c num rest hcan
          have hcount' : s.solutionCount + NCompAt s.grid r c hr hc rest ≤ 1 := by
            rw [hsplit] at hcount
            omega
          have hfuel' : 11 * (blanksCount s.grid - 1) + rest.length + 2 ≤ fuel := by
            omega
          have hloop := ih.2 s r c hr hc rest hinv hblank hsl' hcount' hfuel'
          unfold LoopOut at hloop
          obtain ⟨e1, e2, e3, e4, e5, e6, e7⟩ := hloop
          unfold LoopOut
          rw [hrun]
          refine ⟨e1, e2, e3, e4, ?_, e6, ?_⟩
          · rw [hsplit, hN10, Nat.zero_add]
            exact e5
          · by_cases hT : s.solutionCount = 0 ∧
                NCompAt s.grid r c hr hc (num :: rest) = 1
            · rw [if_pos hT]
              have hTR : s.solutionCount = 0 ∧
                  NCompAt s.grid r c hr hc rest = 1 := by
                obtain ⟨h0, h1⟩ := hT
                rw [hsplit] at h1
                exact ⟨h0, by omega⟩
              rw [if_pos hTR] at e7
              exact e7
            · rw [if_neg hT]
              have hTR : ¬(s.solutionCount = 0 ∧
                  NCompAt s.grid r c hr hc rest = 1) := by
                rintro ⟨h0, h1⟩
                exact hT ⟨h0, by rw [hsplit]; omega⟩
              rw [if_neg hTR] at e7
              exact e7

theorem runCall_loop_false : ∀ (fuel : Nat) (s : SolverState) (r c : Nat)
    (nums : List Char), (runCall fuel (.loop s r c nums)).2 = false := by
  intro fuel
  induction fuel with
  | zero => intro s r c nums; rfl
  | succ fuel ih =>
    intro s r c nums
    match nums with
    | [] => simp [runCall]
    | num :: rest =>
      by_cases hcan : canPlace s r c num = true
      · rcases hres : runCall fuel (.solve (place s r c num)) with ⟨s2, b⟩
        match b with
        | false =>
          rw [runCall_loop_fail fuel s r c num rest hcan s2 hres]
          exact ih _ r c rest
        | true =>
          by_cases hzero : s2.solutionCount = 0
          · rw [runCall_loop_snap fuel s r c num rest hcan s2 hres hzero]
            exact ih _ r c rest
          · rw [runCall_loop_early fuel s r c num rest hcan s2 hres (by omega)]
      · rw [runCall_loop_skip fuel s r c num rest hcan]
        exact ih s r c rest

theorem runCall_solve_false (fuel : Nat) (s : SolverState)
    (hb : 0 < blanksCount s.grid) : (runCall fuel (.solve s)).2 = false := by
  match fuel with
  | 0 => rfl
  | fuel + 1 =>
    rcases hfind : findNextCell s with ⟨o, m⟩
    cases o with
    | none =>
      exfalso
      have hspec := (findNextCell_spec s).1 (by rw [hfind])
      have := (blanksCount_zero_iff s.grid).mpr hspec.2
      omega
    | some rc =>
      by_cases hm0 : m = 0
      · rw [runCall_solve_dead fuel s rc (by rw [hfind, hm0])]
      · rw [runCall_solve_loop fuel s rc m hfind hm0]
        exact runCall_loop_false fuel s rc.1 rc.2 digitChars

theorem runCall_solve_full_pos (fuel : Nat) (hf : 1 ≤ fuel) (s : SolverState)
    (hb : blanksCount s.grid = 0) : runCall fuel (.solve s) = (s, true) := by
  obtain ⟨f, rfl⟩ : ∃ f, fuel = f + 1 := ⟨fuel - 1, by omega⟩
  have hnone : (findNextCell s).1 = none :=
    (findNextCell_spec s).2.1
      (fun rc hrc => (blanksCount_zero_iff s.grid).mp hb rc hrc)
  rcases hfind : findNextCell s with ⟨o, m⟩
  rw [hfind] at hnone
  have ho : o = none := hnone
  subst ho
  exact runCall_solve_full f s m hfind

theorem runCall_complete_solve_step (fuel : Nat) (ihL : CompleteLoop fuel) :
    CompleteSolve (fuel + 1) := by
      intro s hinv hbpos hfuel
      rcases hfind : findNextCell s with ⟨o, m⟩
      cases o with
      | none =>
        exfalso
        have hspec := (findNextCell_spec s).1 (by rw [hfind])
        have := (blanksCount_zero_iff s.grid).mpr hspec.2
        omega
      | some rc =>
        obtain ⟨hmem, hblank, hm, _hminall, _⟩ :=
          (findNextCell_spec s).2.2.1 rc m hfind
        obtain ⟨hr, hc⟩ := (mem_cellsList rc.1 rc.2).mp hmem
        by_cases hm0 : m = 0
        · have hco : countOptions s rc.1 rc.2 = 0 := by rw [← hm]; exact hm0
          have hblocked : ∀ num ∈ digitChars,
              ¬gridCanPlace s.grid rc.1 rc.2 num := by
            intro num hnum hgc
            have hcp := (canPlace_iff s hinv.1 rc.1 rc.2 hr hc num hnum).mpr hgc
            have hfalse := countOptions_zero s rc.1 rc.2 hco num hnum
            rw [hcp] at hfalse
            exact Bool.noConfusion hfalse
          have hN0 : NComp s.grid = 0 :=
            ncomp_zero_of_no_options s.grid rc.1 rc.2 hr hc hblank hblocked
          rw [runCall_solve_dead fuel s rc (by rw [hfind, hm0]), hN0]
          exact le_trans (Nat.min_le_left _ _) (le_of_eq (Nat.add_zero _))
        · rw [runCall_solve_loop fuel s rc m hfind hm0]
          have h9 : digitChars.length = 9 := rfl
          have hloop := ihL s rc.1 rc.2 hr hc digitChars hinv hblank
            (List.Sublist.refl digitChars) (by omega)
          rw [ncompAt_digitChars] at hloop
          exact hloop

theorem runCall_complete_loop_step (fuel : Nat) (ihS : CompleteSolve fuel)
    (ihL : CompleteLoop fuel) : CompleteLoop (fuel + 1) := by
      intro s r c hr hc nums hinv hblank hsl hfuel
      cases nums with
      | nil =>
        have hrun : runCall (fuel + 1) (.loop s r c []) = (s, false) := by
          simp [runCall]
        rw [hrun, ncompAt_nil s.grid r c hr hc]
        exact le_trans (Nat.min_le_left _ _) (le_of_eq (Nat.add_zero _))
      | cons num rest =>
        have hnum : num ∈ digitChars := hsl.subset (List.mem_cons_self num rest)
        have hnd : num ∉ rest :=
          (List.nodup_cons.mp (digitChars_nodup.sublist hsl)).1
        have hsl' : rest.Sublist digitChars := List.sublist_of_cons_sublist hsl
        have hmem : (r, c) ∈ cellsList := (mem_cellsList r c).mpr ⟨hr, hc⟩
        have hsplit := ncompAt_cons s.grid r c hr hc num rest hblank hnum hnd
        have hlen : (num :: rest).length = rest.length + 1 := rfl
        rw [hlen] at hfuel
        have hbpos : 1 ≤ blanksCount s.grid :=
          blanksCount_pos s.grid r c hmem hblank
        by_cases hcan : canPlace s r c num = true
        · obtain ⟨hrow0, hcol0, hsub0⟩ := canPlace_flags s r c num hcan
          have hinv1 : Inv (place s r c num) :=
            inv_place s hinv r c hr hc num hnum hblank hcan
          have hb1 : blanksCount (setCell s.grid r c num) + 1 = blanksCount s.grid :=
            blanksCount_setCell s.grid r c num hmem hblank
              (digit_mem_ne_dot num hnum)
          by_cases hfull : blanksCount (setCell s.grid r c num) = 0
          · -- the recursion reports a completed grid right away
            have hfullP : blanksCount (place s r c num).grid = 0 := hfull
            have hNC : NoConf (setCell s.grid r c num) := hinv1.2.1
            have hN1 : NComp (setCell s.grid r c num) = 1 := by
              rw [ncomp_full _ hfull, if_pos hNC]
            have hchild := runCall_solve_full_pos fuel (by omega)
              (place s r c num) hfullP
            by_cases hk0 : s.solutionCount = 0
            · rw [runCall_loop_snap fuel s r c num rest hcan _ hchild
                (by rw [place_count]; exact hk0)]
              rw [unplace_place_mod s r c num hblank hrow0 hcol0 hsub0
                1 (place s r c num).grid]
              have hinvA : Inv ({ s with solutionCount := 1, solvedGrid := (place s r c num).grid } : SolverState) := hinv
              have hblankA : ({ s with solutionCount := 1, solvedGrid := (place s r c num).grid } : SolverState).grid r c = '.' := hblank
              have hfuelA : 11 * (blanksCount ({ s with solutionCount := 1, solvedGrid := (place s r c num).grid } : SolverState).grid - 1) +
                  rest.length + 2 ≤ fuel := by
                show 11 * (blanksCount s.grid - 1) + rest.length + 2 ≤ fuel
                omega
              have hloop := ihL _ r c hr hc rest hinvA hblankA hsl' hfuelA
              rw [show ({ s with solutionCount := 1, solvedGrid := (place s r c num).grid } : SolverState).solutionCount = 1 from rfl,
                show ({ s with solutionCount := 1, solvedGrid := (place s r c num).grid } : SolverState).grid = s.grid from rfl] at hloop
              rw [hsplit, hN1, hk0]
              clear * - hloop
              omega
            · rw [runCall_loop_early fuel s r c num rest hcan _ hchild
                (by rw [place_count]; omega)]
              show min (s.solutionCount + NCompAt s.grid r c hr hc (num :: rest)) 2 ≤
                s.solutionCount + 1
              have hk : 1 ≤ s.solutionCount := Nat.pos_of_ne_zero hk0
              clear * - hk
              omega
          · -- the recursion returns with blanks remaining
            have hb2 : (runCall fuel (.solve (place s r c num))).2 = false :=
              runCall_solve_false fuel (place s r c num)
                (by rw [place_grid]; omega)
            have hres' : runCall fuel (.solve (place s r c num)) =
                ((runCall fuel (.solve (place s r c num))).1, false) := by
              rw [← hb2]
            rw [runCall_loop_fail fuel s r c num rest hcan _ hres']
            have hfuelc : 11 * blanksCount (place s r c num).grid + 1 ≤ fuel := by
              rw [place_grid]
              omega
            have hcc := ihS (place s r c num) hinv1
              (by rw [place_grid]; omega) hfuelc
            rw [place_count, place_grid] at hcc
            have hchild := (runCall_sound fuel).1 (place s r c num) hinv1
            unfold SolveOut at hchild
            have hfullP : ¬blanksCount (place s r c num).grid = 0 := hfull
            rw [if_neg hfullP] at hchild
            generalize hRs : (runCall fuel (.solve (place s r c num))).1 = Rs
              at hcc hchild ⊢
            by_cases hcnt2 : 2 ≤ Rs.solutionCount
            · have hmono := runCall_count_mono fuel
                (.loop (unplace Rs r c num) r c rest)
              rw [call_state_loop] at hmono
              rw [show (unplace Rs r c num).solutionCount = Rs.solutionCount
                from rfl] at hmono
              clear * - hmono hcnt2
              omega
            · have hpre : (place s r c num).solutionCount +
                  NComp (place s r c num).grid ≤ 1 := by
                rw [place_count, place_grid]
                clear * - hcc hcnt2
                omega
              obtain ⟨c1, c2, c3, c4, c5, _c6, _c7⟩ := hchild hpre hfuelc
              rw [place_grid] at c1
              rw [place_usedRows] at c2
              rw [place_usedCols] at c3
              rw [place_usedSubgrids] at c4
              rw [place_count, place_grid] at c5
              have hust := unplace_eq_of_fields s r c num hblank hrow0 hcol0
                hsub0 Rs c1 c2 c3 c4
              rw [hust]
              have hinvB : Inv ({ s with solutionCount := Rs.solutionCount, solvedGrid := Rs.solvedGrid } : SolverState) := hinv
              have hblankB : ({ s with solutionCount := Rs.solutionCount, solvedGrid := Rs.solvedGrid } : SolverState).grid r c = '.' := hblank
              have hfuelB : 11 * (blanksCount ({ s with solutionCount := Rs.solutionCount, solvedGrid := Rs.solvedGrid } : SolverState).grid - 1) +
                  rest.length + 2 ≤ fuel := by
                show 11 * (blanksCount s.grid - 1) + rest.length + 2 ≤ fuel
                omega
              have hloop := ihL _ r c hr hc rest hinvB hblankB hsl' hfuelB
              rw [show ({ s with solutionCount := Rs.solutionCount, solvedGrid := Rs.solvedGrid } : SolverState).solutionCount = Rs.solutionCount from rfl,
                show ({ s with solutionCount := Rs.solutionCount, solvedGrid := Rs.solvedGrid } : SolverState).grid = s.grid from rfl] at hloop
              rw [hsplit]
              clear * - hloop c5
              omega
        · have hnogc : ¬gridCanPlace s.grid r c num := fun hgc =>
            hcan ((canPlace_iff s hinv.1 r c hr hc num hnum).mpr hgc)
          have hN10 : NComp (setCell s.grid r c num) = 0 :=
            ncomp_conflict_zero s.grid r c hr hc hblank num hnum hnogc
          rw [runCall_loop_skip fuel s r c num rest hcan]
          have hfuel' : 11 * (blanksCount s.grid - 1) + rest.length + 2 ≤ fuel := by
            omega
          have hloop := ihL s r c hr hc rest hinv hblank hsl' hfuel'
          rw [hsplit, hN10, Nat.zero_add]
          exact hloop

theorem runCall_complete : ∀ fuel : Nat,
    CompleteSolve fuel ∧ CompleteLoop fuel := by
  intro fuel
  induction fuel with
  | zero =>
    constructor
    · intro s _ _ hfuel
      exact absurd hfuel (by omega)
    · intro s r c hr hc nums _ _ _ hfuel
      exact absurd hfuel (by omega)
  | succ fuel ih =>
    exact ⟨runCall_complete_solve_step fuel ih.2,
      runCall_complete_loop_step fuel ih.1 ih.2⟩

/-- C1 (confirmed): for a grid that passed validation, when `SolveSudoku`
reports a unique solution (flag `true`), the returned grid is the captured
snapshot: it has no blank cell, agrees with the input on every clue cell,
every row, column and box holds each digit `'1'..'9'` exactly once, the input
has exactly one conflict-free completion, and every completion agrees with the
returned grid on all 81 cells. -/
theorem solveSudoku_unique_correct (g : Grid) (hpass : PassedValidation g)
    (htrue : (SolveSudoku g).2 = true) :
    ∃ sol : Grid, SolveSudoku g = (sol, true) ∧ FullG sol ∧ ExtendsG g sol ∧
      (∀ u ∈ allUnits, ∀ d ∈ digitChars,
        (u.map (fun rc => sol rc.1 rc.2)).count d = 1) ∧
      NComp g = 1 ∧
      (∀ g'' : Grid, IsCompletion g g'' →
        ∀ rc ∈ cellsList, g'' rc.1 rc.2 = sol rc.1 rc.2) := by
  obtain ⟨hwf, hnc, _hclues⟩ := hpass
  have hinv0 : Inv (initState g) := initState_inv g hnc hwf
  generalize hIS : initState g = S0 at hinv0
  have hS0c : S0.solutionCount = 0 := by
    rw [← hIS]
    exact initState_count g
  have hS0g : S0.grid = g := by
    rw [← hIS]
    exact initState_grid g
  have hrs : runSolve g = (runCall solveFuel (.solve S0)).1 := by
    rw [runSolve_def, hIS]
  by_cases hK : (runSolve g).solutionCount ≠ 1
  · rw [SolveSudoku_def g, if_pos hK] at htrue
    exact absurd (show (false : Bool) = true from htrue) (by decide)
  · have hK1 : (runSolve g).solutionCount = 1 := not_not.mp hK
    by_cases hb0 : blanksCount g = 0
    · exfalso
      have hrics : blanksCount S0.grid = 0 := by
        rw [hS0g]
        exact hb0
      have hrun : runCall solveFuel (.solve S0) = (S0, true) :=
        runCall_solve_full_pos solveFuel (by decide) S0 hrics
      have hzero : (runSolve g).solutionCount = 0 := by
        rw [hrs, hrun]
        exact hS0c
      rw [hzero] at hK1
      exact absurd hK1 (by decide)
    · have hbpos : 0 < blanksCount S0.grid := by
        rw [hS0g]
        exact Nat.pos_of_ne_zero hb0
      have hsf : solveFuel = 1000 := rfl
      have hfuel : 11 * blanksCount S0.grid + 1 ≤ solveFuel := by
        have h81 : blanksCount S0.grid ≤ 81 := by
          rw [hS0g]
          exact blanksCount_le g
        clear * - h81 hsf
        omega
      have hcomp := (runCall_complete solveFuel).1 S0 hinv0 hbpos hfuel
      rw [hS0c, hS0g, ← hrs, hK1] at hcomp
      have hNle : NComp g ≤ 1 := by
        clear * - hcomp
        omega
      have hsound := (runCall_sound solveFuel).1 S0 hinv0
        (by rw [hS0c, hS0g]; clear * - hNle; omega) hfuel
      unfold SolveOut at hsound
      rw [if_neg (show ¬blanksCount S0.grid = 0 from
        Nat.pos_iff_ne_zero.mp hbpos)] at hsound
      obtain ⟨_s1, _s2, _s3, _s4, s5, _s6, s7⟩ := hsound
      rw [hS0c, hS0g, ← hrs] at s5
      have hN1 : NComp g = 1 := by
        rw [hK1] at s5
        clear * - s5
        omega
      rw [hS0c, hS0g, ← hrs] at s7
      rw [if_pos ⟨rfl, hN1⟩] at s7
      have hret : SolveSudoku g = ((runSolve g).solvedGrid, true) := by
        rw [SolveSudoku_def, if_neg hK]
      refine ⟨(runSolve g).solvedGrid, hret, s7.2.1, s7.1, ?_, hN1, ?_⟩
      · exact unit_counts _ s7.2.1 s7.2.2
      · intro g'' hcomp'' rc hrc
        exact completions_unique g hN1 g'' (runSolve g).solvedGrid hcomp''
          s7 rc hrc

/-! ### Parser success invariants (C10) -/

theorem char_toNat_ofNat_small (n : Nat) (h : n < 55296) :
    (Char.ofNat n).toNat = n := by
  unfold Char.ofNat
  rw [dif_pos (Or.inl h)]
  rfl

theorem charOfNat_inj_small (a b : Nat) (ha : a < 55296) (hb : b < 55296)
    (h : Char.ofNat a = Char.ofNat b) : a = b := by
  have t1 := char_toNat_ofNat_small a ha
  have t2 := char_toNat_ofNat_small b hb
  rw [h, t2] at t1
  exact t1.symm

theorem mem_digitChars_of_range (ch : Char) (h1 : '1' ≤ ch) (h9 : ch ≤ '9') :
    ch ∈ digitChars := by
  have l1 : '1'.toNat ≤ ch.toNat :=
    BitVec.le_def.mp (UInt32.le_def.mp (Char.le_def.mp h1))
  have l9 : ch.toNat ≤ '9'.toNat :=
    BitVec.le_def.mp (UInt32.le_def.mp (Char.le_def.mp h9))
  have hv1 : '1'.toNat = 49 := rfl
  have hv9 : '9'.toNat = 57 := rfl
  have hof := Char.ofNat_toNat ch
  have hcases : ch.toNat = 49 ∨ ch.toNat = 50 ∨ ch.toNat = 51 ∨ ch.toNat = 52 ∨
      ch.toNat = 53 ∨ ch.toNat = 54 ∨ ch.toNat = 55 ∨ ch.toNat = 56 ∨
      ch.toNat = 57 := by omega
  rcases hcases with h | h | h | h | h | h | h | h | h <;> rw [← hof, h] <;>
    decide

theorem posKey_inj (a b c d : Char) (h : posKey a b = posKey c d) :
    a = c ∧ b = d := by
  unfold posKey at h
  have hl : [a, b] = [c, d] := congrArg String.data h
  simp only [List.cons.injEq, and_true] at hl
  exact hl

theorem mapSet_absent (g : RawGrid) (k : String) (v : Char)
    (hk : k ∉ g.map Prod.fst) : mapSet g k v = g ++ [(k, v)] := by
  unfold mapSet
  rw [if_neg (fun h => hk ((any_key_iff g k).mp h))]

theorem mapGet_absent (g : RawGrid) (k : String)
    (hk : k ∉ g.map Prod.fst) : mapGet g k = Char.ofNat 0 := by
  unfold mapGet
  rw [List.find?_eq_none.mpr (fun p hp => by
    simp only [beq_iff_eq]
    exact fun h => hk (h ▸ List.mem_map_of_mem Prod.fst hp))]

theorem mapGet_mem (g : RawGrid) (k : String) (hk : k ∈ g.map Prod.fst) :
    (k, mapGet g k) ∈ g := by
  induction g with
  | nil => simp at hk
  | cons p t ih =>
    by_cases hp : p.1 = k
    · have hget : mapGet (p :: t) k = p.2 := by
        unfold mapGet
        rw [List.find?_cons_of_pos _ (by simp [hp])]
      rw [hget]
      have hpk : p = (k, p.2) := by rw [← hp]
      rw [← hpk]
      exact List.mem_cons_self p t
    · have hget : mapGet (p :: t) k = mapGet t k := by
        unfold mapGet
        rw [List.find?_cons_of_neg _ (by simp [hp])]
      rw [hget]
      have hkt : k ∈ t.map Prod.fst := by
        rcases (by simpa using hk : k = p.1 ∨ k ∈ t.map Prod.fst) with h | h
        · exact absurd h.symm hp
        · exact h
      exact List.mem_cons_of_mem p (ih hkt)

theorem mapGet_cons_skip (q : String × Char) (l : RawGrid) (k : String)
    (hq : q.1 ≠ k) : mapGet (q :: l) k = mapGet l k := by
  unfold mapGet
  rw [List.find?_cons_of_neg _ (by simp [hq])]

theorem mapGet_cons_hit (q : String × Char) (l : RawGrid) (k : String)
    (hq : q.1 = k) : mapGet (q :: l) k = q.2 := by
  unfold mapGet
  rw [List.find?_cons_of_pos _ (by simp [hq])]

theorem mapGet_mapReplace_other (g : RawGrid) (k : String) (v : Char)
    (k' : String) (hne : k' ≠ k) :
    mapGet (g.map (fun p => if p.1 == k then (k, v) else p)) k' =
      mapGet g k' := by
  induction g with
  | nil => rfl
  | cons p t ih =>
    simp only [List.map_cons]
    by_cases hp : p.1 = k
    · rw [if_pos (by simp [hp]),
        mapGet_cons_skip (k, v) _ k' (Ne.symm hne),
        mapGet_cons_skip p t k' (by rw [hp]; exact Ne.symm hne)]
      exact ih
    · rw [if_neg (by simp [hp])]
      by_cases hpk' : p.1 = k'
      · rw [mapGet_cons_hit p _ k' hpk', mapGet_cons_hit p t k' hpk']
      · rw [mapGet_cons_skip p _ k' hpk', mapGet_cons_skip p t k' hpk']
        exact ih

theorem mapGet_append_single_other (g : RawGrid) (k : String) (v : Char)
    (k' : String) (hne : k' ≠ k) :
    mapGet (g ++ [(k, v)]) k' = mapGet g k' := by
  induction g with
  | nil =>
    show mapGet [(k, v)] k' = mapGet [] k'
    rw [mapGet_cons_skip (k, v) [] k' (Ne.symm hne)]
  | cons p t ih =>
    rw [List.cons_append]
    by_cases hpk' : p.1 = k'
    · rw [mapGet_cons_hit p _ k' hpk', mapGet_cons_hit p t k' hpk']
    · rw [mapGet_cons_skip p _ k' hpk', mapGet_cons_skip p t k' hpk']
      exact ih

theorem mapGet_mapSet_other (g : RawGrid) (k : String) (v : Char)
    (k' : String) (hne : k' ≠ k) :
    mapGet (mapSet g k v) k' = mapGet g k' := by
  by_cases hk : k ∈ g.map Prod.fst
  · rw [mapSet_present g k v hk]
    exact mapGet_mapReplace_other g k v k' hne
  · rw [mapSet_absent g k v hk]
    exact mapGet_append_single_other g k v k' hne

theorem rowEntries_keys (i : Nat) (chs : List Char) : ∀ j : Nat,
    (rowEntries i chs j).map Prod.fst =
      (List.range chs.length).map (fun t =>
        posKey (rowNames.getD (i - 1) 'A') (Char.ofNat ('1'.toNat + (j + t)))) := by
  induction chs with
  | nil => intro _; rfl
  | cons ch rest ih =>
    intro j
    show posKey (rowNames.getD (i - 1) 'A') (Char.ofNat ('1'.toNat + j)) ::
        (rowEntries i rest (j + 1)).map Prod.fst = _
    rw [List.length_cons, List.range_succ_eq_map, List.map_cons, List.map_map,
      ih (j + 1)]
    congr 1
    refine List.map_congr_left (fun t _ => ?_)
    show posKey (rowNames.getD (i - 1) 'A')
        (Char.ofNat ('1'.toNat + (j + 1 + t))) =
      posKey (rowNames.getD (i - 1) 'A')
        (Char.ofNat ('1'.toNat + (j + (t + 1))))
    have harith : j + 1 + t = j + (t + 1) := by omega
    rw [harith]

theorem rowNames_getD_inj : ∀ a < 9, ∀ b < 9, a ≠ b →
    rowNames.getD a 'A' ≠ rowNames.getD b 'A' := by decide

theorem parseChars_ok_strong (i : Nat) (chs : List Char) :
    ∀ (j : Nat) (g : RawGrid) (clues : Nat) (g' : RawGrid) (clues' : Nat),
      parseChars i chs j g clues = .ok (g', clues') →
      j + chs.length ≤ 9 →
      (∀ t, t < chs.length →
        posKey (rowNames.getD (i - 1) 'A') (Char.ofNat ('1'.toNat + (j + t))) ∉
          g.map Prod.fst) →
      g' = g ++ rowEntries i chs j ∧
      clues' = clues +
        ((rowEntries i chs j).filter (fun p => p.2 ≠ '.')).length ∧
      (∀ p ∈ rowEntries i chs j, p.2 ∈ digitChars ∨ p.2 = '.') := by
  induction chs with
  | nil =>
    intro j g clues g' clues' hok _ _
    rw [parseChars] at hok
    simp only [Except.ok.injEq, Prod.mk.injEq] at hok
    refine ⟨?_, ?_, ?_⟩
    · rw [← hok.1]
      simp [rowEntries]
    · rw [← hok.2]
      simp [rowEntries]
    · intro p hp
      simp [rowEntries] at hp
  | cons ch rest ih =>
    intro j g clues g' clues' hok hb hfresh
    have h49 : '1'.toNat = 49 := rfl
    rw [parseChars] at hok
    by_cases hcond : (ch < '1' ∨ '9' < ch) ∧ ch ≠ '.'
    · rw [if_pos hcond] at hok
      simp at hok
    · rw [if_neg hcond] at hok
      have hvch : ch ∈ digitChars ∨ ch = '.' := by
        by_cases hdot : ch = '.'
        · exact Or.inr hdot
        · left
          have hnr : ¬(ch < '1' ∨ '9' < ch) := fun h => hcond ⟨h, hdot⟩
          push_neg at hnr
          exact mem_digitChars_of_range ch hnr.1 hnr.2
      have hkey0 : posKey (rowNames.getD (i - 1) 'A')
          (Char.ofNat ('1'.toNat + j)) ∉ g.map Prod.fst := by
        have h := hfresh 0 (by simp)
        rwa [Nat.add_zero] at h
      have hok' : parseChars i rest (j + 1)
          (mapSet g (posKey (rowNames.getD (i - 1) 'A')
            (Char.ofNat ('1'.toNat + j))) ch)
          (if ch ≠ '.' then clues + 1 else clues) = .ok (g', clues') := hok
      rw [mapSet_absent g _ ch hkey0] at hok'
      have hfresh' : ∀ t, t < rest.length →
          posKey (rowNames.getD (i - 1) 'A')
            (Char.ofNat ('1'.toNat + (j + 1 + t))) ∉
          (g ++ [(posKey (rowNames.getD (i - 1) 'A')
            (Char.ofNat ('1'.toNat + j)), ch)]).map Prod.fst := by
        intro t ht hmem
        rw [List.map_append] at hmem
        rcases List.mem_append.mp hmem with hmem | hmem
        · have h := hfresh (1 + t) (by simp; omega)
          rw [show j + (1 + t) = j + 1 + t by omega] at h
          exact h hmem
        · simp only [List.map_cons, List.map_nil, List.mem_singleton] at hmem
          have hcc := (posKey_inj _ _ _ _ hmem).2
          have hlen : rest.length + 1 ≤ 9 - j := by
            simp only [List.length_cons] at hb
            omega
          have := charOfNat_inj_small _ _ (by omega) (by omega) hcc
          omega
      have hb' : (j + 1) + rest.length ≤ 9 := by
        simp only [List.length_cons] at hb
        omega
      obtain ⟨ih1, ih2, ih3⟩ := ih (j + 1) _ _ g' clues' hok' hb' hfresh'
      refine ⟨?_, ?_, ?_⟩
      · rw [ih1]
        show _ = g ++ ((posKey (rowNames.getD (i - 1) 'A')
          (Char.ofNat ('1'.toNat + j)), ch) :: rowEntries i rest (j + 1))
        rw [List.append_assoc]
        rfl
      · rw [ih2]
        show _ = clues + (((posKey (rowNames.getD (i - 1) 'A')
          (Char.ofNat ('1'.toNat + j)), ch) ::
            rowEntries i rest (j + 1)).filter (fun p => p.2 ≠ '.')).length
        rw [List.filter_cons]
        by_cases hdot : ch = '.' <;> simp [hdot] <;> omega
      · intro p hp
        rcases List.mem_cons.mp hp with h | h
        · rw [h]
          exact hvch
        · exact ih3 p h

theorem parseRows_ok_strong (args : List String) :
    ∀ (i : Nat) (g : RawGrid) (clues : Nat) (g' : RawGrid) (clues' : Nat),
      parseRows args i g clues = .ok (g', clues') →
      1 ≤ i → (i - 1) + args.length ≤ 9 →
      (∀ k ∈ g.map Prod.fst, ∀ t, t < args.length → ∀ col : Char,
        k ≠ posKey (rowNames.getD (i - 1 + t) 'A') col) →
      g' = g ++ rowsEntries args i ∧
      clues' = clues +
        ((rowsEntries args i).filter (fun p => p.2 ≠ '.')).length ∧
      (∀ p ∈ rowsEntries args i, p.2 ∈ digitChars ∨ p.2 = '.') ∧
      (∀ row ∈ args, row.length = 9) := by
  induction args with
  | nil =>
    intro i g clues g' clues' hok _ _ _
    rw [parseRows] at hok
    simp only [Except.ok.injEq, Prod.mk.injEq] at hok
    refine ⟨?_, ?_, ?_, ?_⟩
    · rw [← hok.1]
      simp [rowsEntries]
    · rw [← hok.2]
      simp [rowsEntries]
    · intro p hp
      simp [rowsEntries] at hp
    · intro r hr
      simp at hr
  | cons row rest ih =>
    intro i g clues g' clues' hok hi hb hfresh
    rw [parseRows] at hok
    by_cases hlen : row.length ≠ 9
    · rw [if_pos hlen] at hok
      simp at hok
    · rw [if_neg hlen] at hok
      have hlen9 : row.length = 9 := not_not.mp hlen
      have hlenL : row.toList.length = 9 := hlen9
      rcases hpc : parseChars i row.toList 0 g clues with e | gp
      · rw [hpc] at hok
        simp at hok
      · rcases gp with ⟨g1, clues1⟩
        rw [hpc] at hok
        have hok' : parseRows rest (i + 1) g1 clues1 = .ok (g', clues') := hok
        have hfreshC : ∀ t, t < row.toList.length →
            posKey (rowNames.getD (i - 1) 'A')
              (Char.ofNat ('1'.toNat + (0 + t))) ∉ g.map Prod.fst := by
          intro t _ hmem
          exact hfresh _ hmem 0 (by simp) _ rfl
        obtain ⟨hc1, hc2, hc3⟩ := parseChars_ok_strong i row.toList 0 g clues
          g1 clues1 hpc (by omega) hfreshC
        have hfreshR : ∀ k ∈ g1.map Prod.fst, ∀ t, t < rest.length →
            ∀ col : Char, k ≠ posKey (rowNames.getD ((i + 1) - 1 + t) 'A') col := by
          intro k hk t ht col heq
          rw [hc1, List.map_append] at hk
          rcases List.mem_append.mp hk with hk | hk
          · refine hfresh k hk (t + 1) (by simp; omega) col ?_
            rw [show i - 1 + (t + 1) = (i + 1) - 1 + t by omega]
            exact heq
          · rw [rowEntries_keys i row.toList 0] at hk
            obtain ⟨t', ht', hkeq⟩ := List.mem_map.mp hk
            rw [← hkeq] at heq
            have hfc := (posKey_inj _ _ _ _ heq).1
            have hblen : (i - 1) + (rest.length + 1) ≤ 9 := by
              simpa using hb
            exact rowNames_getD_inj (i - 1) (by omega) ((i + 1) - 1 + t)
              (by omega) (by omega) hfc
        obtain ⟨hr1, hr2, hr3, hr4⟩ := ih (i + 1) g1 clues1 g' clues' hok'
          (by omega) (by simp only [List.length_cons] at hb; omega) hfreshR
        refine ⟨?_, ?_, ?_, ?_⟩
        · rw [hr1, hc1, List.append_assoc]
          rfl
        · rw [hr2, hc2]
          show _ = clues + ((rowEntries i row.toList 0 ++
            rowsEntries rest (i + 1)).filter (fun p => p.2 ≠ '.')).length
          rw [List.filter_append, List.length_append]
          omega
        · intro p hp
          rcases List.mem_append.mp (by
            simpa [rowsEntries] using hp) with h | h
          · exact hc3 p h
          · exact hr3 p h
        · intro r hr
          rcases List.mem_cons.mp hr with h | h
          · rw [h]
            exact hlen9
          · exact hr4 r h

theorem validateLoop_ok_checks (entries : List (String × Char)) (g : RawGrid)
    (hsub : ∀ p ∈ entries, p.1 ∈ g.map Prod.fst)
    (hnd : (g.map Prod.fst).Nodup)
    (hok : (validateLoop entries g).2 = true) :
    ∀ p ∈ entries, p.2 ≠ '.' →
      isValid (mapSet g p.1 '.') p.1 (mapGet g p.1) = true := by
  induction entries with
  | nil =>
    intro p hp
    simp at hp
  | cons p rest ih =>
    have hmem := hsub p (List.mem_cons_self p rest)
    intro q hq hqd
    by_cases hval : p.2 ≠ '.'
    · rw [validateLoop, if_pos hval] at hok
      by_cases hv : isValid (mapSet g p.1 '.') p.1 (mapGet g p.1) = true
      · rw [if_neg (by simp [hv])] at hok
        rw [mapSet_mapSet_restore g p.1 hmem hnd] at hok
        rcases List.mem_cons.mp hq with h | h
        · rw [h]
          exact hv
        · exact ih (fun q' hq' => hsub q' (List.mem_cons_of_mem p hq')) hok q h hqd
      · rw [if_pos (by simp [hv])] at hok
        simp at hok
    · rw [validateLoop, if_neg hval] at hok
      rcases List.mem_cons.mp hq with h | h
      · rw [h] at hqd
        exact absurd (not_not.mp hval) hqd
      · exact ih (fun q' hq' => hsub q' (List.mem_cons_of_mem p hq')) hok q h hqd

theorem cellKey_ne (r1 c1 r2 c2 : Nat) (h1 : r1 < 9) (h2 : c1 < 9)
    (h3 : r2 < 9) (h4 : c2 < 9) (hne : ¬(r1 = r2 ∧ c1 = c2)) :
    posKey (Char.ofNat ('A'.toNat + r1)) (Char.ofNat ('1'.toNat + c1)) ≠
      posKey (Char.ofNat ('A'.toNat + r2)) (Char.ofNat ('1'.toNat + c2)) := by
  have hA : 'A'.toNat = 65 := rfl
  have h1n : '1'.toNat = 49 := rfl
  intro he
  obtain ⟨ha, hb⟩ := posKey_inj _ _ _ _ he
  have e1 := charOfNat_inj_small _ _ (by omega) (by omega) ha
  have e2 := charOfNat_inj_small _ _ (by omega) (by omega) hb
  exact hne ⟨by omega, by omega⟩

theorem colChar_mem : ∀ c < 9, Char.ofNat ('1'.toNat + c) ∈ digitChars := by
  decide

theorem rowChar_mem : ∀ r < 9, Char.ofNat ('A'.toNat + r) ∈ rowNames := by
  decide

theorem isValid_scans (g : RawGrid) (a b num : Char)
    (h : isValid g (posKey a b) num = true) :
    (∀ i ∈ digitChars, mapGet g (posKey a i) ≠ num) ∧
    (∀ i ∈ rowNames, mapGet g (posKey i b) ≠ num) ∧
    (∀ i < 3, ∀ j < 3,
      mapGet g (posKey
        (Char.ofNat ((Char.ofNat ('A'.toNat + (a.toNat - 'A'.toNat) / 3 * 3)).toNat + i))
        (Char.ofNat ((Char.ofNat ('1'.toNat + (b.toNat - '1'.toNat) / 3 * 3)).toNat + j))) ≠
        num) := by
  have h' : ((digitChars.all (fun i => !(mapGet g (posKey a i) == num))) &&
      (rowNames.all (fun i => !(mapGet g (posKey i b) == num))) &&
      ((List.range 3).all (fun i => (List.range 3).all (fun j =>
        !(mapGet g (posKey
          (Char.ofNat ((Char.ofNat ('A'.toNat + (a.toNat - 'A'.toNat) / 3 * 3)).toNat + i))
          (Char.ofNat ((Char.ofNat ('1'.toNat + (b.toNat - '1'.toNat) / 3 * 3)).toNat + j))) ==
          num))))) = true := h
  simp only [Bool.and_eq_true, List.all_eq_true, Bool.not_eq_true',
    beq_eq_false_iff_ne, List.mem_range] at h'
  exact ⟨h'.1.1, h'.1.2, fun i hi j hj => h'.2 i hi j hj⟩

theorem noConf_of_validate (g : RawGrid)
    (hkeys : g.map Prod.fst = standardKeys)
    (hnd : (g.map Prod.fst).Nodup)
    (hok : (validateLoop g g).2 = true) :
    NoConf (toGrid g) := by
  have hA : 'A'.toNat = 65 := rfl
  have h1n : '1'.toNat = 49 := rfl
  have hch := validateLoop_ok_checks g g
    (fun p hp => List.mem_map_of_mem Prod.fst hp) hnd hok
  have hkeycell : ∀ r, r < 9 → ∀ c, c < 9 →
      posKey (Char.ofNat ('A'.toNat + r)) (Char.ofNat ('1'.toNat + c)) ∈
        g.map Prod.fst := by
    intro r hr c hc
    rw [hkeys]
    exact List.mem_map.mpr ⟨(r, c), (mem_cellsList r c).mpr ⟨hr, hc⟩, rfl⟩
  have hvalid : ∀ r, r < 9 → ∀ c, c < 9 → toGrid g r c ≠ '.' →
      isValid
        (mapSet g (posKey (Char.ofNat ('A'.toNat + r)) (Char.ofNat ('1'.toNat + c))) '.')
        (posKey (Char.ofNat ('A'.toNat + r)) (Char.ofNat ('1'.toNat + c)))
        (toGrid g r c) = true := by
    intro r hr c hc hne
    exact hch (posKey (Char.ofNat ('A'.toNat + r)) (Char.ofNat ('1'.toNat + c)),
        mapGet g (posKey (Char.ofNat ('A'.toNat + r)) (Char.ofNat ('1'.toNat + c))))
      (mapGet_mem g _ (hkeycell r hr c hc)) hne
  have htrans : ∀ r, r < 9 → ∀ c, c < 9 → ∀ r', r' < 9 → ∀ c', c' < 9 →
      ¬(r' = r ∧ c' = c) →
      mapGet (mapSet g (posKey (Char.ofNat ('A'.toNat + r))
          (Char.ofNat ('1'.toNat + c))) '.')
        (posKey (Char.ofNat ('A'.toNat + r')) (Char.ofNat ('1'.toNat + c'))) =
        toGrid g r' c' := by
    intro r hr c hc r' hr' c' hc' hne
    exact mapGet_mapSet_other g _ '.' _ (cellKey_ne r' c' r c hr' hc' hr hc hne)
  intro u hu p hp q hq hne hpdot
  simp only [allUnits, List.mem_append, List.mem_map, List.mem_range,
    List.mem_flatMap] at hu
  rcases hu with (⟨r, hr, hu⟩ | ⟨c, hc, hu⟩) | ⟨br, hbr, bc, hbc, hu⟩
  · subst hu
    simp only [rowCells, List.mem_map, List.mem_range] at hp hq
    obtain ⟨c1, hc1, hp⟩ := hp
    obtain ⟨c2, hc2, hq⟩ := hq
    subst hp
    subst hq
    have hc12 : ¬(c1 = c2) := by
      intro h
      exact hne (by rw [h])
    have hiv := hvalid r hr c1 hc1 hpdot
    obtain ⟨hrow, _, _⟩ := isValid_scans _ _ _ _ hiv
    have hscan := hrow (Char.ofNat ('1'.toNat + c2)) (colChar_mem c2 hc2)
    rw [htrans r hr c1 hc1 r hr c2 hc2 (fun hcc => hc12 hcc.2.symm)] at hscan
    exact Ne.symm hscan
  · subst hu
    simp only [colCells, List.mem_map, List.mem_range] at hp hq
    obtain ⟨r1, hr1, hp⟩ := hp
    obtain ⟨r2, hr2, hq⟩ := hq
    subst hp
    subst hq
    have hr12 : ¬(r1 = r2) := by
      intro h
      exact hne (by rw [h])
    have hiv := hvalid r1 hr1 c hc hpdot
    obtain ⟨_, hcol, _⟩ := isValid_scans _ _ _ _ hiv
    have hscan := hcol (Char.ofNat ('A'.toNat + r2)) (rowChar_mem r2 hr2)
    rw [htrans r1 hr1 c hc r2 hr2 c hc (fun hcc => hr12 hcc.1.symm)] at hscan
    exact Ne.symm hscan
  · subst hu
    simp only [boxCells, List.mem_flatMap, List.mem_map, List.mem_range] at hp hq
    obtain ⟨i1, hi1, j1, hj1, hp⟩ := hp
    obtain ⟨i2, hi2, j2, hj2, hq⟩ := hq
    subst hp
    subst hq
    have hij : ¬(i1 = i2 ∧ j1 = j2) := by
      intro hcc
      exact hne (by rw [hcc.1, hcc.2])
    have hiv := hvalid (3 * br + i1) (by omega) (3 * bc + j1) (by omega) hpdot
    obtain ⟨_, _, hbox⟩ := isValid_scans _ _ _ _ hiv
    have hscan := hbox i2 hi2 j2 hj2
    have haT : (Char.ofNat ('A'.toNat + (3 * br + i1))).toNat =
        'A'.toNat + (3 * br + i1) :=
      char_toNat_ofNat_small _ (by omega)
    have hbT : (Char.ofNat ('1'.toNat + (3 * bc + j1))).toNat =
        '1'.toNat + (3 * bc + j1) :=
      char_toNat_ofNat_small _ (by omega)
    have hrs : (Char.ofNat ('A'.toNat +
        ((Char.ofNat ('A'.toNat + (3 * br + i1))).toNat - 'A'.toNat) / 3 * 3)).toNat =
        'A'.toNat + 3 * br := by
      rw [haT]
      rw [show 'A'.toNat + ('A'.toNat + (3 * br + i1) - 'A'.toNat) / 3 * 3 =
        'A'.toNat + 3 * br from by omega]
      exact char_toNat_ofNat_small _ (by omega)
    have hcs : (Char.ofNat ('1'.toNat +
        ((Char.ofNat ('1'.toNat + (3 * bc + j1))).toNat - '1'.toNat) / 3 * 3)).toNat =
        '1'.toNat + 3 * bc := by
      rw [hbT]
      rw [show '1'.toNat + ('1'.toNat + (3 * bc + j1) - '1'.toNat) / 3 * 3 =
        '1'.toNat + 3 * bc from by omega]
      exact char_toNat_ofNat_small _ (by omega)
    rw [hrs, hcs] at hscan
    rw [show 'A'.toNat + 3 * br + i2 = 'A'.toNat + (3 * br + i2) from by omega,
      show '1'.toNat + 3 * bc + j2 = '1'.toNat + (3 * bc + j2) from by omega] at hscan
    rw [htrans (3 * br + i1) (by omega) (3 * bc + j1) (by omega)
      (3 * br + i2) (by omega) (3 * bc + j2) (by omega)
      (fun hcc => hij ⟨by omega, by omega⟩)] at hscan
    exact Ne.symm hscan

theorem standardKeys_nodup : standardKeys.Nodup := by decide

theorem rowsEntries_keys_standard (args : List String) (h9 : args.length = 9)
    (hlen : ∀ row ∈ args, row.length = 9) :
    (rowsEntries args 1).map Prod.fst = standardKeys := by
  rcases args with _ | ⟨r1, args⟩
  · simp at h9
  rcases args with _ | ⟨r2, args⟩
  · simp at h9
  rcases args with _ | ⟨r3, args⟩
  · simp at h9
  rcases args with _ | ⟨r4, args⟩
  · simp at h9
  rcases args with _ | ⟨r5, args⟩
  · simp at h9
  rcases args with _ | ⟨r6, args⟩
  · simp at h9
  rcases args with _ | ⟨r7, args⟩
  · simp at h9
  rcases args with _ | ⟨r8, args⟩
  · simp at h9
  rcases args with _ | ⟨r9, args⟩
  · simp at h9
  have hargs : args = [] := by
    cases args with
    | nil => rfl
    | cons a l =>
      simp only [List.length_cons] at h9
      omega
  subst hargs
  have hl1 : r1.toList.length = 9 := hlen r1 (by simp)
  have hl2 : r2.toList.length = 9 := hlen r2 (by simp)
  have hl3 : r3.toList.length = 9 := hlen r3 (by simp)
  have hl4 : r4.toList.length = 9 := hlen r4 (by simp)
  have hl5 : r5.toList.length = 9 := hlen r5 (by simp)
  have hl6 : r6.toList.length = 9 := hlen r6 (by simp)
  have hl7 : r7.toList.length = 9 := hlen r7 (by simp)
  have hl8 : r8.toList.length = 9 := hlen r8 (by simp)
  have hl9 : r9.toList.length = 9 := hlen r9 (by simp)
  simp only [rowsEntries, List.map_append, List.map_nil, List.append_nil]
  rw [rowEntries_keys, rowEntries_keys, rowEntries_keys, rowEntries_keys,
    rowEntries_keys, rowEntries_keys, rowEntries_keys, rowEntries_keys,
    rowEntries_keys]
  rw [hl1, hl2, hl3, hl4, hl5, hl6, hl7, hl8, hl9]
  decide

theorem mapGet_self_of_nodup (g : RawGrid) (hnd : (g.map Prod.fst).Nodup) :
    ∀ p ∈ g, mapGet g p.1 = p.2 := by
  induction g with
  | nil =>
    intro p hp
    simp at hp
  | cons q t ih =>
    intro p hp
    have hnd' : (t.map Prod.fst).Nodup := (List.nodup_cons.mp (by simpa using hnd)).2
    have hqt : q.1 ∉ t.map Prod.fst := (List.nodup_cons.mp (by simpa using hnd)).1
    rcases List.mem_cons.mp hp with h | h
    · rw [h, mapGet_cons_hit q t q.1 rfl]
    · have hne : q.1 ≠ p.1 := fun he => hqt (he ▸ List.mem_map_of_mem Prod.fst h)
      rw [mapGet_cons_skip q t p.1 hne]
      exact ih hnd' p h

theorem mapGet_mapReplace_same (g : RawGrid) (k : String) (v : Char)
    (hk : k ∈ g.map Prod.fst) :
    mapGet (g.map (fun p => if p.1 == k then (k, v) else p)) k = v := by
  induction g with
  | nil => simp at hk
  | cons q t ih =>
    simp only [List.map_cons]
    by_cases hq : q.1 = k
    · rw [if_pos (by simp [hq])]
      exact mapGet_cons_hit (k, v) _ k rfl
    · rw [if_neg (by simp [hq])]
      have hkt : k ∈ t.map Prod.fst := by
        rcases (by simpa using hk : k = q.1 ∨ k ∈ t.map Prod.fst) with h | h
        · exact absurd h.symm hq
        · exact h
      rw [mapGet_cons_skip q _ k hq]
      exact ih hkt

theorem mapGet_mapSet_self_present (g : RawGrid) (k : String) (v : Char)
    (hk : k ∈ g.map Prod.fst) : mapGet (mapSet g k v) k = v := by
  rw [mapSet_present g k v hk]
  exact mapGet_mapReplace_same g k v hk

theorem digitChars_enum :
    ∀ i ∈ digitChars, ∃ c < 9, i = Char.ofNat ('1'.toNat + c) := by decide

theorem rowNames_enum :
    ∀ i ∈ rowNames, ∃ r < 9, i = Char.ofNat ('A'.toNat + r) := by decide

theorem isValid_intro (g : RawGrid) (a b num : Char)
    (hA : ∀ i ∈ digitChars, mapGet g (posKey a i) ≠ num)
    (hB : ∀ i ∈ rowNames, mapGet g (posKey i b) ≠ num)
    (hC : ∀ i < 3, ∀ j < 3,
      mapGet g (posKey
        (Char.ofNat ((Char.ofNat ('A'.toNat + (a.toNat - 'A'.toNat) / 3 * 3)).toNat + i))
        (Char.ofNat ((Char.ofNat ('1'.toNat + (b.toNat - '1'.toNat) / 3 * 3)).toNat + j))) ≠
        num) :
    isValid g (posKey a b) num = true := by
  show ((digitChars.all (fun i => !(mapGet g (posKey a i) == num))) &&
      (rowNames.all (fun i => !(mapGet g (posKey i b) == num))) &&
      ((List.range 3).all (fun i => (List.range 3).all (fun j =>
        !(mapGet g (posKey
          (Char.ofNat ((Char.ofNat ('A'.toNat + (a.toNat - 'A'.toNat) / 3 * 3)).toNat + i))
          (Char.ofNat ((Char.ofNat ('1'.toNat + (b.toNat - '1'.toNat) / 3 * 3)).toNat + j))) ==
          num))))) = true
  simp only [Bool.and_eq_true, List.all_eq_true, Bool.not_eq_true',
    beq_eq_false_iff_ne, List.mem_range]
  exact ⟨⟨hA, hB⟩, fun i hi j hj => hC i hi j hj⟩

theorem validateLoop_true_intro (entries : List (String × Char)) (g : RawGrid)
    (hsub : ∀ p ∈ entries, p.1 ∈ g.map Prod.fst)
    (hnd : (g.map Prod.fst).Nodup)
    (hch : ∀ p ∈ entries, p.2 ≠ '.' →
      isValid (mapSet g p.1 '.') p.1 (mapGet g p.1) = true) :
    (validateLoop entries g).2 = true := by
  induction entries with
  | nil => rfl
  | cons p rest ih =>
    have hmem := hsub p (List.mem_cons_self p rest)
    by_cases hval : p.2 ≠ '.'
    · rw [validateLoop, if_pos hval]
      have hv := hch p (List.mem_cons_self p rest) hval
      rw [if_neg (by simp [hv])]
      rw [mapSet_mapSet_restore g p.1 hmem hnd]
      exact ih (fun q hq => hsub q (List.mem_cons_of_mem p hq))
        (fun q hq hqd => hch q (List.mem_cons_of_mem p hq) hqd)
    · rw [validateLoop, if_neg hval]
      exact ih (fun q hq => hsub q (List.mem_cons_of_mem p hq))
        (fun q hq hqd => hch q (List.mem_cons_of_mem p hq) hqd)

theorem validate_of_noConf (g : RawGrid)
    (hkeys : g.map Prod.fst = standardKeys)
    (hnd : (g.map Prod.fst).Nodup)
    (hnc : NoConf (toGrid g)) :
    (validateLoop g g).2 = true := by
  have hA : 'A'.toNat = 65 := rfl
  have h1n : '1'.toNat = 49 := rfl
  refine validateLoop_true_intro g g (fun p hp => List.mem_map_of_mem Prod.fst hp) hnd ?_
  intro p hp hpd
  have hpk : p.1 ∈ standardKeys := by
    rw [← hkeys]
    exact List.mem_map_of_mem Prod.fst hp
  obtain ⟨rc, hrc, hkey⟩ := List.mem_map.mp hpk
  obtain ⟨r, c⟩ := rc
  obtain ⟨hr9, hc9⟩ := (mem_cellsList r c).mp hrc
  have hself : mapGet g p.1 = p.2 := mapGet_self_of_nodup g hnd p hp
  have hKmem : p.1 ∈ g.map Prod.fst := List.mem_map_of_mem Prod.fst hp
  have htg : toGrid g r c = p.2 := by
    rw [← hself, ← hkey]
    rfl
  have hpd' : toGrid g r c ≠ '.' := by
    rw [htg]
    exact hpd
  have hblank : mapGet (mapSet g p.1 '.') p.1 = '.' :=
    mapGet_mapSet_self_present g p.1 '.' hKmem
  have hother : ∀ r' c', r' < 9 → c' < 9 → ¬(r' = r ∧ c' = c) →
      mapGet (mapSet g p.1 '.')
        (posKey (Char.ofNat ('A'.toNat + r')) (Char.ofNat ('1'.toNat + c'))) =
        toGrid g r' c' := by
    intro r' c' hr' hc' hne
    exact mapGet_mapSet_other g _ '.' _ (by
      rw [← hkey]
      exact cellKey_ne r' c' r c hr' hc' hr9 hc9 hne)
  rw [hself]
  rw [← hkey] at hblank hother ⊢
  refine isValid_intro _ _ _ _ ?_ ?_ ?_
  · intro i hi
    obtain ⟨c', hc', hieq⟩ := digitChars_enum i hi
    subst hieq
    by_cases hcc : c' = c
    · subst hcc
      rw [hblank]
      exact Ne.symm hpd
    · rw [hother r c' hr9 hc' (fun hh => hcc hh.2)]
      have hu := hnc (rowCells r) (rowCells_mem_allUnits r hr9)
        (r, c) ((mem_rowCells r r c).mpr ⟨rfl, hc9⟩)
        (r, c') ((mem_rowCells r r c').mpr ⟨rfl, hc'⟩)
        (fun he => hcc (congrArg Prod.snd he).symm) hpd'
      rw [htg] at hu
      exact Ne.symm hu
  · intro i hi
    obtain ⟨r', hr', hieq⟩ := rowNames_enum i hi
    subst hieq
    by_cases hrr : r' = r
    · subst hrr
      rw [hblank]
      exact Ne.symm hpd
    · rw [hother r' c hr' hc9 (fun hh => hrr hh.1)]
      have hu := hnc (colCells c) (colCells_mem_allUnits c hc9)
        (r, c) ((mem_colCells c r c).mpr ⟨rfl, hr9⟩)
        (r', c) ((mem_colCells c r' c).mpr ⟨rfl, hr'⟩)
        (fun he => hrr (congrArg Prod.fst he).symm) hpd'
      rw [htg] at hu
      exact Ne.symm hu
  · intro i hi j hj
    have haT : (Char.ofNat ('A'.toNat + r)).toNat = 'A'.toNat + r :=
      char_toNat_ofNat_small _ (by omega)
    have hbT : (Char.ofNat ('1'.toNat + c)).toNat = '1'.toNat + c :=
      char_toNat_ofNat_small _ (by omega)
    have hrs : (Char.ofNat ('A'.toNat +
        ((Char.ofNat ('A'.toNat + r)).toNat - 'A'.toNat) / 3 * 3)).toNat =
        'A'.toNat + r / 3 * 3 := by
      rw [haT]
      rw [show 'A'.toNat + ('A'.toNat + r - 'A'.toNat) / 3 * 3 =
        'A'.toNat + r / 3 * 3 from by omega]
      exact char_toNat_ofNat_small _ (by omega)
    have hcs : (Char.ofNat ('1'.toNat +
        ((Char.ofNat ('1'.toNat + c)).toNat - '1'.toNat) / 3 * 3)).toNat =
        '1'.toNat + c / 3 * 3 := by
      rw [hbT]
      rw [show '1'.toNat + ('1'.toNat + c - '1'.toNat) / 3 * 3 =
        '1'.toNat + c / 3 * 3 from by omega]
      exact char_toNat_ofNat_small _ (by omega)
    rw [hrs, hcs]
    rw [show 'A'.toNat + r / 3 * 3 + i = 'A'.toNat + (r / 3 * 3 + i) from by omega,
      show '1'.toNat + c / 3 * 3 + j = '1'.toNat + (c / 3 * 3 + j) from by omega]
    by_cases heq : r / 3 * 3 + i = r ∧ c / 3 * 3 + j = c
    · rw [heq.1, heq.2]
      rw [hblank]
      exact Ne.symm hpd
    · rw [hother (r / 3 * 3 + i) (c / 3 * 3 + j) (by omega) (by omega) heq]
      have hu := hnc (boxCells (r / 3) (c / 3))
        (boxCells_mem_allUnits (r / 3) (c / 3) (by omega) (by omega))
        (r, c) ((mem_boxCells_div (r / 3) (c / 3) r c (by omega) (by omega)).mpr
          ⟨rfl, rfl, hr9, hc9⟩)
        (r / 3 * 3 + i, c / 3 * 3 + j)
        ((mem_boxCells (r / 3) (c / 3) (r / 3 * 3 + i) (c / 3 * 3 + j)).mpr
          ⟨i, hi, j, hj, by omega, by omega⟩)
        (fun he => heq ⟨(congrArg Prod.fst he).symm, (congrArg Prod.snd he).symm⟩)
        hpd'
      rw [htg] at hu
      exact Ne.symm hu

/-- C10 (confirmed): whenever `ParseInput` returns without an error, the
returned map holds exactly the 81 keys `"A1".."I9"` (rows `A`-`I` crossed with
columns `1`-`9`, in row-major order), every stored value is a digit `'1'..'9'`
or the blank `'.'`, at least 17 stored values are digits, and no digit occurs
twice in any row, column or 3×3 box of the corresponding grid. -/
theorem parseInput_ok_invariants (args : List String) (g : RawGrid)
    (hok : ParseInput args = Except.ok g) :
    g.map Prod.fst = standardKeys ∧
    (∀ p ∈ g, p.2 ∈ digitChars ∨ p.2 = '.') ∧
    17 ≤ (g.filter (fun p => p.2 ≠ '.')).length ∧
    NoConf (toGrid g) := by
  rw [ParseInput] at hok
  by_cases h9 : args.length = 9
  · rw [if_neg (not_not.mpr h9)] at hok
    rcases hpr : parseRows args 1 [] 0 with e | gp
    · rw [hpr] at hok
      simp at hok
    rcases gp with ⟨g0, clueCount⟩
    rw [hpr] at hok
    have hok2 : (if clueCount < 17 then
        (Except.error (ParseError.tooFewClues clueCount) : Except ParseError RawGrid)
      else if !(validateInitialGrid g0).2 then
        Except.error ParseError.conflicts
      else if isEmptyGrid (validateInitialGrid g0).1 then
        Except.error ParseError.emptyGrid
      else Except.ok (validateInitialGrid g0).1) = Except.ok g := hok
    by_cases hcl : clueCount < 17
    · rw [if_pos hcl] at hok2
      simp at hok2
    rw [if_neg hcl] at hok2
    cases hv : (validateInitialGrid g0).2 with
    | false =>
      rw [hv] at hok2
      simp at hok2
    | true =>
      rw [hv] at hok2
      simp only [Bool.not_true] at hok2
      rw [if_neg (by simp)] at hok2
      by_cases hemp : isEmptyGrid (validateInitialGrid g0).1 = true
      · rw [if_pos hemp] at hok2
        simp at hok2
      rw [if_neg hemp] at hok2
      simp only [Except.ok.injEq] at hok2
      obtain ⟨hg0, hclue, hwf, hrows⟩ := parseRows_ok_strong args 1 [] 0 g0 clueCount
        hpr (by omega) (by omega) (by intro k hk; simp at hk)
      have hg0' : g0 = rowsEntries args 1 := by
        rw [hg0]
        rfl
      have hkeys0 : g0.map Prod.fst = standardKeys := by
        rw [hg0']
        exact rowsEntries_keys_standard args h9 hrows
      have hnd0 : (g0.map Prod.fst).Nodup := by
        rw [hkeys0]
        exact standardKeys_nodup
      have hid : (validateInitialGrid g0).1 = g0 :=
        validateLoop_ok_id g0 g0 (fun p hp => List.mem_map_of_mem Prod.fst hp) hnd0 hv
      have hgg0 : g = g0 := by
        rw [← hok2]
        exact hid
      subst hgg0
      refine ⟨hkeys0, ?_, ?_, ?_⟩
      · rw [hg0']
        exact hwf
      · rw [hg0']
        have h17 : 17 ≤ clueCount := by omega
        rw [hclue] at h17
        simpa using h17
      · exact noConf_of_validate g hkeys0 hnd0 hv
  · rw [if_pos h9] at hok
    simp at hok

set_option maxHeartbeats 4000000 in
theorem parseInput_ok_invariants_witness :
    ParseInput gOneArgs = Except.ok (rowsEntries gOneArgs 1) ∧
    ((rowsEntries gOneArgs 1).map Prod.fst = standardKeys ∧
      (∀ p ∈ rowsEntries gOneArgs 1, p.2 ∈ digitChars ∨ p.2 = '.') ∧
      17 ≤ ((rowsEntries gOneArgs 1).filter (fun p => p.2 ≠ '.')).length ∧
      NoConf (toGrid (rowsEntries gOneArgs 1))) := by
  have hpr : parseRows gOneArgs 1 [] 0 =
      Except.ok (rowsEntries gOneArgs 1, 80) := by decide
  have hkeys : (rowsEntries gOneArgs 1).map Prod.fst = standardKeys := by decide
  have hnd : ((rowsEntries gOneArgs 1).map Prod.fst).Nodup := by
    rw [hkeys]
    exact standardKeys_nodup
  have hnc : NoConf (toGrid (rowsEntries gOneArgs 1)) := by decide
  have hv2 : (validateInitialGrid (rowsEntries gOneArgs 1)).2 = true :=
    validate_of_noConf _ hkeys hnd hnc
  have hv1 : (validateInitialGrid (rowsEntries gOneArgs 1)).1 =
      rowsEntries gOneArgs 1 :=
    validateLoop_ok_id _ _ (fun p hp => List.mem_map_of_mem Prod.fst hp) hnd hv2
  have hpf : ParseInput gOneArgs = Except.ok (rowsEntries gOneArgs 1) := by
    have e1 : ParseInput gOneArgs =
        (if (80 : Nat) < 17 then
          (Except.error (ParseError.tooFewClues 80) : Except ParseError RawGrid)
        else if !(validateInitialGrid (rowsEntries gOneArgs 1)).2 then
          Except.error ParseError.conflicts
        else if isEmptyGrid (validateInitialGrid (rowsEntries gOneArgs 1)).1 then
          Except.error ParseError.emptyGrid
        else Except.ok (validateInitialGrid (rowsEntries gOneArgs 1)).1) := by
      rw [ParseInput, if_neg (by decide : ¬(gOneArgs.length ≠ 9)), hpr]
    rw [e1, if_neg (by decide : ¬((80 : Nat) < 17)), hv2]
    simp only [Bool.not_true]
    rw [if_neg (by simp : ¬(false = true)), hv1]
    rw [if_neg (by decide : ¬(isEmptyGrid (rowsEntries gOneArgs 1) = true))]
  exact ⟨hpf, parseInput_ok_invariants gOneArgs (rowsEntries gOneArgs 1) hpf⟩

/-- Witness for C1 at `gOne`: the validated single-blank grid is solved with
the unique-solution flag, and the theorem's guarantees hold there. -/
theorem solveSudoku_unique_correct_witness :
    PassedValidation gOne ∧ (SolveSudoku gOne).2 = true ∧
      (∃ sol : Grid, SolveSudoku gOne = (sol, true) ∧ FullG sol ∧
        ExtendsG gOne sol ∧
        (∀ u ∈ allUnits, ∀ d ∈ digitChars,
          (u.map (fun rc => sol rc.1 rc.2)).count d = 1) ∧
        NComp gOne = 1 ∧
        (∀ g'' : Grid, IsCompletion gOne g'' →
          ∀ rc ∈ cellsList, g'' rc.1 rc.2 = sol rc.1 rc.2)) :=
  ⟨by decide, by decide, solveSudoku_unique_correct gOne (by decide) (by decide)⟩

end SudokuX
